import Mathlib

/-!
Verification of the elogfetch ingestion pipeline.

This file gives a shallow embedding, in Lean, of the core of the
`elogfetch` repository and proves the specification claims about it:

* `src/elogfetch/api/logbook.py` — run-number inference for logbook
  entries (`_identify_run_boundaries`, `_infer_run_numbers`,
  `_transform_entries`);
* `src/elogfetch/storage/database.py` — the relational merge engine
  (`insert_experiment_batch` and its helpers, `delete_experiment`,
  metadata, close);
* `src/elogfetch/cli.py` — the single-writer drain loop
  (`writer_thread`), commit batching, and the fetch worker
  (`fetch_and_queue`);
* `src/fetch_elog/utils/locking.py` — the advisory exclusivity lock.

Python strings are modeled as Lean `String`; the Python string
operations used by the source (lexicographic comparison, `lower`,
substring containment, `split`, `int`) are re-implemented structurally
over `List Char` so that every definition evaluates inside the kernel.
Python `None` becomes `Option.none`.  SQLite tables are modeled as
lists of row structures; `AUTOINCREMENT` surrogate keys are modeled by
monotone counters where the key is referenced elsewhere (`run_id`,
`detector_id`) and omitted where it is never read.
-/

/-! ### Python string primitives -/

/-- Lexicographic (code-point) comparison of character lists, matching
Python `str.__lt__`. -/
def strLtb : List Char → List Char → Bool
  | [], [] => false
  | [], _ :: _ => true
  | _ :: _, [] => false
  | c :: a, d :: b => if c < d then true else if d < c then false else strLtb a b

/-- Python `a < b` on strings. -/
def pyLt (a b : String) : Bool := strLtb a.toList b.toList

/-- Python `a <= b` on strings. -/
def pyLe (a b : String) : Bool := pyLt a b || a = b

/-- ASCII lower-casing of one character, as Python `str.lower` acts on
the ASCII range. -/
def lowerChar (c : Char) : Char :=
  if 'A' ≤ c ∧ c ≤ 'Z' then Char.ofNat (c.toNat + 32) else c

/-- Python `str.lower`. -/
def pyLower (s : String) : String := ⟨s.toList.map lowerChar⟩

/-- Check that `p` occurs at the head of `s`. -/
def leadsWith : List Char → List Char → Bool
  | [], _ => true
  | _ :: _, [] => false
  | c :: p, d :: s => c = d && leadsWith p s

/-- Python `p in s` substring containment. -/
def containsChars (s p : List Char) : Bool :=
  match s with
  | [] => leadsWith p []
  | _ :: s' => leadsWith p s || containsChars s' p

/-- Python `p in s` on strings. -/
def pyContains (s p : String) : Bool := containsChars s.toList p.toList

/-- Python `s.startswith(p)` on strings. -/
def pyStartsWith (s p : String) : Bool := leadsWith p.toList s.toList

/-- Helper for `wsSplit`: accumulates the current (reversed) token. -/
def wsSplitAux : List Char → List Char → List (List Char)
  | cur, [] => if cur.isEmpty then [] else [cur.reverse]
  | cur, c :: cs =>
    if c.isWhitespace then
      if cur.isEmpty then wsSplitAux [] cs else cur.reverse :: wsSplitAux [] cs
    else wsSplitAux (c :: cur) cs

/-- Python `str.split()` with no argument: split on whitespace runs,
discarding empty tokens. -/
def wsSplit (s : String) : List String := (wsSplitAux [] s.toList).map List.asString

/-- Python `s.split(":")[0]`: the text before the first colon (the whole
string when there is no colon). -/
def beforeColon (s : String) : String := ⟨s.toList.takeWhile (fun c => c ≠ ':')⟩

/-- Numeric value of a digit list (most significant first). -/
def digitsVal (cs : List Char) : Nat :=
  cs.foldl (fun a c => a * 10 + (c.toNat - 48)) 0

/-- Parse a non-empty all-digit list, as the unsigned part of Python
`int(str)`. -/
def parseDigits (cs : List Char) : Option Nat :=
  if cs ≠ [] ∧ cs.all (·.isDigit) then some (digitsVal cs) else none

/-- Python `int(s)` on a whitespace-free token: optional sign followed
by decimal digits; `none` models the `ValueError` raised otherwise. -/
def pyInt (s : String) : Option Int :=
  match s.toList with
  | '+' :: rest => (parseDigits rest).map (fun n => (n : Int))
  | '-' :: rest => (parseDigits rest).map (fun n => -(n : Int))
  | cs => (parseDigits cs).map (fun n => (n : Int))

/-- Decimal digit character. -/
def digitChar : Nat → Char
  | 0 => '0' | 1 => '1' | 2 => '2' | 3 => '3' | 4 => '4'
  | 5 => '5' | 6 => '6' | 7 => '7' | 8 => '8' | 9 => '9'
  | _ => '*'

/-- Fuel-driven decimal rendering of a natural number. -/
def natToCharsAux : Nat → Nat → List Char → List Char
  | 0, _, acc => acc
  | fuel + 1, n, acc =>
    if n < 10 then digitChar n :: acc
    else natToCharsAux fuel (n / 10) (digitChar (n % 10) :: acc)

/-- Decimal rendering of a natural number, as Python `str(n)`. -/
def natToChars (n : Nat) : List Char := natToCharsAux (n + 1) n []

/-- Python `str(i)` for an integer. -/
def intToChars : Int → List Char
  | .ofNat m => natToChars m
  | .negSucc m => '-' :: natToChars (m + 1)

/-! ### Association lists with Python `dict` semantics

Python `d[k] = v` keeps the original position of an existing key and
appends a fresh key; `d.get(k)` looks the key up. -/

/-- Python `d[k] = v` on an association list. -/
def dictSet {β : Type} (m : List (String × β)) (k : String) (v : β) :
    List (String × β) :=
  if m.any (fun p => p.1 = k) then
    m.map (fun p => if p.1 = k then (k, v) else p)
  else m ++ [(k, v)]

/-- Python `d.get(k)` on an association list. -/
def dictGet? {β : Type} (m : List (String × β)) (k : String) : Option β :=
  (m.find? (fun p => p.1 = k)).map Prod.snd

/-- Loop of the shape `for e in l: if f(e) is not None: d[key(e)] = f(e)`
building a Python dictionary, shared by `_identify_run_boundaries` and
`_infer_run_numbers`. -/
def dictCollect {α β : Type} (key : α → String) (f : α → Option β)
    (l : List α) : List (String × β) :=
  l.foldl
    (fun m e =>
      match f e with
      | some v => dictSet m (key e) v
      | none => m)
    []

/-- Stable insertion into a sorted list: the new element goes before
the first element it does not strictly exceed. -/
def insertStable {α : Type} (lt : α → α → Bool) (x : α) : List α → List α
  | [] => [x]
  | y :: ys => if lt y x then y :: insertStable lt x ys else x :: y :: ys

/-- Stable sort (insertion sort), matching Python `sorted`. -/
def stableSort {α : Type} (lt : α → α → Bool) : List α → List α
  | [] => []
  | x :: xs => insertStable lt x (stableSort lt xs)

/-! ### Logbook transformation (`src/elogfetch/api/logbook.py`) -/

/-- One raw logbook entry as consumed by `_transform_entries`: the
fields the transformation reads from the API dictionary. -/
structure LogEntry where
  id : String
  insert_time : String
  run_num : Option Int
  content : Option String
  tags : Option (List String)
  author : Option String
deriving DecidableEq, Repr

/-- Scan of the whitespace tokens for the first "number" token followed
by another token, which is then parsed with `int`; the scan stops at
that token whether or not the parse succeeds, mirroring the
`try`/`break` structure in `_identify_run_boundaries`. -/
def findRunAfterNumber : List String → Option Int
  | p :: q :: rest =>
    if p = "number" then pyInt q else findRunAfterNumber (q :: rest)
  | _ => none

/-- Heuristic run-number extraction from lower-cased content:
`content.split(":")[0].split()` scanned by `findRunAfterNumber`. -/
def heuristicRun (content : String) : Option Int :=
  findRunAfterNumber (wsSplit (beforeColon content))

/-- Per-entry body of the loop in `_identify_run_boundaries`: an
explicit `run_num` is a boundary; otherwise, when the lower-cased
content contains both "run number" and "running", the integer token
after the word "number" in the text before the first colon is parsed
(`none` when the parse raises `ValueError`, which the source swallows). -/
def entryBoundary (e : LogEntry) : Option Int :=
  let content := pyLower (e.content.getD "")
  match e.run_num with
  | some r => some r
  | none =>
    if pyContains content "run number" && pyContains content "running" then
      heuristicRun content
    else none

/-- The `_identify_run_boundaries` dictionary: timestamp to run number,
built in entry order. -/
def identifyRunBoundaries (sorted_entries : List LogEntry) :
    List (String × Int) :=
  dictCollect (fun e => e.insert_time) entryBoundary sorted_entries

/-- The boundary walk of `_infer_run_numbers` for one timestamp:
`prev` is the run of the previous boundary (the `boundary_runs[i-1]`
read on `break`), `acc` is the running `inferred_run`. -/
def inferWalk (ts : String) : Option Int → Option Int → List (String × Int) → Option Int
  | _, acc, [] => acc
  | prev, acc, (bt, br) :: rest =>
    if pyLt ts bt then
      match prev with
      | some p => some p
      | none => acc
    else if rest.isEmpty || ts = bt then
      inferWalk ts (some br) (some br) rest
    else
      inferWalk ts (some br) acc rest

/-- Boundary pairs sorted by timestamp: `sorted(run_boundaries.keys())`
zipped with the corresponding run numbers. -/
def sortedBoundaries (m : List (String × Int)) : List (String × Int) :=
  (stableSort pyLt (m.map Prod.fst)).map (fun t => (t, (dictGet? m t).getD 0))

/-- The `_infer_run_numbers` dictionary: entry id to inferred run for
every entry lacking an explicit `run_num` (the stored value may itself
be `none`, mirroring an unresolved `inferred_run`). -/
def inferRunNumbers (sorted_entries : List LogEntry)
    (run_boundaries : List (String × Int)) : List (String × Option Int) :=
  let bps := sortedBoundaries run_boundaries
  dictCollect (fun e => e.id)
    (fun e =>
      match e.run_num with
      | some _ => none
      | none => some (inferWalk e.insert_time none none bps))
    sorted_entries

/-- Python `",".join(tags)` guarded by `if not tags: return None`. -/
def formatTags : Option (List String) → Option String
  | none => none
  | some [] => none
  | some ts => some (String.intercalate "," ts)

/-- One row of the transformed logbook output. -/
structure TransformedEntry where
  log_id : String
  experiment_id : String
  run_number : Option Int
  timestamp : String
  content : Option String
  tags : Option String
  author : Option String
deriving DecidableEq, Repr

/-- Per-entry body of the output loop in `_transform_entries`: an
explicit `run_num` is kept, otherwise the inferred dictionary is
consulted. -/
def transformOne (experiment_id : String)
    (inferred : List (String × Option Int)) (e : LogEntry) :
    TransformedEntry :=
  { log_id := e.id
    experiment_id := experiment_id
    run_number :=
      match e.run_num with
      | some r => some r
      | none => (dictGet? inferred e.id).getD none
    timestamp := e.insert_time
    content := e.content
    tags := formatTags e.tags
    author := e.author }

/-- The `_transform_entries` pipeline: sort by timestamp, identify the
boundaries, infer runs, and emit one row per entry. -/
def transformEntries (experiment_id : String) (raw : List LogEntry) :
    List TransformedEntry :=
  let sorted_entries :=
    stableSort (fun a b => pyLt a.insert_time b.insert_time) raw
  let run_boundaries := identifyRunBoundaries sorted_entries
  let inferred := inferRunNumbers sorted_entries run_boundaries
  sorted_entries.map (transformOne experiment_id inferred)

/-! ### Order facts about the Python string comparison -/

theorem strLtb_irrefl (a : List Char) : strLtb a a = false := by
  induction a with
  | nil => rfl
  | cons c a ih => simp [strLtb, ih]

theorem strLtb_cons (c d : Char) (a b : List Char) :
    strLtb (c :: a) (d :: b) =
      if c < d then true else if d < c then false else strLtb a b := rfl

theorem strLtb_trans :
    ∀ (a b c : List Char), strLtb a b = true → strLtb b c = true →
      strLtb a c = true := by
  intro a
  induction a with
  | nil =>
    intro b c hab hbc
    cases b with
    | nil => exact hbc
    | cons y b =>
      cases c with
      | nil => simp [strLtb] at hbc
      | cons z c => rfl
  | cons x a ih =>
    intro b c hab hbc
    cases b with
    | nil => simp [strLtb] at hab
    | cons y b =>
      cases c with
      | nil => simp [strLtb] at hbc
      | cons z c =>
        rw [strLtb_cons] at hab hbc ⊢
        by_cases hxy : x < y
        · by_cases hyz : y < z
          · rw [if_pos (lt_trans hxy hyz)]
          · by_cases hzy : z < y
            · rw [if_neg hyz, if_pos hzy] at hbc
              exact absurd hbc (by simp)
            · have hyzEq : y = z := le_antisymm (not_lt.mp hzy) (not_lt.mp hyz)
              rw [← hyzEq, if_pos hxy]
        · by_cases hyx : y < x
          · rw [if_neg hxy, if_pos hyx] at hab
            exact absurd hab (by simp)
          · have hxyEq : x = y := le_antisymm (not_lt.mp hyx) (not_lt.mp hxy)
            rw [if_neg hxy, if_neg hyx] at hab
            subst hxyEq
            by_cases hxz : x < z
            · rw [if_pos hxz]
            · by_cases hzx : z < x
              · rw [if_neg hxz, if_pos hzx] at hbc
                exact absurd hbc (by simp)
              · rw [if_neg hxz, if_neg hzx] at hbc ⊢
                exact ih b c hab hbc

theorem pyLt_irrefl (s : String) : pyLt s s = false := strLtb_irrefl _

theorem pyLt_trans {a b c : String} (h1 : pyLt a b = true)
    (h2 : pyLt b c = true) : pyLt a c = true :=
  strLtb_trans _ _ _ h1 h2

theorem pyLt_ne {a b : String} (h : pyLt a b = true) : a ≠ b := by
  intro hEq
  rw [hEq] at h
  exact absurd h (by simp [pyLt_irrefl])

theorem pyLt_asymm {a b : String} (h : pyLt a b = true) : pyLt b a = false := by
  by_contra hc
  have hba : pyLt b a = true := by
    cases hq : pyLt b a with
    | true => rfl
    | false => exact absurd hq hc
  have : pyLt a a = true := pyLt_trans h hba
  simp [pyLt_irrefl] at this

/-! ### Properties of the boundary walk -/

theorem inferWalk_cons (ts bt : String) (br : Int) (prev acc : Option Int)
    (rest : List (String × Int)) :
    inferWalk ts prev acc ((bt, br) :: rest) =
      if pyLt ts bt = true then
        match prev with
        | some p => some p
        | none => acc
      else if (rest.isEmpty || decide (ts = bt)) = true then
        inferWalk ts (some br) (some br) rest
      else inferWalk ts (some br) acc rest := rfl

theorem inferWalk_head_lt (ts bt : String) (br : Int) (prev acc : Option Int)
    (rest : List (String × Int)) (h : pyLt ts bt = true) :
    inferWalk ts prev acc ((bt, br) :: rest) =
      match prev with
      | some p => some p
      | none => acc := by
  rw [inferWalk_cons, if_pos h]

/-- When the timestamp is at-or-after every boundary time, the walk
returns the last boundary's run, whatever the running state. -/
theorem inferWalk_ge_all (ts : String) :
    ∀ (l : List (String × Int)) (hne : l ≠ [])
      (_ : ∀ p ∈ l, pyLt ts p.1 = false) (prev acc : Option Int),
      inferWalk ts prev acc l = some (l.getLast hne).2 := by
  intro l
  induction l with
  | nil => intro hne; exact absurd rfl hne
  | cons p rest ih =>
    intro _ hall prev acc
    obtain ⟨bt, br⟩ := p
    have hlt : pyLt ts bt = false := hall (bt, br) (by simp)
    rw [inferWalk_cons, if_neg (by simp [hlt])]
    cases rest with
    | nil => simp [inferWalk]
    | cons q rest' =>
      have hne' : q :: rest' ≠ [] := by simp
      have hall' : ∀ p ∈ q :: rest', pyLt ts p.1 = false := by
        intro p hp; exact hall p (by simp [hp])
      rw [List.getLast_cons hne']
      by_cases hcond : ((q :: rest').isEmpty || decide (ts = bt)) = true
      · rw [if_pos hcond]
        exact ih hne' hall' (some br) (some br)
      · rw [if_neg hcond]
        exact ih hne' hall' (some br) acc

/-- When the timestamp sits at-or-after the head boundary and strictly
before the next one, the walk returns the head boundary's run. -/
theorem inferWalk_pair (ts t1 t2 : String) (r1 r2 : Int)
    (rest : List (String × Int)) (prev acc : Option Int)
    (h1 : pyLt ts t1 = false) (h2 : pyLt ts t2 = true) :
    inferWalk ts prev acc ((t1, r1) :: (t2, r2) :: rest) = some r1 := by
  rw [inferWalk_cons, if_neg (by simp [h1])]
  by_cases hcond : (((t2, r2) :: rest).isEmpty || decide (ts = t1)) = true
  · rw [if_pos hcond, inferWalk_head_lt _ _ _ _ _ _ h2]
  · rw [if_neg hcond, inferWalk_head_lt _ _ _ _ _ _ h2]

/-- Boundaries whose time is strictly below the timestamp are walked
over without resolving, only updating the previous-boundary state. -/
theorem inferWalk_skip (ts : String) :
    ∀ (pre : List (String × Int)) (l : List (String × Int)) (_ : l ≠ [])
      (_ : ∀ p ∈ pre, pyLt ts p.1 = false ∧ ts ≠ p.1) (prev acc : Option Int),
      ∃ prev2, inferWalk ts prev acc (pre ++ l) = inferWalk ts prev2 acc l := by
  intro pre
  induction pre with
  | nil => intro l _ _ prev acc; exact ⟨prev, rfl⟩
  | cons p pre' ih =>
    intro l hl hall prev acc
    obtain ⟨bt, br⟩ := p
    have h1 : pyLt ts bt = false := (hall (bt, br) (by simp)).1
    have h2 : ts ≠ bt := (hall (bt, br) (by simp)).2
    have hne : pre' ++ l ≠ [] := by
      simp only [ne_eq, List.append_eq_nil]
      rintro ⟨-, h⟩; exact hl h
    have hemp : (pre' ++ l).isEmpty = false := by
      simpa [List.isEmpty_iff] using hne
    rw [List.cons_append, inferWalk_cons, if_neg (by simp [h1]),
      if_neg (by simp [hemp, h2])]
    exact ih l hl (fun p hp => hall p (by simp [hp])) (some br) acc

/-! ### Lookup characterization of the dictionary-building loops -/

theorem dictSet_of_mem {β : Type} {m : List (String × β)} {k : String}
    (h : m.any (fun p => p.1 = k) = true) (v : β) :
    dictSet m k v = m.map (fun p => if p.1 = k then (k, v) else p) := by
  simp [dictSet, h]

theorem dictSet_of_not_mem {β : Type} {m : List (String × β)} {k : String}
    (h : m.any (fun p => p.1 = k) = false) (v : β) :
    dictSet m k v = m ++ [(k, v)] := by
  simp [dictSet, h]

theorem find?_replaceKey {β : Type} (m : List (String × β)) (k : String) (v : β)
    (h : m.any (fun p => p.1 = k) = true) :
    (m.map (fun p => if p.1 = k then (k, v) else p)).find?
      (fun p => p.1 = k) = some (k, v) := by
  induction m with
  | nil => simp at h
  | cons p m ih =>
    by_cases hp : p.1 = k
    · simp [hp, List.find?_cons]
    · have h' : m.any (fun q => q.1 = k) = true := by
        simpa [List.any_cons, hp] using h
      simpa [hp, List.find?_cons] using ih h'

theorem find?_replaceKey_ne {β : Type} (m : List (String × β)) (k' k : String)
    (v : β) (hne : k' ≠ k) :
    (m.map (fun p => if p.1 = k' then (k', v) else p)).find?
      (fun p => p.1 = k) = m.find? (fun p => p.1 = k) := by
  induction m with
  | nil => rfl
  | cons p m ih =>
    by_cases hp : p.1 = k'
    · have hpk : ¬ p.1 = k := by rw [hp]; exact hne
      rw [List.map_cons, if_pos hp,
        List.find?_cons_of_neg _ (by simpa using hne),
        List.find?_cons_of_neg _ (by simpa using hpk), ih]
    · by_cases hk : p.1 = k
      · rw [List.map_cons, if_neg hp,
          List.find?_cons_of_pos _ (by simpa using hk),
          List.find?_cons_of_pos _ (by simpa using hk)]
      · rw [List.map_cons, if_neg hp,
          List.find?_cons_of_neg _ (by simpa using hk),
          List.find?_cons_of_neg _ (by simpa using hk), ih]

theorem dictGet?_dictSet_self {β : Type} (m : List (String × β)) (k : String)
    (v : β) : dictGet? (dictSet m k v) k = some v := by
  cases hany : m.any (fun p => p.1 = k) with
  | true =>
    rw [dictSet_of_mem hany, dictGet?, find?_replaceKey m k v hany]
    rfl
  | false =>
    rw [dictSet_of_not_mem hany, dictGet?]
    have hnone : m.find? (fun p => p.1 = k) = none := by
      rw [List.find?_eq_none]
      intro p hp
      have := List.any_eq_false.mp hany p hp
      simpa using this
    rw [List.find?_append, hnone]
    simp [List.find?_cons]

theorem dictGet?_dictSet_ne {β : Type} (m : List (String × β)) (k' k : String)
    (v : β) (hne : k' ≠ k) :
    dictGet? (dictSet m k' v) k = dictGet? m k := by
  cases hany : m.any (fun p => p.1 = k') with
  | true => rw [dictSet_of_mem hany, dictGet?, find?_replaceKey_ne m k' k v hne, dictGet?]
  | false =>
    rw [dictSet_of_not_mem hany, dictGet?, List.find?_append, dictGet?]
    cases hfind : m.find? (fun p => p.1 = k) with
    | some p => simp
    | none => simp [List.find?_cons, hne]

theorem dictGet?_eq_none {β : Type} (m : List (String × β)) (k : String)
    (h : ∀ p ∈ m, p.1 ≠ k) : dictGet? m k = none := by
  rw [dictGet?, List.find?_eq_none.mpr (by simpa using h)]
  rfl

theorem keys_of_dictSet {β : Type} (m : List (String × β)) (k : String) (v : β)
    (p : String × β) (hp : p ∈ dictSet m k v) :
    p.1 = k ∨ ∃ q ∈ m, p.1 = q.1 := by
  cases hany : m.any (fun q => q.1 = k) with
  | true =>
    rw [dictSet_of_mem hany] at hp
    obtain ⟨q, hq, hqp⟩ := List.mem_map.mp hp
    by_cases hqk : q.1 = k
    · left; rw [← hqp]; simp [hqk]
    · right; exact ⟨q, hq, by rw [← hqp]; simp [hqk]⟩
  | false =>
    rw [dictSet_of_not_mem hany] at hp
    rcases List.mem_append.mp hp with h | h
    · right; exact ⟨p, h, rfl⟩
    · left; simp at h; rw [h]

theorem dictCollect_go {α β : Type} (key : α → String) (f : α → Option β) :
    ∀ (l : List α) (m : List (String × β)) (k : String),
      l.Pairwise (fun a b => key a ≠ key b) →
      (∀ e ∈ l, ∀ p ∈ m, p.1 ≠ key e) →
      dictGet?
          (l.foldl
            (fun m e =>
              match f e with
              | some v => dictSet m (key e) v
              | none => m)
            m) k =
        (match l.find? (fun e => key e = k) with
         | some e => f e
         | none => dictGet? m k) := by
  intro l
  induction l with
  | nil => intro m k _ _; rfl
  | cons e l ih =>
    intro m k hd hsep
    have hhead : ∀ b ∈ l, key e ≠ key b := (List.pairwise_cons.mp hd).1
    have htail : l.Pairwise (fun a b => key a ≠ key b) :=
      (List.pairwise_cons.mp hd).2
    set m' := (match f e with
               | some v => dictSet m (key e) v
               | none => m) with hm'
    have hsep' : ∀ x ∈ l, ∀ p ∈ m', p.1 ≠ key x := by
      intro x hx p hp
      cases hf : f e with
      | none =>
        rw [hm', hf] at hp
        exact hsep x (by simp [hx]) p hp
      | some v =>
        rw [hm', hf] at hp
        rcases keys_of_dictSet m (key e) v p hp with h | ⟨q, hq, hq'⟩
        · rw [h]; exact hhead x hx
        · rw [hq']; exact hsep x (by simp [hx]) q hq
    rw [List.foldl_cons, ← hm', ih m' k htail hsep']
    by_cases hk : key e = k
    · have hfind : (e :: l).find? (fun x => key x = k) = some e :=
        List.find?_cons_of_pos _ (by simpa using hk)
      have hlnone : l.find? (fun x => key x = k) = none := by
        rw [List.find?_eq_none]
        intro x hx
        simp only [decide_eq_true_eq]
        rw [← hk]
        exact (hhead x hx).symm
      rw [hfind, hlnone]
      show dictGet? m' k = f e
      cases hf : f e with
      | some v =>
        rw [hm', hf, ← hk]
        exact dictGet?_dictSet_self m (key e) v
      | none =>
        rw [hm', hf]
        exact dictGet?_eq_none m k fun p hp => hk ▸ hsep e (by simp) p hp
    · have hfind : (e :: l).find? (fun x => key x = k) =
          l.find? (fun x => key x = k) :=
        List.find?_cons_of_neg _ (by simpa using hk)
      rw [hfind]
      cases hlf : l.find? (fun x => key x = k) with
      | some x => rfl
      | none =>
        show dictGet? m' k = dictGet? m k
        cases hf : f e with
        | some v => rw [hm', hf]; exact dictGet?_dictSet_ne m (key e) k v hk
        | none => rw [hm', hf]

theorem dictCollect_get {α β : Type} (key : α → String) (f : α → Option β)
    (l : List α) (hd : l.Pairwise fun a b => key a ≠ key b) (k : String) :
    dictGet? (dictCollect key f l) k =
      (match l.find? (fun e => key e = k) with
       | some e => f e
       | none => none) := by
  rw [dictCollect, dictCollect_go key f l [] k hd (by simp)]
  cases l.find? (fun e => key e = k) <;> rfl

theorem find?_key_of_mem {α : Type} (key : α → String) (l : List α)
    (hd : l.Pairwise fun a b => key a ≠ key b) (e : α) (he : e ∈ l) :
    l.find? (fun x => key x = key e) = some e := by
  induction l with
  | nil => exact absurd he (by simp)
  | cons h t ih =>
    have hhead : ∀ b ∈ t, key h ≠ key b := (List.pairwise_cons.mp hd).1
    have htail := (List.pairwise_cons.mp hd).2
    by_cases hk : key h = key e
    · have : h = e := by
        rcases List.mem_cons.mp he with rfl | hmem
        · rfl
        · exact absurd hk (hhead e hmem)
      rw [List.find?_cons_of_pos _ (by simpa using hk), this]
    · have hmem : e ∈ t := by
        rcases List.mem_cons.mp he with rfl | hmem
        · exact absurd rfl hk
        · exact hmem
      rw [List.find?_cons_of_neg _ (by simpa using hk)]
      exact ih htail hmem

/-! ### Claims C1 and C9 -/

/-- Concrete entries from the specification's run-number scenario:
explicit runs at "t1" and "t3", inference targets at "t0", "t2", "t4". -/
def exampleEntries : List LogEntry :=
  [ ⟨"1", "t1", some 1, none, none, none⟩,
    ⟨"2", "t2", none, none, none, none⟩,
    ⟨"3", "t3", some 2, none, none, none⟩,
    ⟨"4", "t4", none, none, none, none⟩,
    ⟨"0", "t0", none, none, none, none⟩ ]

/-- Helper: a two-element chain holds when the relation holds between
the two elements. -/
theorem chain'_pair {α : Type} {R : α → α → Prop} {x y : α} (h : R x y) :
    List.Chain' R [x, y] :=
  List.Chain.cons h List.Chain.nil

/-- C1: run-number inference performs the boundary walk: a timestamp
before the first boundary resolves to no run; at-or-after the last
boundary it resolves to the last boundary's run; at-or-after boundary
i−1 and strictly before boundary i it resolves to boundary i−1's run; a
tie with a boundary resolves to that boundary's run; `_infer_run_numbers`
assigns exactly this walk result to every entry lacking an explicit run
number; `_transform_entries` keeps an explicit run number, never an
inferred one; and on the specification's concrete scenario the pipeline
infers run 1 at "t2", run 2 at "t4", and no run at "t0". -/
theorem run_inference_boundary_walk :
    (∀ (ts bt : String) (br : Int) (rest : List (String × Int)),
        pyLt ts bt = true → inferWalk ts none none ((bt, br) :: rest) = none)
  ∧ (∀ (bps : List (String × Int)) (hne : bps ≠ []) (ts : String),
        List.Chain' (fun p q => pyLt p.1 q.1 = true) bps →
        pyLt ts (bps.getLast hne).1 = false →
        inferWalk ts none none bps = some (bps.getLast hne).2)
  ∧ (∀ (pre post : List (String × Int)) (t1 t2 : String) (r1 r2 : Int)
        (ts : String),
        List.Chain' (fun p q => pyLt p.1 q.1 = true)
          (pre ++ (t1, r1) :: (t2, r2) :: post) →
        pyLt ts t1 = false → pyLt ts t2 = true →
        inferWalk ts none none (pre ++ (t1, r1) :: (t2, r2) :: post) = some r1)
  ∧ (∀ (bps : List (String × Int)) (t : String) (r : Int),
        List.Chain' (fun p q => pyLt p.1 q.1 = true) bps → (t, r) ∈ bps →
        inferWalk t none none bps = some r)
  ∧ (∀ (es : List LogEntry) (m : List (String × Int)) (e : LogEntry),
        es.Pairwise (fun a b => a.id ≠ b.id) → e ∈ es → e.run_num = none →
        dictGet? (inferRunNumbers es m) e.id =
          some (inferWalk e.insert_time none none (sortedBoundaries m)))
  ∧ (∀ (eid : String) (inferred : List (String × Option Int)) (e : LogEntry)
        (r : Int),
        e.run_num = some r → (transformOne eid inferred e).run_number = some r)
  ∧ ((transformEntries "exp" exampleEntries).map
        (fun t => (t.log_id, t.run_number)) =
      [("0", none), ("1", some 1), ("2", some 1), ("3", some 2), ("4", some 2)]) := by
  haveI : IsTrans (String × Int) (fun p q => pyLt p.1 q.1 = true) :=
    ⟨fun _ _ _ hab hbc => pyLt_trans hab hbc⟩
  have part1 : ∀ (ts bt : String) (br : Int) (rest : List (String × Int)),
      pyLt ts bt = true → inferWalk ts none none ((bt, br) :: rest) = none := by
    intro ts bt br rest h
    rw [inferWalk_head_lt ts bt br none none rest h]
  have part2 : ∀ (bps : List (String × Int)) (hne : bps ≠ []) (ts : String),
      List.Chain' (fun p q => pyLt p.1 q.1 = true) bps →
      pyLt ts (bps.getLast hne).1 = false →
      inferWalk ts none none bps = some (bps.getLast hne).2 := by
    intro bps hne ts hchain hlast
    have hpw : List.Pairwise (fun p q => pyLt p.1 q.1 = true) bps :=
      List.chain'_iff_pairwise.mp hchain
    have hall : ∀ p ∈ bps, pyLt ts p.1 = false := by
      intro p hp
      by_cases hpl : p = bps.getLast hne
      · rw [hpl]; exact hlast
      · have hsplit := List.dropLast_append_getLast hne
        have hp' : p ∈ bps.dropLast ++ [bps.getLast hne] := by
          rw [hsplit]; exact hp
        rcases List.mem_append.mp hp' with hd | hl
        · have hpw' : List.Pairwise (fun p q => pyLt p.1 q.1 = true)
              (bps.dropLast ++ [bps.getLast hne]) := by
            rw [hsplit]; exact hpw
          have hRp : pyLt p.1 (bps.getLast hne).1 = true :=
            (List.pairwise_append.mp hpw').2.2 p hd _ (by simp)
          cases hts : pyLt ts p.1 with
          | false => rfl
          | true => exact absurd (pyLt_trans hts hRp) (by simp [hlast])
        · simp only [List.mem_singleton] at hl
          exact absurd hl hpl
    exact inferWalk_ge_all ts bps hne hall none none
  have part3 : ∀ (pre post : List (String × Int)) (t1 t2 : String)
      (r1 r2 : Int) (ts : String),
      List.Chain' (fun p q => pyLt p.1 q.1 = true)
        (pre ++ (t1, r1) :: (t2, r2) :: post) →
      pyLt ts t1 = false → pyLt ts t2 = true →
      inferWalk ts none none (pre ++ (t1, r1) :: (t2, r2) :: post) = some r1 := by
    intro pre post t1 t2 r1 r2 ts hchain h1 h2
    have hpw := List.chain'_iff_pairwise.mp hchain
    have hprefacts : ∀ p ∈ pre, pyLt ts p.1 = false ∧ ts ≠ p.1 := by
      intro p hp
      have hRp : pyLt p.1 t1 = true :=
        (List.pairwise_append.mp hpw).2.2 p hp (t1, r1) (by simp)
      constructor
      · cases hts : pyLt ts p.1 with
        | false => rfl
        | true => exact absurd (pyLt_trans hts hRp) (by simp [h1])
      · intro hEq
        rw [hEq] at h1
        simp [hRp] at h1
    obtain ⟨prev2, hskip⟩ :=
      inferWalk_skip ts pre ((t1, r1) :: (t2, r2) :: post) (by simp)
        hprefacts none none
    rw [hskip]
    exact inferWalk_pair ts t1 t2 r1 r2 post prev2 none h1 h2
  have part4 : ∀ (bps : List (String × Int)) (t : String) (r : Int),
      List.Chain' (fun p q => pyLt p.1 q.1 = true) bps → (t, r) ∈ bps →
      inferWalk t none none bps = some r := by
    intro bps t r hchain hmem
    obtain ⟨pre, post, rfl⟩ := List.append_of_mem hmem
    cases post with
    | nil =>
      have hne : pre ++ [(t, r)] ≠ [] := by simp
      have hlastEq : (pre ++ [(t, r)]).getLast hne = (t, r) :=
        List.getLast_append' pre [(t, r)] (by simp)
      have := part2 (pre ++ [(t, r)]) hne t hchain
        (by rw [hlastEq]; exact pyLt_irrefl t)
      rw [this, hlastEq]
    | cons q post' =>
      obtain ⟨t2, r2⟩ := q
      have hpw := List.chain'_iff_pairwise.mp hchain
      have h2 : pyLt t t2 = true := by
        have hpc : List.Pairwise (fun p q => pyLt p.1 q.1 = true)
            ((t, r) :: (t2, r2) :: post') :=
          (List.pairwise_append.mp hpw).2.1
        exact (List.pairwise_cons.mp hpc).1 (t2, r2) (by simp)
      exact part3 pre post' t t2 r r2 t hchain (pyLt_irrefl t) h2
  have part5 : ∀ (es : List LogEntry) (m : List (String × Int)) (e : LogEntry),
      es.Pairwise (fun a b => a.id ≠ b.id) → e ∈ es → e.run_num = none →
      dictGet? (inferRunNumbers es m) e.id =
        some (inferWalk e.insert_time none none (sortedBoundaries m)) := by
    intro es m e hd he hnone
    show dictGet?
        (dictCollect (fun e => e.id)
          (fun e =>
            match e.run_num with
            | some _ => none
            | none =>
              some (inferWalk e.insert_time none none (sortedBoundaries m)))
          es) e.id = _
    rw [dictCollect_get _ _ es hd e.id,
      find?_key_of_mem (fun e => e.id) es hd e he]
    simp [hnone]
  have part6 : ∀ (eid : String) (inferred : List (String × Option Int))
      (e : LogEntry) (r : Int),
      e.run_num = some r → (transformOne eid inferred e).run_number = some r := by
    intro eid inferred e r h
    simp [transformOne, h]
  exact ⟨part1, part2, part3, part4, part5, part6, by decide⟩

/-- Witness for C1: the walk, inference-dictionary, explicit-keep and
concrete-scenario statements instantiated on the boundary list
`[("t1", 1), ("t3", 2)]` from the specification's example. -/
theorem run_inference_boundary_walk_witness :
    (inferWalk "t0" none none [("t1", 1), ("t3", 2)] = none)
  ∧ (inferWalk "t4" none none [("t1", 1), ("t3", 2)] = some 2)
  ∧ (inferWalk "t2" none none [("t1", 1), ("t3", 2)] = some 1)
  ∧ (inferWalk "t3" none none [("t1", 1), ("t3", 2)] = some 2)
  ∧ (dictGet?
        (inferRunNumbers exampleEntries [("t1", 1), ("t3", 2)])
        "2" =
      some (inferWalk "t2" none none
        (sortedBoundaries [("t1", 1), ("t3", 2)])))
  ∧ ((transformOne "exp" [] ⟨"1", "t1", some 1, none, none, none⟩).run_number =
      some 1)
  ∧ ((transformEntries "exp" exampleEntries).map
        (fun t => (t.log_id, t.run_number)) =
      [("0", none), ("1", some 1), ("2", some 1), ("3", some 2), ("4", some 2)]) := by
  obtain ⟨p1, p2, p3, p4, p5, p6, p7⟩ := run_inference_boundary_walk
  refine ⟨?_, ?_, ?_, ?_, ?_, ?_, p7⟩
  · exact p1 "t0" "t1" 1 [("t3", 2)] (by decide)
  · have := p2 [("t1", 1), ("t3", 2)] (by simp) "t4"
      (chain'_pair (by decide)) (by decide)
    simpa using this
  · exact p3 [] [] "t1" "t3" 1 2 "t2" (chain'_pair (by decide)) (by decide)
      (by decide)
  · exact p4 [("t1", 1), ("t3", 2)] "t3" 2 (chain'_pair (by decide)) (by decide)
  · exact p5 exampleEntries [("t1", 1), ("t3", 2)]
      ⟨"2", "t2", none, none, none, none⟩ (by decide) (by decide) rfl
  · exact p6 "exp" [] ⟨"1", "t1", some 1, none, none, none⟩ 1 rfl

/-- C9: under pairwise-distinct timestamps, the boundary dictionary of
`_identify_run_boundaries` contains exactly the timestamps of entries
whose per-entry extraction succeeds — an explicit run number, or a
narrative entry whose lower-cased content contains both "run number"
and "running" and whose token after the word "number" before the first
colon parses as an integer — and an entry whose extraction fails
(including a heuristic match whose token fails to parse) contributes no
boundary at its timestamp. -/
theorem boundary_point_extraction (es : List LogEntry)
    (hd : es.Pairwise fun a b => a.insert_time ≠ b.insert_time) :
    (∀ (t : String) (r : Int),
        dictGet? (identifyRunBoundaries es) t = some r ↔
          ∃ e ∈ es, e.insert_time = t ∧ entryBoundary e = some r)
  ∧ (∀ (e : LogEntry) (r : Int), e.run_num = some r → entryBoundary e = some r)
  ∧ (∀ e : LogEntry, e.run_num = none →
        entryBoundary e =
          (if pyContains (pyLower (e.content.getD "")) "run number" &&
              pyContains (pyLower (e.content.getD "")) "running" then
            heuristicRun (pyLower (e.content.getD ""))
          else none))
  ∧ (∀ e ∈ es, entryBoundary e = none →
        dictGet? (identifyRunBoundaries es) e.insert_time = none) := by
  have hchar : ∀ (k : String),
      dictGet? (identifyRunBoundaries es) k =
        (match es.find? (fun e => e.insert_time = k) with
         | some e => entryBoundary e
         | none => none) := by
    intro k
    unfold identifyRunBoundaries
    rw [dictCollect_get (fun e => e.insert_time) entryBoundary es hd k]
    cases es.find? (fun e => e.insert_time = k) <;> rfl
  refine ⟨?_, ?_, ?_, ?_⟩
  · intro t r
    constructor
    · intro h
      rw [hchar t] at h
      cases hfind : es.find? (fun e => e.insert_time = t) with
      | none => rw [hfind] at h; exact absurd h (by simp)
      | some e =>
        rw [hfind] at h
        refine ⟨e, List.mem_of_find?_eq_some hfind, ?_, h⟩
        have := List.find?_some hfind
        simpa using this
    · rintro ⟨e, he, rfl, hb⟩
      rw [hchar e.insert_time,
        find?_key_of_mem (fun e => e.insert_time) es hd e he]
      exact hb
  · intro e r h
    simp [entryBoundary, h]
  · intro e h
    simp [entryBoundary, h]
  · intro e he hb
    rw [hchar e.insert_time,
      find?_key_of_mem (fun e => e.insert_time) es hd e he]
    exact hb

/-- Witness for C9: a three-entry list with an explicit boundary, a
heuristic boundary, and a heuristic match whose token "xx" fails to
parse and is skipped. -/
theorem boundary_point_extraction_witness :
    (List.Pairwise (fun a b => a.insert_time ≠ b.insert_time)
      ([ ⟨"1", "t1", some 5, none, none, none⟩,
         ⟨"2", "t2", none, some "Run Number 42 is running: go", none, none⟩,
         ⟨"3", "t3", none, some "run number xx and running", none, none⟩ ] :
        List LogEntry))
  ∧ (dictGet?
        (identifyRunBoundaries
          [ ⟨"1", "t1", some 5, none, none, none⟩,
            ⟨"2", "t2", none, some "Run Number 42 is running: go", none, none⟩,
            ⟨"3", "t3", none, some "run number xx and running", none, none⟩ ])
        "t2" = some 42 ↔
      ∃ e ∈ ([ ⟨"1", "t1", some 5, none, none, none⟩,
            ⟨"2", "t2", none, some "Run Number 42 is running: go", none, none⟩,
            ⟨"3", "t3", none, some "run number xx and running", none, none⟩ ] :
          List LogEntry),
        e.insert_time = "t2" ∧ entryBoundary e = some 42)
  ∧ (dictGet?
        (identifyRunBoundaries
          [ ⟨"1", "t1", some 5, none, none, none⟩,
            ⟨"2", "t2", none, some "Run Number 42 is running: go", none, none⟩,
            ⟨"3", "t3", none, some "run number xx and running", none, none⟩ ])
        "t3" = none) := by
  refine ⟨by decide, ?_, ?_⟩
  · exact (boundary_point_extraction _ (by decide)).1 "t2" 42
  · exact (boundary_point_extraction _ (by decide)).2.2.2
      ⟨"3", "t3", none, some "run number xx and running", none, none⟩
      (by decide) (by decide)

/-! ### Relational store model (`src/elogfetch/storage/database.py`)

Tables are lists of rows.  `AUTOINCREMENT` keys that are referenced by
other tables (`run_id`, `detector_id`) are modeled with monotone
counters, as SQLite's `AUTOINCREMENT` never reuses a value; surrogate
keys that are never read (`log_id`, `run_data_id`, `questionnaire_id`,
`workflow_id`, `run_detector_id`) are omitted from the row model.
`INSERT OR REPLACE` is modeled as filtering out the conflicting rows
and appending the fresh row, which is how SQLite executes it.  The two
in-memory caches of the `Database` class are part of the state. -/

/-- Python `s.strip()`. -/
def pyStrip (s : String) : String :=
  ⟨((s.toList.dropWhile Char.isWhitespace).reverse.dropWhile
      Char.isWhitespace).reverse⟩

/-- SQL `COALESCE(new, old)` with a bound parameter as the first
argument: the new value wins when it is non-null. -/
def coalesce {α : Type} (new old : Option α) : Option α :=
  match new with
  | some v => some v
  | none => old

/-- The `f"{experiment_id}_{run_number}"` cache key. -/
def runKey (experiment_id : String) (run_number : Int) : String :=
  ⟨experiment_id.toList ++ '_' :: intToChars run_number⟩

/-- One `Experiment` table row, which is also the shape of the `info`
facet consumed by `_insert_experiment_no_commit`. -/
structure ExperimentRow where
  experiment_id : String
  name : Option String
  instrument : Option String
  start_time : Option String
  end_time : Option String
  pi : Option String
  pi_email : Option String
  leader_account : Option String
  description : Option String
  slack_channels : Option String
  analysis_queues : Option String
  urawi_proposal : Option String
deriving DecidableEq, Repr

/-- One element of the questionnaire facet's `fields` list. -/
structure QField where
  category : Option String
  field_id : Option String
  field_name : Option String
  field_value : Option String
  modified_time : Option String
  modified_uid : Option String
deriving DecidableEq, Repr

/-- The questionnaire facet consumed by
`_insert_questionnaire_no_commit`. -/
structure QuestionnaireData where
  experiment_id : String
  proposal_number : Option String
  fields : List QField
deriving DecidableEq, Repr

/-- One `Questionnaire` table row. -/
structure QRow where
  experiment_id : String
  proposal : Option String
  category : Option String
  field_id : Option String
  field_name : Option String
  field_value : Option String
  modified_time : Option String
  modified_uid : Option String
deriving DecidableEq, Repr

/-- One element of the workflow facet's `workflows` list; `parameters`
carries the already-serialized `json.dumps` text. -/
structure WorkflowItem where
  mongo_id : Option String
  name : Option String
  executable : Option String
  trigger : Option String
  location : Option String
  parameters : String
  run_param_name : Option String
  run_param_value : Option String
  run_as_user : Option String
deriving DecidableEq, Repr

/-- The workflow facet consumed by `_insert_workflow_no_commit`. -/
structure WorkflowData where
  experiment_id : String
  workflows : List WorkflowItem
deriving DecidableEq, Repr

/-- One `Workflow` table row. -/
structure WRow where
  experiment_id : String
  mongo_id : Option String
  name : Option String
  executable : Option String
  trigger : Option String
  location : Option String
  parameters : String
  run_param_name : Option String
  run_param_value : Option String
  run_as_user : Option String
deriving DecidableEq, Repr

/-- One element of the runtable facet's `data_production` list. -/
structure RunProdEntry where
  run_number : Option Int
  start_time : Option String
  end_time : Option String
  n_events : Option Int
  n_damaged : Option Int
  n_dropped : Option Int
  prod_start : Option String
  prod_end : Option String
deriving DecidableEq, Repr

/-- One element of the runtable facet's `detectors` list: the
`run_number` key of the Python dict plus the remaining key/value
items in iteration order. -/
structure DetectorEntry where
  run_number : Option Int
  items : List (String × String)
deriving DecidableEq, Repr

/-- The runtable facet consumed by `_insert_runtable_no_commit`. -/
structure RuntableData where
  experiment_id : String
  data_production : List RunProdEntry
  detectors : List DetectorEntry
deriving DecidableEq, Repr

/-- One element of the file-manager facet's records list. -/
structure FMRecord where
  run_number : Option Int
  number_of_files : Option Int
  total_size_bytes : Option Int
deriving DecidableEq, Repr

/-- The file-manager facet consumed by
`_insert_file_manager_no_commit`. -/
structure FileManagerData where
  experiment_id : String
  file_manager_records : List FMRecord
deriving DecidableEq, Repr

/-- One `Run` table row. -/
structure RunRow where
  run_id : Nat
  run_number : Int
  experiment_id : String
  start_time : Option String
  end_time : Option String
deriving DecidableEq, Repr

/-- One `RunProductionData` table row. -/
structure RPDRow where
  run_id : Nat
  n_events : Option Int
  n_damaged : Option Int
  n_dropped : Option Int
  prod_start : Option String
  prod_end : Option String
  number_of_files : Option Int
  total_size_bytes : Option Int
deriving DecidableEq, Repr

/-- One `Detector` table row (`description` is never written). -/
structure DetectorRow where
  detector_id : Nat
  detector_name : String
deriving DecidableEq, Repr

/-- One `RunDetector` table row. -/
structure RunDetectorRow where
  run_id : Nat
  detector_id : Nat
  status : String
deriving DecidableEq, Repr

/-- One `Logbook` table row. -/
structure LogRow where
  experiment_id : String
  run_id : Option Nat
  timestamp : String
  content : Option String
  tags : Option String
  author : Option String
deriving DecidableEq, Repr

/-- The full store state: the eight tables, the two `AUTOINCREMENT`
counters, and the two in-memory caches of the `Database` object. -/
structure DB where
  experiment : List ExperimentRow
  questionnaire : List QRow
  workflow : List WRow
  run : List RunRow
  rpd : List RPDRow
  detector : List DetectorRow
  runDetector : List RunDetectorRow
  logbook : List LogRow
  metadata : List (String × String)
  nextRunId : Nat
  nextDetectorId : Nat
  runIdCache : List (String × Nat)
  detectorCache : List (String × Nat)
deriving DecidableEq, Repr

/-- A freshly created store: empty tables, SQLite row counters at 1,
empty caches. -/
def emptyDB : DB :=
  { experiment := [], questionnaire := [], workflow := [], run := [],
    rpd := [], detector := [], runDetector := [], logbook := [],
    metadata := [], nextRunId := 1, nextDetectorId := 1,
    runIdCache := [], detectorCache := [] }

/-- The `_get_or_create_run_id` helper: cache probe, then table lookup,
then insert of a fresh `Run` row. -/
def getOrCreateRunId (db : DB) (experiment_id : String) (run_number : Int) :
    Nat × DB :=
  let cache_key := runKey experiment_id run_number
  match dictGet? db.runIdCache cache_key with
  | some run_id => (run_id, db)
  | none =>
    match db.run.find?
        (fun r => r.experiment_id = experiment_id ∧ r.run_number = run_number) with
    | some r =>
      (r.run_id,
        { db with runIdCache := dictSet db.runIdCache cache_key r.run_id })
    | none =>
      let run_id := db.nextRunId
      (run_id,
        { db with
            run := db.run ++ [⟨run_id, run_number, experiment_id, none, none⟩]
            nextRunId := run_id + 1
            runIdCache := dictSet db.runIdCache cache_key run_id })

/-- The `_get_or_create_detector_id` helper. -/
def getOrCreateDetectorId (db : DB) (detector_name : String) : Nat × DB :=
  match dictGet? db.detectorCache detector_name with
  | some detector_id => (detector_id, db)
  | none =>
    match db.detector.find? (fun d => d.detector_name = detector_name) with
    | some d =>
      (d.detector_id,
        { db with detectorCache :=
            dictSet db.detectorCache detector_name d.detector_id })
    | none =>
      let detector_id := db.nextDetectorId
      (detector_id,
        { db with
            detector := db.detector ++ [⟨detector_id, detector_name⟩]
            nextDetectorId := detector_id + 1
            detectorCache :=
              dictSet db.detectorCache detector_name detector_id })

/-- `_insert_experiment_no_commit`: `INSERT OR REPLACE` keyed by
`experiment_id`. -/
def insertExperimentNC (db : DB) (data : ExperimentRow) : DB :=
  { db with experiment :=
      (db.experiment.filter
        (fun r => r.experiment_id ≠ data.experiment_id)) ++ [data] }

/-- `INSERT OR REPLACE` into `Questionnaire` under
`UNIQUE(experiment_id, field_id)`; SQL `NULL` values never conflict. -/
def qReplaceInsert (rows : List QRow) (row : QRow) : List QRow :=
  match row.field_id with
  | none => rows ++ [row]
  | some fid =>
    (rows.filter
      (fun r => ¬ (r.experiment_id = row.experiment_id ∧
        r.field_id = some fid))) ++ [row]

/-- `_insert_questionnaire_no_commit`: delete the experiment's rows,
then insert each field. -/
def insertQuestionnaireNC (db : DB) (data : QuestionnaireData) : DB :=
  let cleared :=
    db.questionnaire.filter (fun r => r.experiment_id ≠ data.experiment_id)
  { db with questionnaire :=
      (data.fields.foldl
        (fun rows f =>
          qReplaceInsert rows
            ⟨data.experiment_id, data.proposal_number, f.category, f.field_id,
              f.field_name, f.field_value, f.modified_time, f.modified_uid⟩)
        cleared) }

/-- `_insert_workflow_no_commit`: delete the experiment's rows, then
plain-insert each workflow. -/
def insertWorkflowNC (db : DB) (data : WorkflowData) : DB :=
  let cleared :=
    db.workflow.filter (fun r => r.experiment_id ≠ data.experiment_id)
  { db with workflow :=
      (cleared ++ data.workflows.map
        (fun w =>
          ⟨data.experiment_id, w.mongo_id, w.name, w.executable, w.trigger,
            w.location, w.parameters, w.run_param_name, w.run_param_value,
            w.run_as_user⟩)) }

/-- Body of the entries loop of `_insert_logbook_no_commit`: resolve a
run id when the entry carries a run number, then insert the row. -/
def logStep (db : DB) (entry : TransformedEntry) : DB :=
  match entry.run_number with
  | none =>
    { db with logbook := db.logbook ++
        [(⟨entry.experiment_id, none, entry.timestamp, entry.content,
          entry.tags, entry.author⟩ : LogRow)] }
  | some n =>
    let (run_id, db) := getOrCreateRunId db entry.experiment_id n
    { db with logbook := db.logbook ++
        [(⟨entry.experiment_id, some run_id, entry.timestamp, entry.content,
          entry.tags, entry.author⟩ : LogRow)] }

/-- `_insert_logbook_no_commit`: no-op on an empty list; otherwise
delete the first entry's experiment's rows, then insert each entry. -/
def insertLogbookNC (db : DB) (entries : List TransformedEntry) : DB :=
  match entries with
  | [] => db
  | first :: _ =>
    entries.foldl logStep
      { db with logbook :=
          (db.logbook.filter
            (fun r => r.experiment_id ≠ first.experiment_id)) }

/-- The `UPDATE Run SET start_time = ?, end_time = ? WHERE run_id = ?`
statement of the run-table insert. -/
def updateRunTimes (db : DB) (run_id : Nat) (st et : Option String) : DB :=
  { db with run :=
      (db.run.map
        (fun (r : RunRow) =>
          if r.run_id = run_id then
            { r with start_time := st, end_time := et }
          else r)) }

/-- Coalescing update of one `RunProductionData` row from a run-table
entry: `COALESCE(?, column)` per production column. -/
def rpdCoalesceProd (rd : RunProdEntry) (p : RPDRow) : RPDRow :=
  { p with
      n_events := coalesce rd.n_events p.n_events
      n_damaged := coalesce rd.n_damaged p.n_damaged
      n_dropped := coalesce rd.n_dropped p.n_dropped
      prod_start := coalesce rd.prod_start p.prod_start
      prod_end := coalesce rd.prod_end p.prod_end }

/-- Existence check and update-or-insert of `RunProductionData` from a
run-table entry. -/
def rpdUpsertProd (db : DB) (run_id : Nat) (rd : RunProdEntry) : DB :=
  if db.rpd.any (fun p => p.run_id = run_id) then
    { db with rpd :=
        (db.rpd.map
          (fun (p : RPDRow) =>
            if p.run_id = run_id then rpdCoalesceProd rd p else p)) }
  else
    { db with rpd := db.rpd ++
        [(⟨run_id, rd.n_events, rd.n_damaged, rd.n_dropped, rd.prod_start,
          rd.prod_end, none, none⟩ : RPDRow)] }

/-- Body of the `data_production` loop of the run-table insert. -/
def prodStep (experiment_id : String) (db : DB) (rd : RunProdEntry) : DB :=
  match rd.run_number with
  | none => db
  | some run_number =>
    let (run_id, db) := getOrCreateRunId db experiment_id run_number
    rpdUpsertProd (updateRunTimes db run_id rd.start_time rd.end_time) run_id rd

/-- `INSERT OR REPLACE` into `RunDetector` under
`UNIQUE(run_id, detector_id)`. -/
def rdReplaceInsert (db : DB) (run_id detector_id : Nat) (status : String) :
    DB :=
  { db with runDetector :=
      ((db.runDetector.filter
        (fun rd => ¬ (rd.run_id = run_id ∧ rd.detector_id = detector_id))) ++
        [(⟨run_id, detector_id, status⟩ : RunDetectorRow)]) }

/-- Body of the inner key/value loop of the `detectors` section: the
`run_number` key and blank keys are skipped. -/
def detItemStep (run_id : Nat) (db : DB) (kv : String × String) : DB :=
  if kv.1 = "run_number" ∨ pyStrip kv.1 = "" then db
  else
    let (detector_id, db) := getOrCreateDetectorId db kv.1
    rdReplaceInsert db run_id detector_id kv.2

/-- Body of the `detectors` loop of the run-table insert. -/
def detStep (experiment_id : String) (db : DB) (det : DetectorEntry) : DB :=
  match det.run_number with
  | none => db
  | some run_number =>
    let (run_id, db) := getOrCreateRunId db experiment_id run_number
    det.items.foldl (detItemStep run_id) db

/-- `_insert_runtable_no_commit`: run-production rows (unconditional
run-time update plus coalescing upsert of `RunProductionData`),
followed by the detector/status grid. -/
def insertRuntableNC (db : DB) (data : RuntableData) : DB :=
  data.detectors.foldl (detStep data.experiment_id)
    (data.data_production.foldl (prodStep data.experiment_id) db)

/-- Coalescing update of one `RunProductionData` row from a
file-manager record. -/
def rpdCoalesceFM (record : FMRecord) (p : RPDRow) : RPDRow :=
  { p with
      number_of_files := coalesce record.number_of_files p.number_of_files
      total_size_bytes := coalesce record.total_size_bytes p.total_size_bytes }

/-- Existence check and update-or-insert of `RunProductionData` from a
file-manager record. -/
def rpdUpsertFM (db : DB) (run_id : Nat) (record : FMRecord) : DB :=
  if db.rpd.any (fun p => p.run_id = run_id) then
    { db with rpd :=
        (db.rpd.map
          (fun (p : RPDRow) =>
            if p.run_id = run_id then rpdCoalesceFM record p else p)) }
  else
    { db with rpd := db.rpd ++
        [(⟨run_id, none, none, none, none, none, record.number_of_files,
          record.total_size_bytes⟩ : RPDRow)] }

/-- Body of the records loop of `_insert_file_manager_no_commit`. -/
def fmStep (experiment_id : String) (db : DB) (record : FMRecord) : DB :=
  match record.run_number with
  | none => db
  | some run_number =>
    let (run_id, db) := getOrCreateRunId db experiment_id run_number
    rpdUpsertFM db run_id record

/-- `_insert_file_manager_no_commit`: coalescing upsert of the file
counters into `RunProductionData`. -/
def insertFileManagerNC (db : DB) (data : FileManagerData) : DB :=
  data.file_manager_records.foldl (fmStep data.experiment_id) db

/-- The composite per-experiment record drained by the writer; a
missing facet is `none` and, for the logbook, an empty list is falsy in
the `if data.get(...)` guards. -/
structure CompositeRecord where
  experiment_id : String
  info : Option ExperimentRow
  logbook : List TransformedEntry
  runtable : Option RuntableData
  file_manager : Option FileManagerData
  questionnaire : Option QuestionnaireData
  workflow : Option WorkflowData
deriving DecidableEq, Repr

/-- `insert_experiment_batch`: the six guarded facet inserts, in source
order. -/
def insertExperimentBatch (db : DB) (data : CompositeRecord) : DB :=
  let db :=
    match data.info with
    | some info => insertExperimentNC db info
    | none => db
  let db :=
    match data.logbook with
    | [] => db
    | entries => insertLogbookNC db entries
  let db :=
    match data.runtable with
    | some rt => insertRuntableNC db rt
    | none => db
  let db :=
    match data.file_manager with
    | some fm => insertFileManagerNC db fm
    | none => db
  let db :=
    match data.questionnaire with
    | some q => insertQuestionnaireNC db q
    | none => db
  match data.workflow with
  | some w => insertWorkflowNC db w
  | none => db

/-- `_set_metadata_no_commit`: `INSERT OR REPLACE` keyed by `key`. -/
def setMetadataNC (db : DB) (key value : String) : DB :=
  { db with metadata :=
      ((db.metadata.filter (fun p => p.1 ≠ key)) ++ [(key, value)]) }

/-- `get_metadata`. -/
def getMetadata (db : DB) (key : String) : Option String :=
  dictGet? db.metadata key

/-- The run ids of an experiment, as collected at the top of
`delete_experiment`. -/
def runIdsOf (db : DB) (experiment_id : String) : List Nat :=
  (db.run.filter (fun r => r.experiment_id = experiment_id)).map
    (fun r => r.run_id)

/-- Stage 1 of `delete_experiment`: the per-run deletes of
`RunDetector` and `RunProductionData`. -/
def deleteRunChildren (db : DB) (run_ids : List Nat) : DB :=
  { db with
      runDetector := db.runDetector.filter (fun rd => ¬ rd.run_id ∈ run_ids)
      rpd := db.rpd.filter (fun p => ¬ p.run_id ∈ run_ids) }

/-- Stage 2 of `delete_experiment`: `DELETE FROM Logbook`. -/
def deleteLogbookFor (db : DB) (experiment_id : String) : DB :=
  { db with logbook :=
      (db.logbook.filter (fun l => l.experiment_id ≠ experiment_id)) }

/-- Stage 3 of `delete_experiment`: `DELETE FROM Run`. -/
def deleteRunsFor (db : DB) (experiment_id : String) : DB :=
  { db with run :=
      (db.run.filter (fun r => r.experiment_id ≠ experiment_id)) }

/-- Stage 4 of `delete_experiment`: `DELETE FROM Questionnaire`. -/
def deleteQuestionnaireFor (db : DB) (experiment_id : String) : DB :=
  { db with questionnaire :=
      (db.questionnaire.filter (fun q => q.experiment_id ≠ experiment_id)) }

/-- Stage 5 of `delete_experiment`: `DELETE FROM Workflow`. -/
def deleteWorkflowFor (db : DB) (experiment_id : String) : DB :=
  { db with workflow :=
      (db.workflow.filter (fun w => w.experiment_id ≠ experiment_id)) }

/-- Stage 6 of `delete_experiment`: `DELETE FROM Experiment`. -/
def deleteExperimentRowFor (db : DB) (experiment_id : String) : DB :=
  { db with experiment :=
      (db.experiment.filter (fun e => e.experiment_id ≠ experiment_id)) }

/-- Stage 7 of `delete_experiment`: drop the run-id cache entries whose
key starts with `f"{experiment_id}_"`. -/
def clearRunCacheFor (db : DB) (experiment_id : String) : DB :=
  { db with runIdCache :=
      (db.runIdCache.filter
        (fun p => ! pyStartsWith p.1 (experiment_id ++ "_"))) }

/-- `delete_experiment`: the seven stages in source order (the final
`commit` is accounted for in the writer model). -/
def deleteExperiment (db : DB) (experiment_id : String) : DB :=
  let run_ids := runIdsOf db experiment_id
  clearRunCacheFor
    (deleteExperimentRowFor
      (deleteWorkflowFor
        (deleteQuestionnaireFor
          (deleteRunsFor
            (deleteLogbookFor
              (deleteRunChildren db run_ids)
              experiment_id)
            experiment_id)
          experiment_id)
        experiment_id)
      experiment_id)
    experiment_id


/-! ### Generic fold preservation -/

/-- Fold preservation along a reflexive transitive relation whose step
holds for every element of the list. -/
theorem foldl_rel {β γ : Type} (R : β → β → Prop) (hrefl : ∀ b, R b b)
    (htrans : ∀ {a b c}, R a b → R b c → R a c) (f : β → γ → β) :
    ∀ (l : List γ) (b : β), (∀ (b' : β) (x : γ), x ∈ l → R b' (f b' x)) →
      R b (List.foldl f b l) := by
  intro l
  induction l with
  | nil => intro b _; exact hrefl b
  | cons x l ih =>
    intro b hstep
    exact htrans (hstep b x (by simp))
      (ih (f b x) (fun b' y hy => hstep b' y (by simp [hy])))

/-! ### Claim C2: RunProductionData coalescing -/

/-- Field-wise domination: the same run's row keeps every field
non-null that was non-null before. -/
def rpdDominates (p' p : RPDRow) : Prop :=
  p'.run_id = p.run_id ∧
  (p.n_events.isSome = true → p'.n_events.isSome = true) ∧
  (p.n_damaged.isSome = true → p'.n_damaged.isSome = true) ∧
  (p.n_dropped.isSome = true → p'.n_dropped.isSome = true) ∧
  (p.prod_start.isSome = true → p'.prod_start.isSome = true) ∧
  (p.prod_end.isSome = true → p'.prod_end.isSome = true) ∧
  (p.number_of_files.isSome = true → p'.number_of_files.isSome = true) ∧
  (p.total_size_bytes.isSome = true → p'.total_size_bytes.isSome = true)

/-- Every existing `RunProductionData` row survives, for its run, with
no field reverted to null. -/
def rpdPreserved (db db' : DB) : Prop :=
  ∀ p ∈ db.rpd, ∃ p' ∈ db'.rpd, rpdDominates p' p

theorem rpdDominates_refl (p : RPDRow) : rpdDominates p p :=
  ⟨rfl, id, id, id, id, id, id, id⟩

theorem rpdDominates_trans {a b c : RPDRow} (h1 : rpdDominates a b)
    (h2 : rpdDominates b c) : rpdDominates a c :=
  ⟨h1.1.trans h2.1,
    fun h => h1.2.1 (h2.2.1 h),
    fun h => h1.2.2.1 (h2.2.2.1 h),
    fun h => h1.2.2.2.1 (h2.2.2.2.1 h),
    fun h => h1.2.2.2.2.1 (h2.2.2.2.2.1 h),
    fun h => h1.2.2.2.2.2.1 (h2.2.2.2.2.2.1 h),
    fun h => h1.2.2.2.2.2.2.1 (h2.2.2.2.2.2.2.1 h),
    fun h => h1.2.2.2.2.2.2.2 (h2.2.2.2.2.2.2.2 h)⟩

theorem rpdPreserved_refl (db : DB) : rpdPreserved db db :=
  fun p hp => ⟨p, hp, rpdDominates_refl p⟩

theorem rpdPreserved_trans {a b c : DB} (h1 : rpdPreserved a b)
    (h2 : rpdPreserved b c) : rpdPreserved a c := by
  intro p hp
  obtain ⟨q, hq, hdom⟩ := h1 p hp
  obtain ⟨q', hq', hdom'⟩ := h2 q hq
  exact ⟨q', hq', rpdDominates_trans hdom' hdom⟩

theorem rpdPreserved_of_eq {a b : DB} (h : b.rpd = a.rpd) :
    rpdPreserved a b := by
  intro p hp
  exact ⟨p, by rw [h]; exact hp, rpdDominates_refl p⟩

theorem coalesce_isSome {α : Type} (new old : Option α)
    (h : old.isSome = true) : (coalesce new old).isSome = true := by
  cases new <;> simp [coalesce, h]

theorem getOrCreateRunId_rpd (db : DB) (eid : String) (n : Int) :
    (getOrCreateRunId db eid n).2.rpd = db.rpd := by
  cases hc : dictGet? db.runIdCache (runKey eid n) with
  | some rid => simp [getOrCreateRunId, hc]
  | none =>
    simp only [getOrCreateRunId, hc]
    split <;> rfl

theorem getOrCreateDetectorId_rpd (db : DB) (name : String) :
    (getOrCreateDetectorId db name).2.rpd = db.rpd := by
  cases hc : dictGet? db.detectorCache name with
  | some did => simp [getOrCreateDetectorId, hc]
  | none =>
    simp only [getOrCreateDetectorId, hc]
    split <;> rfl

theorem rpdCoalesceProd_dominates (rd : RunProdEntry) (p : RPDRow) :
    rpdDominates (rpdCoalesceProd rd p) p :=
  ⟨rfl, fun h => coalesce_isSome _ _ h, fun h => coalesce_isSome _ _ h,
    fun h => coalesce_isSome _ _ h, fun h => coalesce_isSome _ _ h,
    fun h => coalesce_isSome _ _ h, id, id⟩

theorem rpdCoalesceFM_dominates (record : FMRecord) (p : RPDRow) :
    rpdDominates (rpdCoalesceFM record p) p :=
  ⟨rfl, id, id, id, id, id, fun h => coalesce_isSome _ _ h,
    fun h => coalesce_isSome _ _ h⟩

theorem rpdUpsertProd_rpdPreserved (db : DB) (rid : Nat) (rd : RunProdEntry) :
    rpdPreserved db (rpdUpsertProd db rid rd) := by
  unfold rpdUpsertProd
  by_cases hany : db.rpd.any (fun p => p.run_id = rid) = true
  · rw [if_pos hany]
    intro p hp
    refine ⟨if p.run_id = rid then rpdCoalesceProd rd p else p,
      List.mem_map_of_mem _ hp, ?_⟩
    by_cases hpr : p.run_id = rid
    · rw [if_pos hpr]; exact rpdCoalesceProd_dominates rd p
    · rw [if_neg hpr]; exact rpdDominates_refl p
  · rw [if_neg hany]
    intro p hp
    exact ⟨p, by simp [hp], rpdDominates_refl p⟩

theorem rpdUpsertFM_rpdPreserved (db : DB) (rid : Nat) (record : FMRecord) :
    rpdPreserved db (rpdUpsertFM db rid record) := by
  unfold rpdUpsertFM
  by_cases hany : db.rpd.any (fun p => p.run_id = rid) = true
  · rw [if_pos hany]
    intro p hp
    refine ⟨if p.run_id = rid then rpdCoalesceFM record p else p,
      List.mem_map_of_mem _ hp, ?_⟩
    by_cases hpr : p.run_id = rid
    · rw [if_pos hpr]; exact rpdCoalesceFM_dominates record p
    · rw [if_neg hpr]; exact rpdDominates_refl p
  · rw [if_neg hany]
    intro p hp
    exact ⟨p, by simp [hp], rpdDominates_refl p⟩

theorem prodStep_rpdPreserved (eid : String) (db : DB) (rd : RunProdEntry) :
    rpdPreserved db (prodStep eid db rd) := by
  unfold prodStep
  cases hn : rd.run_number with
  | none => exact rpdPreserved_refl db
  | some n =>
    dsimp only
    obtain ⟨rid, db1, hE⟩ :
        ∃ rid db1, getOrCreateRunId db eid n = (rid, db1) := ⟨_, _, rfl⟩
    rw [hE]
    refine rpdPreserved_trans ?_
      (rpdUpsertProd_rpdPreserved (updateRunTimes db1 rid rd.start_time
        rd.end_time) rid rd)
    apply rpdPreserved_of_eq
    show (updateRunTimes db1 rid rd.start_time rd.end_time).rpd = db.rpd
    have h1 := getOrCreateRunId_rpd db eid n
    rw [hE] at h1
    simpa [updateRunTimes] using h1

theorem detItemStep_rpd (rid : Nat) (db : DB) (kv : String × String) :
    (detItemStep rid db kv).rpd = db.rpd := by
  unfold detItemStep
  by_cases hskip : kv.1 = "run_number" ∨ pyStrip kv.1 = ""
  · rw [if_pos hskip]
  · rw [if_neg hskip]
    obtain ⟨did, db1, hE⟩ :
        ∃ did db1, getOrCreateDetectorId db kv.1 = (did, db1) := ⟨_, _, rfl⟩
    rw [hE]
    have h1 := getOrCreateDetectorId_rpd db kv.1
    rw [hE] at h1
    simpa [rdReplaceInsert] using h1

theorem detStep_rpd (eid : String) (db : DB) (det : DetectorEntry) :
    (detStep eid db det).rpd = db.rpd := by
  unfold detStep
  cases hn : det.run_number with
  | none => rfl
  | some n =>
    dsimp only
    obtain ⟨rid, db1, hE⟩ :
        ∃ rid db1, getOrCreateRunId db eid n = (rid, db1) := ⟨_, _, rfl⟩
    rw [hE]
    have h1 := getOrCreateRunId_rpd db eid n
    rw [hE] at h1
    have h2 : ∀ (l : List (String × String)) (d : DB),
        (l.foldl (detItemStep rid) d).rpd = d.rpd := by
      intro l
      induction l with
      | nil => intro d; rfl
      | cons kv l ih =>
        intro d
        rw [List.foldl_cons, ih, detItemStep_rpd]
    rw [h2, h1]

theorem insertRuntableNC_rpdPreserved (db : DB) (rt : RuntableData) :
    rpdPreserved db (insertRuntableNC db rt) := by
  unfold insertRuntableNC
  refine rpdPreserved_trans
    (foldl_rel rpdPreserved rpdPreserved_refl
      (fun {a b c} => rpdPreserved_trans)
      (prodStep rt.experiment_id) rt.data_production db
      (fun db' rd _ => prodStep_rpdPreserved rt.experiment_id db' rd)) ?_
  exact foldl_rel rpdPreserved rpdPreserved_refl
    (fun {a b c} => rpdPreserved_trans)
    (detStep rt.experiment_id) rt.detectors _
    (fun db' det _ => rpdPreserved_of_eq (detStep_rpd rt.experiment_id db' det))

theorem fmStep_rpdPreserved (eid : String) (db : DB) (record : FMRecord) :
    rpdPreserved db (fmStep eid db record) := by
  unfold fmStep
  cases hn : record.run_number with
  | none => exact rpdPreserved_refl db
  | some n =>
    dsimp only
    obtain ⟨rid, db1, hE⟩ :
        ∃ rid db1, getOrCreateRunId db eid n = (rid, db1) := ⟨_, _, rfl⟩
    rw [hE]
    refine rpdPreserved_trans ?_ (rpdUpsertFM_rpdPreserved db1 rid record)
    apply rpdPreserved_of_eq
    have h1 := getOrCreateRunId_rpd db eid n
    rw [hE] at h1
    exact h1

theorem insertFileManagerNC_rpdPreserved (db : DB) (fm : FileManagerData) :
    rpdPreserved db (insertFileManagerNC db fm) := by
  unfold insertFileManagerNC
  exact foldl_rel rpdPreserved rpdPreserved_refl
    (fun {a b c} => rpdPreserved_trans)
    (fmStep fm.experiment_id) fm.file_manager_records db
    (fun db' r _ => fmStep_rpdPreserved fm.experiment_id db' r)

/-- First write of the specification's coalescing scenario:
`{n_events: 100, n_damaged: null}` for run 7. -/
def coalesceFirstWrite : RuntableData :=
  ⟨"e1", [⟨some 7, none, none, some 100, none, none, none, none⟩], []⟩

/-- Second write of the specification's coalescing scenario:
`{n_events: null, n_damaged: 5}` for run 7. -/
def coalesceSecondWrite : RuntableData :=
  ⟨"e1", [⟨some 7, none, none, none, some 5, none, none, none⟩], []⟩

/-- C2: a later run-table or file-aggregate write never reverts a
non-null `RunProductionData` field of any run's row to null (the
coalescing update overwrites a field only with a non-null value), and
the concrete sequence inserting `{n_events: 100, n_damaged: null}` then
`{n_events: null, n_damaged: 5}` for the same run leaves the row with
`n_events = 100` and `n_damaged = 5`. -/
theorem rpd_coalescing :
    (∀ (db : DB) (rt : RuntableData), ∀ p ∈ db.rpd,
        ∃ p' ∈ (insertRuntableNC db rt).rpd, rpdDominates p' p)
  ∧ (∀ (db : DB) (fm : FileManagerData), ∀ p ∈ db.rpd,
        ∃ p' ∈ (insertFileManagerNC db fm).rpd, rpdDominates p' p)
  ∧ ((insertRuntableNC (insertRuntableNC emptyDB coalesceFirstWrite)
        coalesceSecondWrite).rpd =
      [⟨1, some 100, some 5, none, none, none, none, none⟩]) :=
  ⟨fun db rt => insertRuntableNC_rpdPreserved db rt,
    fun db fm => insertFileManagerNC_rpdPreserved db fm,
    by decide⟩

/-- Witness for C2: the domination statements instantiated on the row
created by the scenario's first write. -/
theorem rpd_coalescing_witness :
    ((⟨1, some 100, none, none, none, none, none, none⟩ : RPDRow) ∈
       (insertRuntableNC emptyDB coalesceFirstWrite).rpd)
  ∧ (∃ p' ∈ (insertRuntableNC (insertRuntableNC emptyDB coalesceFirstWrite)
        coalesceSecondWrite).rpd,
      rpdDominates p' ⟨1, some 100, none, none, none, none, none, none⟩)
  ∧ (∃ p' ∈ (insertFileManagerNC (insertRuntableNC emptyDB coalesceFirstWrite)
        ⟨"e1", [⟨some 7, some 3, some 4096⟩]⟩).rpd,
      rpdDominates p' ⟨1, some 100, none, none, none, none, none, none⟩) := by
  refine ⟨by decide, ?_, ?_⟩
  · exact rpd_coalescing.1 (insertRuntableNC emptyDB coalesceFirstWrite)
      coalesceSecondWrite
      ⟨1, some 100, none, none, none, none, none, none⟩ (by decide)
  · exact rpd_coalescing.2.1 (insertRuntableNC emptyDB coalesceFirstWrite)
      ⟨"e1", [⟨some 7, some 3, some 4096⟩]⟩
      ⟨1, some 100, none, none, none, none, none, none⟩ (by decide)

/-! ### Claim C10: the Detector table only grows -/

/-- The detector table of `db'` extends the detector table of `db`:
existing rows are kept unchanged and in place, so detector ids are
stable. -/
def detectorGrows (db db' : DB) : Prop :=
  ∃ tail, db'.detector = db.detector ++ tail

theorem detectorGrows_refl (db : DB) : detectorGrows db db :=
  ⟨[], by simp⟩

theorem detectorGrows_trans {a b c : DB} (h1 : detectorGrows a b)
    (h2 : detectorGrows b c) : detectorGrows a c := by
  obtain ⟨t1, h1⟩ := h1
  obtain ⟨t2, h2⟩ := h2
  exact ⟨t1 ++ t2, by rw [h2, h1, List.append_assoc]⟩

theorem detectorGrows_of_eq {a b : DB} (h : b.detector = a.detector) :
    detectorGrows a b :=
  ⟨[], by simp [h]⟩

theorem getOrCreateRunId_detector (db : DB) (eid : String) (n : Int) :
    (getOrCreateRunId db eid n).2.detector = db.detector := by
  cases hc : dictGet? db.runIdCache (runKey eid n) with
  | some rid => simp [getOrCreateRunId, hc]
  | none =>
    simp only [getOrCreateRunId, hc]
    split <;> rfl

theorem getOrCreateDetectorId_grows (db : DB) (name : String) :
    detectorGrows db (getOrCreateDetectorId db name).2 := by
  cases hc : dictGet? db.detectorCache name with
  | some did => exact ⟨[], by simp [getOrCreateDetectorId, hc]⟩
  | none =>
    cases hf : db.detector.find? (fun d => d.detector_name = name) with
    | some d => exact ⟨[], by simp [getOrCreateDetectorId, hc, hf]⟩
    | none =>
      refine ⟨[⟨db.nextDetectorId, name⟩], ?_⟩
      simp [getOrCreateDetectorId, hc, hf]

theorem getOrCreateDetectorId_detector_of_found (db : DB) (name : String)
    (h : ∃ d ∈ db.detector, d.detector_name = name) :
    (getOrCreateDetectorId db name).2.detector = db.detector := by
  cases hc : dictGet? db.detectorCache name with
  | some did => simp [getOrCreateDetectorId, hc]
  | none =>
    cases hf : db.detector.find? (fun d => d.detector_name = name) with
    | some d => simp [getOrCreateDetectorId, hc, hf]
    | none =>
      exfalso
      obtain ⟨d, hd, hdn⟩ := h
      have := List.find?_eq_none.mp hf d hd
      simp [hdn] at this

theorem logStep_detector (db : DB) (e : TransformedEntry) :
    (logStep db e).detector = db.detector := by
  unfold logStep
  cases hn : e.run_number with
  | none => rfl
  | some n =>
    dsimp only
    obtain ⟨rid, db1, hE⟩ :
        ∃ rid db1, getOrCreateRunId db e.experiment_id n = (rid, db1) :=
      ⟨_, _, rfl⟩
    rw [hE]
    have h1 := getOrCreateRunId_detector db e.experiment_id n
    rw [hE] at h1
    exact h1

theorem insertLogbookNC_detector (db : DB) (entries : List TransformedEntry) :
    (insertLogbookNC db entries).detector = db.detector := by
  unfold insertLogbookNC
  cases entries with
  | nil => rfl
  | cons first rest =>
    have h : ∀ (l : List TransformedEntry) (d : DB),
        (l.foldl logStep d).detector = d.detector := by
      intro l
      induction l with
      | nil => intro d; rfl
      | cons e l ih => intro d; rw [List.foldl_cons, ih, logStep_detector]
    rw [h]

theorem rpdUpsertProd_detector (db : DB) (rid : Nat) (rd : RunProdEntry) :
    (rpdUpsertProd db rid rd).detector = db.detector := by
  unfold rpdUpsertProd
  split <;> rfl

theorem rpdUpsertFM_detector (db : DB) (rid : Nat) (record : FMRecord) :
    (rpdUpsertFM db rid record).detector = db.detector := by
  unfold rpdUpsertFM
  split <;> rfl

theorem prodStep_detector (eid : String) (db : DB) (rd : RunProdEntry) :
    (prodStep eid db rd).detector = db.detector := by
  unfold prodStep
  cases hn : rd.run_number with
  | none => rfl
  | some n =>
    dsimp only
    obtain ⟨rid, db1, hE⟩ :
        ∃ rid db1, getOrCreateRunId db eid n = (rid, db1) := ⟨_, _, rfl⟩
    rw [hE]
    have h1 := getOrCreateRunId_detector db eid n
    rw [hE] at h1
    rw [rpdUpsertProd_detector]
    simpa [updateRunTimes] using h1

theorem detItemStep_grows (rid : Nat) (db : DB) (kv : String × String) :
    detectorGrows db (detItemStep rid db kv) := by
  unfold detItemStep
  by_cases hskip : kv.1 = "run_number" ∨ pyStrip kv.1 = ""
  · rw [if_pos hskip]; exact detectorGrows_refl db
  · rw [if_neg hskip]
    obtain ⟨did, db1, hE⟩ :
        ∃ did db1, getOrCreateDetectorId db kv.1 = (did, db1) := ⟨_, _, rfl⟩
    rw [hE]
    have h1 := getOrCreateDetectorId_grows db kv.1
    rw [hE] at h1
    exact detectorGrows_trans h1 (detectorGrows_of_eq rfl)

theorem detStep_grows (eid : String) (db : DB) (det : DetectorEntry) :
    detectorGrows db (detStep eid db det) := by
  unfold detStep
  cases hn : det.run_number with
  | none => exact detectorGrows_refl db
  | some n =>
    dsimp only
    obtain ⟨rid, db1, hE⟩ :
        ∃ rid db1, getOrCreateRunId db eid n = (rid, db1) := ⟨_, _, rfl⟩
    rw [hE]
    have h1 := getOrCreateRunId_detector db eid n
    rw [hE] at h1
    refine detectorGrows_trans (detectorGrows_of_eq h1) ?_
    exact foldl_rel detectorGrows detectorGrows_refl
      (fun {a b c} => detectorGrows_trans) (detItemStep rid) det.items db1
      (fun d kv _ => detItemStep_grows rid d kv)

theorem insertRuntableNC_grows (db : DB) (rt : RuntableData) :
    detectorGrows db (insertRuntableNC db rt) := by
  unfold insertRuntableNC
  refine detectorGrows_trans
    (foldl_rel detectorGrows detectorGrows_refl
      (fun {a b c} => detectorGrows_trans)
      (prodStep rt.experiment_id) rt.data_production db
      (fun d rd _ => detectorGrows_of_eq (prodStep_detector rt.experiment_id d rd))) ?_
  exact foldl_rel detectorGrows detectorGrows_refl
    (fun {a b c} => detectorGrows_trans)
    (detStep rt.experiment_id) rt.detectors _
    (fun d det _ => detStep_grows rt.experiment_id d det)

theorem fmStep_detector (eid : String) (db : DB) (record : FMRecord) :
    (fmStep eid db record).detector = db.detector := by
  unfold fmStep
  cases hn : record.run_number with
  | none => rfl
  | some n =>
    dsimp only
    obtain ⟨rid, db1, hE⟩ :
        ∃ rid db1, getOrCreateRunId db eid n = (rid, db1) := ⟨_, _, rfl⟩
    rw [hE]
    have h1 := getOrCreateRunId_detector db eid n
    rw [hE] at h1
    rw [rpdUpsertFM_detector]
    exact h1

theorem insertFileManagerNC_detector (db : DB) (fm : FileManagerData) :
    (insertFileManagerNC db fm).detector = db.detector := by
  unfold insertFileManagerNC
  have h : ∀ (l : List FMRecord) (d : DB),
      (l.foldl (fmStep fm.experiment_id) d).detector = d.detector := by
    intro l
    induction l with
    | nil => intro d; rfl
    | cons r l ih =>
      intro d
      rw [List.foldl_cons, ih, fmStep_detector]
  rw [h]

theorem insertExperimentBatch_grows (db : DB) (rec : CompositeRecord) :
    detectorGrows db (insertExperimentBatch db rec) := by
  unfold insertExperimentBatch
  have hi : ∀ (d : DB), detectorGrows d
      (match rec.info with
       | some i => insertExperimentNC d i
       | none => d) := by
    intro d
    cases rec.info with
    | some i => exact detectorGrows_of_eq rfl
    | none => exact detectorGrows_refl d
  have hl : ∀ (d : DB), detectorGrows d
      (match rec.logbook with
       | [] => d
       | entries => insertLogbookNC d entries) := by
    intro d
    cases rec.logbook with
    | nil => exact detectorGrows_refl d
    | cons e rest =>
      exact detectorGrows_of_eq (insertLogbookNC_detector d (e :: rest))
  have hrt : ∀ (d : DB), detectorGrows d
      (match rec.runtable with
       | some rt => insertRuntableNC d rt
       | none => d) := by
    intro d
    cases rec.runtable with
    | some rt => exact insertRuntableNC_grows d rt
    | none => exact detectorGrows_refl d
  have hfm : ∀ (d : DB), detectorGrows d
      (match rec.file_manager with
       | some fm => insertFileManagerNC d fm
       | none => d) := by
    intro d
    cases rec.file_manager with
    | some fm => exact detectorGrows_of_eq (insertFileManagerNC_detector d fm)
    | none => exact detectorGrows_refl d
  have hq : ∀ (d : DB), detectorGrows d
      (match rec.questionnaire with
       | some q => insertQuestionnaireNC d q
       | none => d) := by
    intro d
    cases rec.questionnaire with
    | some q => exact detectorGrows_of_eq rfl
    | none => exact detectorGrows_refl d
  have hw : ∀ (d : DB), detectorGrows d
      (match rec.workflow with
       | some w => insertWorkflowNC d w
       | none => d) := by
    intro d
    cases rec.workflow with
    | some w => exact detectorGrows_of_eq rfl
    | none => exact detectorGrows_refl d
  exact detectorGrows_trans (hi db)
    (detectorGrows_trans (hl _)
      (detectorGrows_trans (hrt _)
        (detectorGrows_trans (hfm _)
          (detectorGrows_trans (hq _) (hw _)))))

/-- The three operations the Merge Engine applies to the store. -/
inductive MergeOp where
  | ins (rec : CompositeRecord)
  | del (experiment_id : String)
  | meta (key value : String)

/-- Apply one Merge Engine operation. -/
def applyOp (db : DB) : MergeOp → DB
  | .ins rec => insertExperimentBatch db rec
  | .del eid => deleteExperiment db eid
  | .meta k v => setMetadataNC db k v

/-- Apply a sequence of Merge Engine operations. -/
def applyOps (db : DB) (ops : List MergeOp) : DB := ops.foldl applyOp db

/-- C10: `delete_experiment` removes the experiment's `RunDetector`
rows (those of its runs) but never touches the `Detector` table; no
Merge Engine operation removes or updates a `Detector` row, so across
any operation sequence the table only grows and detector ids stay
stable; and a detector name already present in the table never gains a
second row. -/
theorem detector_frame :
    (∀ (db : DB) (eid : String),
        (deleteExperiment db eid).detector = db.detector)
  ∧ (∀ (db : DB) (eid : String),
        (deleteExperiment db eid).runDetector =
          db.runDetector.filter (fun rd => ¬ rd.run_id ∈ runIdsOf db eid))
  ∧ (∀ (db : DB) (rec : CompositeRecord),
        detectorGrows db (insertExperimentBatch db rec))
  ∧ (∀ (db : DB) (k v : String), (setMetadataNC db k v).detector = db.detector)
  ∧ (∀ (db : DB) (name : String),
        (∃ d ∈ db.detector, d.detector_name = name) →
        (getOrCreateDetectorId db name).2.detector = db.detector)
  ∧ (∀ (db : DB) (ops : List MergeOp), detectorGrows db (applyOps db ops)) := by
  have hdel : ∀ (db : DB) (eid : String),
      (deleteExperiment db eid).detector = db.detector := fun db eid => rfl
  refine ⟨hdel, fun db eid => rfl, insertExperimentBatch_grows,
    fun db k v => rfl, getOrCreateDetectorId_detector_of_found, ?_⟩
  intro db ops
  apply foldl_rel detectorGrows detectorGrows_refl
    (fun {a b c} => detectorGrows_trans) applyOp ops db
  intro d op _
  cases op with
  | ins rec => exact insertExperimentBatch_grows d rec
  | del eid => exact detectorGrows_of_eq (hdel d eid)
  | meta k v => exact detectorGrows_of_eq rfl

/-- Witness for C10: the found-detector conjunct instantiated on a
one-detector store. -/
theorem detector_frame_witness :
    (∃ d ∈ ({ emptyDB with detector := [⟨1, "jungfrau"⟩] } : DB).detector,
        d.detector_name = "jungfrau")
  ∧ (getOrCreateDetectorId { emptyDB with detector := [⟨1, "jungfrau"⟩] }
        "jungfrau").2.detector =
      ({ emptyDB with detector := [⟨1, "jungfrau"⟩] } : DB).detector := by
  refine ⟨by decide, ?_⟩
  exact detector_frame.2.2.2.2.1
    { emptyDB with detector := [⟨1, "jungfrau"⟩] } "jungfrau"
    ⟨⟨1, "jungfrau"⟩, by decide, rfl⟩

/-! ### Claim C6: run-ownership -/

/-- Every `Run` row's experiment id refers to an existing `Experiment`
row. -/
def RunOwnership (db : DB) : Prop :=
  ∀ r ∈ db.run, ∃ e ∈ db.experiment, e.experiment_id = r.experiment_id

/-- Some `Experiment` row carries the given id. -/
def ExpHas (db : DB) (eid : String) : Prop :=
  ∃ e ∈ db.experiment, e.experiment_id = eid

/-- A composite record whose facets all carry the record's experiment
id, as the fetch transformers produce them. -/
def FacetIdsMatch (rec : CompositeRecord) : Prop :=
  (match rec.info with
   | some i => i.experiment_id = rec.experiment_id
   | none => True) ∧
  (∀ e ∈ rec.logbook, e.experiment_id = rec.experiment_id) ∧
  (match rec.runtable with
   | some rt => rt.experiment_id = rec.experiment_id
   | none => True) ∧
  (match rec.file_manager with
   | some fm => fm.experiment_id = rec.experiment_id
   | none => True) ∧
  (match rec.questionnaire with
   | some q => q.experiment_id = rec.experiment_id
   | none => True) ∧
  (match rec.workflow with
   | some w => w.experiment_id = rec.experiment_id
   | none => True)

/-- A composite record carrying a run-table facet but no `info` facet:
`insert_experiment_batch` creates its `Run` row with no `Experiment`
row backing it. -/
def orphanRecord : CompositeRecord :=
  { experiment_id := "e1", info := none, logbook := [],
    runtable :=
      some ⟨"e1", [⟨some 1, none, none, none, none, none, none, none⟩], []⟩,
    file_manager := none, questionnaire := none, workflow := none }

theorem runOwnership_of_nil {db : DB} (h : db.run = []) : RunOwnership db := by
  intro r hr
  rw [h] at hr
  exact absurd hr (List.not_mem_nil r)

/-- Counterexample to C6 as stated: on an empty store (where the
run-ownership invariant holds), `insert_experiment_batch` applied to a
composite record lacking the `info` facet creates a `Run` row with no
owning `Experiment` row. -/
theorem run_ownership_counterexample :
    RunOwnership emptyDB ∧
    ¬ RunOwnership (insertExperimentBatch emptyDB orphanRecord) := by
  constructor
  · exact runOwnership_of_nil rfl
  · intro h
    obtain ⟨e, he, -⟩ :=
      h ⟨1, 1, "e1", none, none⟩ (by decide)
    have hexp : (insertExperimentBatch emptyDB orphanRecord).experiment = [] :=
      by decide
    rw [hexp] at he
    exact absurd he (List.not_mem_nil e)

/-- The seven intermediate states of `delete_experiment`, in execution
order. -/
def deleteStages (db : DB) (eid : String) : List DB :=
  let run_ids := runIdsOf db eid
  let s1 := deleteRunChildren db run_ids
  let s2 := deleteLogbookFor s1 eid
  let s3 := deleteRunsFor s2 eid
  let s4 := deleteQuestionnaireFor s3 eid
  let s5 := deleteWorkflowFor s4 eid
  let s6 := deleteExperimentRowFor s5 eid
  let s7 := clearRunCacheFor s6 eid
  [s1, s2, s3, s4, s5, s6, s7]

/-- `db'` only adds runs owned by `eid` and leaves the `Experiment`
table unchanged. -/
def RunsFrom (eid : String) (db db' : DB) : Prop :=
  db'.experiment = db.experiment ∧
  ∀ r ∈ db'.run, (∃ r0 ∈ db.run, r.experiment_id = r0.experiment_id) ∨
    r.experiment_id = eid

theorem RunsFrom_refl (eid : String) (db : DB) : RunsFrom eid db db :=
  ⟨rfl, fun r hr => Or.inl ⟨r, hr, rfl⟩⟩

theorem RunsFrom_trans {eid : String} {a b c : DB} (h1 : RunsFrom eid a b)
    (h2 : RunsFrom eid b c) : RunsFrom eid a c := by
  refine ⟨h2.1.trans h1.1, ?_⟩
  intro r hr
  rcases h2.2 r hr with ⟨r0, hr0, heq⟩ | heid
  · rcases h1.2 r0 hr0 with ⟨r1, hr1, heq'⟩ | heid'
    · exact Or.inl ⟨r1, hr1, heq.trans heq'⟩
    · exact Or.inr (heq.trans heid')
  · exact Or.inr heid

theorem RunsFrom_of_eq {eid : String} {a b : DB}
    (hexp : b.experiment = a.experiment) (hrun : b.run = a.run) :
    RunsFrom eid a b :=
  ⟨hexp, fun r hr => Or.inl ⟨r, by rw [← hrun]; exact hr, rfl⟩⟩

theorem getOrCreateRunId_experiment (db : DB) (eid : String) (n : Int) :
    (getOrCreateRunId db eid n).2.experiment = db.experiment := by
  simp only [getOrCreateRunId]
  split
  · rfl
  · split <;> rfl

theorem getOrCreateRunId_run_cases (db : DB) (eid : String) (n : Int) :
    (getOrCreateRunId db eid n).2.run = db.run ∨
    (getOrCreateRunId db eid n).2.run =
      db.run ++ [⟨db.nextRunId, n, eid, none, none⟩] := by
  simp only [getOrCreateRunId]
  split
  · left; rfl
  · split
    · left; rfl
    · right; rfl

theorem getOrCreateRunId_RunsFrom (db : DB) (eid : String) (n : Int) :
    RunsFrom eid db (getOrCreateRunId db eid n).2 := by
  refine ⟨getOrCreateRunId_experiment db eid n, ?_⟩
  intro r hr
  rcases getOrCreateRunId_run_cases db eid n with h | h
  · rw [h] at hr
    exact Or.inl ⟨r, hr, rfl⟩
  · rw [h] at hr
    rcases List.mem_append.mp hr with hm | hm
    · exact Or.inl ⟨r, hm, rfl⟩
    · simp only [List.mem_singleton] at hm
      rw [hm]
      exact Or.inr rfl

theorem updateRunTimes_RunsFrom (eid : String) (db : DB) (rid : Nat)
    (st et : Option String) :
    RunsFrom eid db (updateRunTimes db rid st et) := by
  refine ⟨rfl, ?_⟩
  intro r hr
  obtain ⟨r0, hr0, heq⟩ := List.mem_map.mp hr
  left
  refine ⟨r0, hr0, ?_⟩
  rw [← heq]
  by_cases h : r0.run_id = rid
  · rw [if_pos h]
  · rw [if_neg h]

theorem rpdUpsertProd_runExp (db : DB) (rid : Nat) (rd : RunProdEntry) :
    (rpdUpsertProd db rid rd).experiment = db.experiment ∧
    (rpdUpsertProd db rid rd).run = db.run := by
  unfold rpdUpsertProd
  split <;> exact ⟨rfl, rfl⟩

theorem rpdUpsertFM_runExp (db : DB) (rid : Nat) (record : FMRecord) :
    (rpdUpsertFM db rid record).experiment = db.experiment ∧
    (rpdUpsertFM db rid record).run = db.run := by
  unfold rpdUpsertFM
  split <;> exact ⟨rfl, rfl⟩

theorem getOrCreateDetectorId_runExp (db : DB) (name : String) :
    (getOrCreateDetectorId db name).2.experiment = db.experiment ∧
    (getOrCreateDetectorId db name).2.run = db.run := by
  cases hc : dictGet? db.detectorCache name with
  | some did => refine ⟨?_, ?_⟩ <;> simp [getOrCreateDetectorId, hc]
  | none =>
    simp only [getOrCreateDetectorId, hc]
    split <;> exact ⟨rfl, rfl⟩

theorem logStep_RunsFrom (eid : String) (db : DB) (e : TransformedEntry)
    (he : e.experiment_id = eid) : RunsFrom eid db (logStep db e) := by
  unfold logStep
  cases hn : e.run_number with
  | none => exact RunsFrom_of_eq rfl rfl
  | some n =>
    dsimp only
    obtain ⟨rid, db1, hE⟩ :
        ∃ rid db1, getOrCreateRunId db e.experiment_id n = (rid, db1) :=
      ⟨_, _, rfl⟩
    rw [hE]
    have h1 := getOrCreateRunId_RunsFrom db e.experiment_id n
    rw [hE] at h1
    rw [he] at h1
    exact RunsFrom_trans h1 (RunsFrom_of_eq rfl rfl)

theorem prodStep_RunsFrom (eid : String) (db : DB) (rd : RunProdEntry) :
    RunsFrom eid db (prodStep eid db rd) := by
  unfold prodStep
  cases hn : rd.run_number with
  | none => exact RunsFrom_refl eid db
  | some n =>
    dsimp only
    obtain ⟨rid, db1, hE⟩ :
        ∃ rid db1, getOrCreateRunId db eid n = (rid, db1) := ⟨_, _, rfl⟩
    rw [hE]
    have h1 := getOrCreateRunId_RunsFrom db eid n
    rw [hE] at h1
    refine RunsFrom_trans h1 (RunsFrom_trans
      (updateRunTimes_RunsFrom eid db1 rid rd.start_time rd.end_time) ?_)
    have h2 := rpdUpsertProd_runExp
      (updateRunTimes db1 rid rd.start_time rd.end_time) rid rd
    exact RunsFrom_of_eq h2.1 h2.2

theorem detItemStep_runExp (rid : Nat) (db : DB) (kv : String × String) :
    (detItemStep rid db kv).experiment = db.experiment ∧
    (detItemStep rid db kv).run = db.run := by
  unfold detItemStep
  by_cases hskip : kv.1 = "run_number" ∨ pyStrip kv.1 = ""
  · rw [if_pos hskip]; exact ⟨rfl, rfl⟩
  · rw [if_neg hskip]
    obtain ⟨did, db1, hE⟩ :
        ∃ did db1, getOrCreateDetectorId db kv.1 = (did, db1) := ⟨_, _, rfl⟩
    rw [hE]
    have h1 := getOrCreateDetectorId_runExp db kv.1
    rw [hE] at h1
    exact ⟨h1.1, h1.2⟩

theorem detStep_RunsFrom (eid : String) (db : DB) (det : DetectorEntry) :
    RunsFrom eid db (detStep eid db det) := by
  unfold detStep
  cases hn : det.run_number with
  | none => exact RunsFrom_refl eid db
  | some n =>
    dsimp only
    obtain ⟨rid, db1, hE⟩ :
        ∃ rid db1, getOrCreateRunId db eid n = (rid, db1) := ⟨_, _, rfl⟩
    rw [hE]
    have h1 := getOrCreateRunId_RunsFrom db eid n
    rw [hE] at h1
    refine RunsFrom_trans h1 ?_
    apply foldl_rel (RunsFrom eid) (RunsFrom_refl eid)
      (fun {a b c} => RunsFrom_trans) (detItemStep rid) det.items db1
    intro d kv _
    have h2 := detItemStep_runExp rid d kv
    exact RunsFrom_of_eq h2.1 h2.2

theorem fmStep_RunsFrom (eid : String) (db : DB) (record : FMRecord) :
    RunsFrom eid db (fmStep eid db record) := by
  unfold fmStep
  cases hn : record.run_number with
  | none => exact RunsFrom_refl eid db
  | some n =>
    dsimp only
    obtain ⟨rid, db1, hE⟩ :
        ∃ rid db1, getOrCreateRunId db eid n = (rid, db1) := ⟨_, _, rfl⟩
    rw [hE]
    have h1 := getOrCreateRunId_RunsFrom db eid n
    rw [hE] at h1
    refine RunsFrom_trans h1 ?_
    have h2 := rpdUpsertFM_runExp db1 rid record
    exact RunsFrom_of_eq h2.1 h2.2

theorem insertLogbookNC_RunsFrom (eid : String) (db : DB)
    (entries : List TransformedEntry)
    (hids : ∀ e ∈ entries, e.experiment_id = eid) :
    RunsFrom eid db (insertLogbookNC db entries) := by
  unfold insertLogbookNC
  cases entries with
  | nil => exact RunsFrom_refl eid db
  | cons first rest =>
    refine RunsFrom_trans (RunsFrom_of_eq rfl rfl) ?_
    apply foldl_rel (RunsFrom eid) (RunsFrom_refl eid)
      (fun {a b c} => RunsFrom_trans) logStep (first :: rest) _
    intro d e he
    exact logStep_RunsFrom eid d e (hids e he)

theorem insertRuntableNC_RunsFrom (db : DB) (rt : RuntableData) :
    RunsFrom rt.experiment_id db (insertRuntableNC db rt) := by
  unfold insertRuntableNC
  refine RunsFrom_trans
    (foldl_rel (RunsFrom rt.experiment_id) (RunsFrom_refl rt.experiment_id)
      (fun {a b c} => RunsFrom_trans) (prodStep rt.experiment_id)
      rt.data_production db
      (fun d rd _ => prodStep_RunsFrom rt.experiment_id d rd)) ?_
  exact foldl_rel (RunsFrom rt.experiment_id) (RunsFrom_refl rt.experiment_id)
    (fun {a b c} => RunsFrom_trans) (detStep rt.experiment_id) rt.detectors _
    (fun d det _ => detStep_RunsFrom rt.experiment_id d det)

theorem insertFileManagerNC_RunsFrom (db : DB) (fm : FileManagerData) :
    RunsFrom fm.experiment_id db (insertFileManagerNC db fm) := by
  unfold insertFileManagerNC
  exact foldl_rel (RunsFrom fm.experiment_id) (RunsFrom_refl fm.experiment_id)
    (fun {a b c} => RunsFrom_trans) (fmStep fm.experiment_id)
    fm.file_manager_records db
    (fun d r _ => fmStep_RunsFrom fm.experiment_id d r)

theorem insertExperimentNC_ownership (db : DB) (i : ExperimentRow)
    (hro : RunOwnership db) :
    RunOwnership (insertExperimentNC db i) ∧
    ExpHas (insertExperimentNC db i) i.experiment_id := by
  constructor
  · intro r hr
    have hr' : r ∈ db.run := hr
    obtain ⟨e, he, heq⟩ := hro r hr'
    by_cases hcase : e.experiment_id = i.experiment_id
    · exact ⟨i, by simp [insertExperimentNC], by rw [← hcase, heq]⟩
    · refine ⟨e, ?_, heq⟩
      simp only [insertExperimentNC, List.mem_append]
      left
      exact List.mem_filter.mpr ⟨he, by simpa using hcase⟩
  · exact ⟨i, by simp [insertExperimentNC], rfl⟩

theorem ownership_of_RunsFrom {eid : String} {db db' : DB}
    (hro : RunOwnership db) (hhas : ExpHas db eid)
    (hrf : RunsFrom eid db db') : RunOwnership db' := by
  intro r hr
  rcases hrf.2 r hr with ⟨r0, hr0, heq⟩ | heid
  · obtain ⟨e, he, heq'⟩ := hro r0 hr0
    exact ⟨e, by rw [hrf.1]; exact he, by rw [heq', heq]⟩
  · obtain ⟨e, he, heq'⟩ := hhas
    exact ⟨e, by rw [hrf.1]; exact he, by rw [heq', heid]⟩

theorem insertExperimentBatch_ownership (db : DB) (rec : CompositeRecord)
    (hro : RunOwnership db) (hids : FacetIdsMatch rec)
    (hinfo : rec.info.isSome = true) :
    RunOwnership (insertExperimentBatch db rec) := by
  obtain ⟨i, hi⟩ := Option.isSome_iff_exists.mp hinfo
  have hieid : i.experiment_id = rec.experiment_id := by
    have := hids.1
    rw [hi] at this
    exact this
  unfold insertExperimentBatch
  rw [hi]
  dsimp only
  have h1 := insertExperimentNC_ownership db i hro
  have hro1 : RunOwnership (insertExperimentNC db i) := h1.1
  have hhas1 : ExpHas (insertExperimentNC db i) rec.experiment_id := by
    obtain ⟨e, he, heq⟩ := h1.2
    exact ⟨e, he, by rw [heq, hieid]⟩
  set eid := rec.experiment_id with heid
  have hL : ∀ (d : DB), RunsFrom eid d
      (match rec.logbook with
       | [] => d
       | entries => insertLogbookNC d entries) := by
    intro d
    cases hlb : rec.logbook with
    | nil => exact RunsFrom_refl eid d
    | cons e rest =>
      refine insertLogbookNC_RunsFrom eid d (e :: rest) ?_
      intro x hx
      have := hids.2.1
      rw [hlb] at this
      exact this x hx
  have hRT : ∀ (d : DB), RunsFrom eid d
      (match rec.runtable with
       | some rt => insertRuntableNC d rt
       | none => d) := by
    intro d
    cases hrt : rec.runtable with
    | none => exact RunsFrom_refl eid d
    | some rt =>
      have heq : rt.experiment_id = eid := by
        have := hids.2.2.1
        rw [hrt] at this
        exact this
      have := insertRuntableNC_RunsFrom d rt
      rw [heq] at this
      exact this
  have hFM : ∀ (d : DB), RunsFrom eid d
      (match rec.file_manager with
       | some fm => insertFileManagerNC d fm
       | none => d) := by
    intro d
    cases hfm : rec.file_manager with
    | none => exact RunsFrom_refl eid d
    | some fm =>
      have heq : fm.experiment_id = eid := by
        have := hids.2.2.2.1
        rw [hfm] at this
        exact this
      have := insertFileManagerNC_RunsFrom d fm
      rw [heq] at this
      exact this
  have hQ : ∀ (d : DB), RunsFrom eid d
      (match rec.questionnaire with
       | some q => insertQuestionnaireNC d q
       | none => d) := by
    intro d
    cases rec.questionnaire with
    | none => exact RunsFrom_refl eid d
    | some q => exact RunsFrom_of_eq rfl rfl
  have hW : ∀ (d : DB), RunsFrom eid d
      (match rec.workflow with
       | some w => insertWorkflowNC d w
       | none => d) := by
    intro d
    cases rec.workflow with
    | none => exact RunsFrom_refl eid d
    | some w => exact RunsFrom_of_eq rfl rfl
  exact ownership_of_RunsFrom hro1 hhas1
    (RunsFrom_trans (hL _)
      (RunsFrom_trans (hRT _)
        (RunsFrom_trans (hFM _)
          (RunsFrom_trans (hQ _) (hW _)))))

theorem deleteStages_ownership (db : DB) (eid : String)
    (hro : RunOwnership db) :
    (∀ s ∈ deleteStages db eid, RunOwnership s) ∧
    RunOwnership (deleteExperiment db eid) := by
  have h1 : RunOwnership (deleteRunChildren db (runIdsOf db eid)) := hro
  have h2 : RunOwnership
      (deleteLogbookFor (deleteRunChildren db (runIdsOf db eid)) eid) := h1
  have h3 : RunOwnership
      (deleteRunsFor
        (deleteLogbookFor (deleteRunChildren db (runIdsOf db eid)) eid)
        eid) := by
    intro r hr
    exact h2 r (List.mem_of_mem_filter hr)
  have h4 : RunOwnership
      (deleteQuestionnaireFor
        (deleteRunsFor
          (deleteLogbookFor (deleteRunChildren db (runIdsOf db eid)) eid)
          eid)
        eid) := h3
  have h5 : RunOwnership
      (deleteWorkflowFor
        (deleteQuestionnaireFor
          (deleteRunsFor
            (deleteLogbookFor (deleteRunChildren db (runIdsOf db eid)) eid)
            eid)
          eid)
        eid) := h4
  have h6 : RunOwnership
      (deleteExperimentRowFor
        (deleteWorkflowFor
          (deleteQuestionnaireFor
            (deleteRunsFor
              (deleteLogbookFor (deleteRunChildren db (runIdsOf db eid)) eid)
              eid)
            eid)
          eid)
        eid) := by
    intro r hr
    have hrne : r.experiment_id ≠ eid := by
      have := (List.mem_filter.mp hr).2
      simpa using this
    obtain ⟨e, he, heq⟩ := h5 r hr
    refine ⟨e, ?_, heq⟩
    apply List.mem_filter.mpr
    refine ⟨he, ?_⟩
    simpa using heq ▸ hrne
  have h7 : RunOwnership
      (clearRunCacheFor
        (deleteExperimentRowFor
          (deleteWorkflowFor
            (deleteQuestionnaireFor
              (deleteRunsFor
                (deleteLogbookFor (deleteRunChildren db (runIdsOf db eid)) eid)
                eid)
              eid)
            eid)
          eid)
        eid) := h6
  constructor
  · intro s hs
    simp only [deleteStages, List.mem_cons, List.not_mem_nil, or_false] at hs
    rcases hs with rfl | rfl | rfl | rfl | rfl | rfl | rfl
    · exact h1
    · exact h2
    · exact h3
    · exact h4
    · exact h5
    · exact h6
    · exact h7
  · exact h7

/-- Amended C6: `delete_experiment` preserves run-ownership at every
intermediate stage (dependents and `Run` go before `Experiment`), and
`insert_experiment_batch` preserves it provided the composite record
carries an `info` facet and all facet experiment ids match the
record's; a record lacking `info` while carrying run-creating facets
can orphan runs (see the counterexample).  Any operation sequence whose
insert records satisfy that condition preserves the invariant. -/
theorem run_ownership_amended :
    (∀ (db : DB) (eid : String), RunOwnership db →
        ∀ s ∈ deleteStages db eid, RunOwnership s)
  ∧ (∀ (db : DB) (eid : String), RunOwnership db →
        RunOwnership (deleteExperiment db eid))
  ∧ (∀ (db : DB) (rec : CompositeRecord), RunOwnership db →
        FacetIdsMatch rec → rec.info.isSome = true →
        RunOwnership (insertExperimentBatch db rec))
  ∧ (∀ (db : DB) (ops : List MergeOp), RunOwnership db →
        (∀ rec, MergeOp.ins rec ∈ ops →
          FacetIdsMatch rec ∧ rec.info.isSome = true) →
        RunOwnership (applyOps db ops)) := by
  refine ⟨fun db eid hro => (deleteStages_ownership db eid hro).1,
    fun db eid hro => (deleteStages_ownership db eid hro).2,
    insertExperimentBatch_ownership, ?_⟩
  intro db ops hro hgood
  refine foldl_rel (fun a b => RunOwnership a → RunOwnership b)
    (fun b h => h) (fun {a b c} h1 h2 h => h2 (h1 h)) applyOp ops db
    ?_ hro
  intro d op hop
  cases op with
  | ins rec =>
    intro h
    exact insertExperimentBatch_ownership d rec h (hgood rec hop).1
      (hgood rec hop).2
  | del eid => exact fun h => (deleteStages_ownership d eid h).2
  | meta k v => exact fun h => h

/-- Witness for amended C6: a well-formed record with an `info` facet
inserted into the empty store, the delete stages on the empty store,
and a one-operation sequence. -/
theorem run_ownership_amended_witness :
    RunOwnership emptyDB
  ∧ FacetIdsMatch
      { experiment_id := "e1",
        info := some ⟨"e1", none, none, none, none, none, none, none, none,
          none, none, none⟩,
        logbook := [], runtable := none, file_manager := none,
        questionnaire := none, workflow := none }
  ∧ RunOwnership
      (insertExperimentBatch emptyDB
        { experiment_id := "e1",
          info := some ⟨"e1", none, none, none, none, none, none, none, none,
            none, none, none⟩,
          logbook := [], runtable := none, file_manager := none,
          questionnaire := none, workflow := none })
  ∧ (∀ s ∈ deleteStages emptyDB "e1", RunOwnership s)
  ∧ RunOwnership (applyOps emptyDB [MergeOp.del "e1"]) := by
  have hids : FacetIdsMatch
      { experiment_id := "e1",
        info := some ⟨"e1", none, none, none, none, none, none, none, none,
          none, none, none⟩,
        logbook := [], runtable := none, file_manager := none,
        questionnaire := none, workflow := none } :=
    ⟨rfl, fun e he => absurd he (List.not_mem_nil e), trivial, trivial,
      trivial, trivial⟩
  refine ⟨runOwnership_of_nil rfl, hids, ?_, ?_, ?_⟩
  · exact run_ownership_amended.2.2.1 emptyDB _
      (runOwnership_of_nil rfl) hids rfl
  · exact run_ownership_amended.1 emptyDB "e1" (runOwnership_of_nil rfl)
  · exact run_ownership_amended.2.2.2 emptyDB [MergeOp.del "e1"]
      (runOwnership_of_nil rfl)
      (fun rec hrec => absurd hrec (by simp))

/-! ### Writer model (`writer_thread` / `_do_update` in `src/elogfetch/cli.py`)

The model covers the drain loop and the `finally` finalization.  Items
are classified by how the source handles them: an error result, a
record whose batch insert succeeds, a record whose batch insert raises
(caught by the per-item handler; in incremental mode its
`delete_experiment` — including that function's own commit — already
ran, and the aborted insert's uncommitted partial writes are not
modeled), and an item whose handling raises outside the per-item `try`,
which is loop-fatal.  `totalCommits` counts every `conn.commit()`
issued while draining and finalizing: the commit inside
`delete_experiment`, the batch commits, and the commit inside each
`set_metadata` call. -/

inductive WItem where
  | errorResult (experiment_id error : String)
  | good (rec : CompositeRecord)
  | badWrite (experiment_id error : String)
  | fatal (msg : String)
deriving DecidableEq, Repr

/-- The writer's mutable state. -/
structure WriterState where
  db : DB
  batchCount : Nat
  batchCommits : Nat
  totalCommits : Nat
  successCount : Nat
  failed : List (String × String)
  fatalErr : Option String
  walCheckpointed : Bool
  journalDelete : Bool
  closed : Bool
deriving DecidableEq, Repr

/-- Writer state at the top of the drain loop. -/
def writerInit (db : DB) : WriterState :=
  { db := db, batchCount := 0, batchCommits := 0, totalCommits := 0,
    successCount := 0, failed := [], fatalErr := none,
    walCheckpointed := false, journalDelete := false, closed := false }

/-- Handling of one non-fatal item in the drain loop. -/
def writerStep (incremental : Bool) (B : Nat) (st : WriterState) :
    WItem → WriterState
  | .errorResult eid err => { st with failed := st.failed ++ [(eid, err)] }
  | .good rec =>
    let st :=
      if incremental then
        { st with
            db := deleteExperiment st.db rec.experiment_id
            totalCommits := st.totalCommits + 1 }
      else st
    let st := { st with db := insertExperimentBatch st.db rec }
    let st := { st with batchCount := st.batchCount + 1 }
    let st :=
      if st.batchCount ≥ B then
        { st with
            batchCommits := st.batchCommits + 1
            totalCommits := st.totalCommits + 1
            batchCount := 0 }
      else st
    { st with successCount := st.successCount + 1 }
  | .badWrite eid err =>
    let st :=
      if incremental then
        { st with
            db := deleteExperiment st.db eid
            totalCommits := st.totalCommits + 1 }
      else st
    { st with failed := st.failed ++ [(eid, err)] }
  | .fatal _ => st

/-- The drain loop: a loop-fatal item stops it at once, recording the
error for `_do_update` to re-raise. -/
def writerLoop (incremental : Bool) (B : Nat) :
    WriterState → List WItem → WriterState
  | st, [] => st
  | st, item :: rest =>
    match item with
    | .fatal msg => { st with fatalErr := some msg }
    | _ => writerLoop incremental B (writerStep incremental B st item) rest

/-- The `if batch_count > 0: db.commit()` after the loop — skipped when
the loop was aborted by a fatal exception. -/
def trailingCommit (st : WriterState) : WriterState :=
  match st.fatalErr with
  | some _ => st
  | none =>
    if st.batchCount > 0 then
      { st with
          batchCommits := st.batchCommits + 1
          totalCommits := st.totalCommits + 1 }
    else st

/-- The `finally` block: the two `set_metadata` calls (each commits)
and `Database.close` (full WAL checkpoint, then journal mode DELETE). -/
def finalizeWriter (now hoursStr : String) (st : WriterState) : WriterState :=
  let st :=
    { st with
        db := setMetadataNC st.db "last_update" now
        totalCommits := st.totalCommits + 1 }
  let st :=
    { st with
        db := setMetadataNC st.db "hours_lookback" hoursStr
        totalCommits := st.totalCommits + 1 }
  { st with walCheckpointed := true, journalDelete := true, closed := true }

/-- One writer run over the drained items. -/
def runWriter (incremental : Bool) (B : Nat) (now hoursStr : String)
    (db : DB) (items : List WItem) : WriterState :=
  finalizeWriter now hoursStr
    (trailingCommit (writerLoop incremental B (writerInit db) items))

/-- The tail of `_do_update`: re-raise a captured writer error,
otherwise report the counts. -/
def doUpdateResult (st : WriterState) : Except String (Nat × Nat) :=
  match st.fatalErr with
  | some e => Except.error e
  | none => Except.ok (st.successCount, st.failed.length)

/-- Number of successfully written records among the items. -/
def goodCount (items : List WItem) : Nat :=
  (items.filter
    (fun i =>
      match i with
      | WItem.good _ => true
      | _ => false)).length

/-- Number of items that run `delete_experiment` in incremental mode
(successful and failed writes alike). -/
def delCount (items : List WItem) : Nat :=
  (items.filter
    (fun i =>
      match i with
      | WItem.good _ => true
      | WItem.badWrite _ _ => true
      | _ => false)).length

/-! ### Claim C3: commit batching -/

theorem writerStep_good_fields (incr : Bool) (B : Nat) (st : WriterState)
    (rec : CompositeRecord) :
    (writerStep incr B st (WItem.good rec)).batchCount =
      (if st.batchCount + 1 ≥ B then 0 else st.batchCount + 1) ∧
    (writerStep incr B st (WItem.good rec)).batchCommits =
      (if st.batchCount + 1 ≥ B then st.batchCommits + 1 else st.batchCommits) ∧
    (writerStep incr B st (WItem.good rec)).totalCommits =
      st.totalCommits + (if incr then 1 else 0) +
        (if st.batchCount + 1 ≥ B then 1 else 0) ∧
    (writerStep incr B st (WItem.good rec)).successCount =
      st.successCount + 1 ∧
    (writerStep incr B st (WItem.good rec)).fatalErr = st.fatalErr := by
  cases incr <;> by_cases hfull : st.batchCount + 1 ≥ B <;>
    simp [writerStep, hfull]

theorem writerStep_error_fields (incr : Bool) (B : Nat) (st : WriterState)
    (eid err : String) :
    (writerStep incr B st (WItem.errorResult eid err)).batchCount =
      st.batchCount ∧
    (writerStep incr B st (WItem.errorResult eid err)).batchCommits =
      st.batchCommits ∧
    (writerStep incr B st (WItem.errorResult eid err)).totalCommits =
      st.totalCommits ∧
    (writerStep incr B st (WItem.errorResult eid err)).successCount =
      st.successCount ∧
    (writerStep incr B st (WItem.errorResult eid err)).fatalErr =
      st.fatalErr := by
  simp [writerStep]

theorem writerStep_bad_fields (incr : Bool) (B : Nat) (st : WriterState)
    (eid err : String) :
    (writerStep incr B st (WItem.badWrite eid err)).batchCount =
      st.batchCount ∧
    (writerStep incr B st (WItem.badWrite eid err)).batchCommits =
      st.batchCommits ∧
    (writerStep incr B st (WItem.badWrite eid err)).totalCommits =
      st.totalCommits + (if incr then 1 else 0) ∧
    (writerStep incr B st (WItem.badWrite eid err)).successCount =
      st.successCount ∧
    (writerStep incr B st (WItem.badWrite eid err)).fatalErr =
      st.fatalErr := by
  cases incr <;> simp [writerStep]

theorem goodCount_cons_good (rec : CompositeRecord) (rest : List WItem) :
    goodCount (WItem.good rec :: rest) = goodCount rest + 1 := by
  simp [goodCount, List.filter_cons]

theorem goodCount_cons_error (eid err : String) (rest : List WItem) :
    goodCount (WItem.errorResult eid err :: rest) = goodCount rest := by
  simp [goodCount, List.filter_cons]

theorem goodCount_cons_bad (eid err : String) (rest : List WItem) :
    goodCount (WItem.badWrite eid err :: rest) = goodCount rest := by
  simp [goodCount, List.filter_cons]

theorem delCount_cons_good (rec : CompositeRecord) (rest : List WItem) :
    delCount (WItem.good rec :: rest) = delCount rest + 1 := by
  simp [delCount, List.filter_cons]

theorem delCount_cons_error (eid err : String) (rest : List WItem) :
    delCount (WItem.errorResult eid err :: rest) = delCount rest := by
  simp [delCount, List.filter_cons]

theorem delCount_cons_bad (eid err : String) (rest : List WItem) :
    delCount (WItem.badWrite eid err :: rest) = delCount rest + 1 := by
  simp [delCount, List.filter_cons]

theorem writerLoop_counts (incr : Bool) (B : Nat) (hB : 1 ≤ B) :
    ∀ (items : List WItem) (st : WriterState),
      (∀ m, WItem.fatal m ∉ items) → st.batchCount < B →
      st.fatalErr = none →
      (writerLoop incr B st items).batchCommits =
        st.batchCommits + (st.batchCount + goodCount items) / B ∧
      (writerLoop incr B st items).batchCount =
        (st.batchCount + goodCount items) % B ∧
      (writerLoop incr B st items).fatalErr = none ∧
      (writerLoop incr B st items).successCount =
        st.successCount + goodCount items ∧
      (writerLoop incr B st items).totalCommits =
        st.totalCommits + (if incr then delCount items else 0) +
          (st.batchCount + goodCount items) / B := by
  intro items
  induction items with
  | nil =>
    intro st _ hlt hfe
    have hdiv : st.batchCount / B = 0 := Nat.div_eq_of_lt hlt
    have hmod : st.batchCount % B = st.batchCount := Nat.mod_eq_of_lt hlt
    simp [writerLoop, goodCount, delCount, hdiv, hmod, hfe]
  | cons item rest ih =>
    intro st hnf hlt hfe
    have hnf' : ∀ m, WItem.fatal m ∉ rest := by
      intro m hm
      exact hnf m (by simp [hm])
    cases item with
    | fatal m => exact absurd (by simp) (hnf m)
    | errorResult eid err =>
      have hst := writerStep_error_fields incr B st eid err
      have hloop : writerLoop incr B st (WItem.errorResult eid err :: rest) =
          writerLoop incr B (writerStep incr B st (WItem.errorResult eid err))
            rest := rfl
      have := ih (writerStep incr B st (WItem.errorResult eid err)) hnf'
        (by rw [hst.1]; exact hlt) (by rw [hst.2.2.2.2]; exact hfe)
      rw [hloop, goodCount_cons_error, delCount_cons_error]
      rw [hst.1, hst.2.1, hst.2.2.1, hst.2.2.2.1] at this
      exact this
    | badWrite eid err =>
      have hst := writerStep_bad_fields incr B st eid err
      have hloop : writerLoop incr B st (WItem.badWrite eid err :: rest) =
          writerLoop incr B (writerStep incr B st (WItem.badWrite eid err))
            rest := rfl
      have hrec := ih (writerStep incr B st (WItem.badWrite eid err)) hnf'
        (by rw [hst.1]; exact hlt) (by rw [hst.2.2.2.2]; exact hfe)
      rw [hloop, goodCount_cons_bad, delCount_cons_bad]
      rw [hst.1, hst.2.1, hst.2.2.1, hst.2.2.2.1] at hrec
      refine ⟨hrec.1, hrec.2.1, hrec.2.2.1, hrec.2.2.2.1, ?_⟩
      rw [hrec.2.2.2.2]
      cases incr <;> simp <;> omega
    | good rec =>
      have hst := writerStep_good_fields incr B st rec
      have hloop : writerLoop incr B st (WItem.good rec :: rest) =
          writerLoop incr B (writerStep incr B st (WItem.good rec)) rest := rfl
      rw [hloop, goodCount_cons_good, delCount_cons_good]
      by_cases hfull : st.batchCount + 1 ≥ B
      · have hfullEq : st.batchCount + 1 = B := by omega
        have hbc0 : (writerStep incr B st (WItem.good rec)).batchCount = 0 := by
          rw [hst.1, if_pos hfull]
        have hbcm : (writerStep incr B st (WItem.good rec)).batchCommits =
            st.batchCommits + 1 := by
          rw [hst.2.1, if_pos hfull]
        have htot : (writerStep incr B st (WItem.good rec)).totalCommits =
            st.totalCommits + (if incr then 1 else 0) + 1 := by
          rw [hst.2.2.1, if_pos hfull]
        have hsc : (writerStep incr B st (WItem.good rec)).successCount =
            st.successCount + 1 := hst.2.2.2.1
        have hrec := ih (writerStep incr B st (WItem.good rec)) hnf'
          (by rw [hbc0]; omega) (by rw [hst.2.2.2.2]; exact hfe)
        rw [hbc0, hbcm, htot, hsc] at hrec
        simp only [Nat.zero_add] at hrec
        have harith : st.batchCount + (goodCount rest + 1) =
            goodCount rest + B := by omega
        have hdivEq : (goodCount rest + B) / B = goodCount rest / B + 1 :=
          Nat.add_div_right _ (by omega)
        have hmodEq : (goodCount rest + B) % B = goodCount rest % B :=
          Nat.add_mod_right _ _
        refine ⟨?_, ?_, hrec.2.2.1, ?_, ?_⟩
        · rw [hrec.1, harith, hdivEq]
          omega
        · rw [hrec.2.1, harith, hmodEq]
        · rw [hrec.2.2.2.1]
          omega
        · rw [hrec.2.2.2.2, harith, hdivEq]
          cases incr <;> simp <;> omega
      · have hbc1 : (writerStep incr B st (WItem.good rec)).batchCount =
            st.batchCount + 1 := by
          rw [hst.1, if_neg hfull]
        have hbcm : (writerStep incr B st (WItem.good rec)).batchCommits =
            st.batchCommits := by
          rw [hst.2.1, if_neg hfull]
        have htot : (writerStep incr B st (WItem.good rec)).totalCommits =
            st.totalCommits + (if incr then 1 else 0) := by
          rw [hst.2.2.1, if_neg hfull]
          simp
        have hsc : (writerStep incr B st (WItem.good rec)).successCount =
            st.successCount + 1 := hst.2.2.2.1
        have hrec := ih (writerStep incr B st (WItem.good rec)) hnf'
          (by rw [hbc1]; omega) (by rw [hst.2.2.2.2]; exact hfe)
        rw [hbc1, hbcm, htot, hsc] at hrec
        have harith : st.batchCount + (goodCount rest + 1) =
            st.batchCount + 1 + goodCount rest := by omega
        refine ⟨?_, ?_, hrec.2.2.1, ?_, ?_⟩
        · rw [hrec.1, harith]
        · rw [hrec.2.1, harith]
        · rw [hrec.2.2.2.1]
          omega
        · rw [hrec.2.2.2.2, harith]
          cases incr <;> simp <;> omega

theorem ceilDiv_split (B g : Nat) (hB : 1 ≤ B) :
    g / B + (if g % B = 0 then 0 else 1) = (g + B - 1) / B := by
  have h0 : 0 < B := hB
  have hsplit := Nat.div_add_mod g B
  set q := g / B with hq
  set r := g % B with hr
  have hrlt : r < B := Nat.mod_lt _ h0
  by_cases hz : r = 0
  · rw [if_pos hz]
    have hg : g = B * q := by omega
    have : g + B - 1 = B * q + (B - 1) := by omega
    rw [this, Nat.mul_add_div h0, Nat.div_eq_of_lt (by omega)]
  · rw [if_neg hz]
    have : g + B - 1 = B * (q + 1) + (r - 1) := by
      have : B * (q + 1) = B * q + B := by ring
      omega
    rw [this, Nat.mul_add_div h0, Nat.div_eq_of_lt (by omega)]

/-- A minimal composite record used in concrete writer runs. -/
def blankRec (eid : String) : CompositeRecord :=
  ⟨eid, none, [], none, none, none, none⟩

/-- Counterexample to C3 as stated: with batch size 2 and 2 successful
experiments in incremental mode, the writer issues 5 commits during the
run — 1 inside each of the two `delete_experiment` calls, 1 batch
commit, and 1 inside each of the two finalize `set_metadata` calls —
not ceil(2/2) = 1. -/
theorem commit_batching_counterexample :
    (runWriter true 2 "t" "168.0" emptyDB
        [WItem.good (blankRec "a"), WItem.good (blankRec "b")]).successCount
      = 2 ∧
    (2 + 2 - 1) / 2 = 1 ∧
    (runWriter true 2 "t" "168.0" emptyDB
        [WItem.good (blankRec "a"), WItem.good (blankRec "b")]).totalCommits
      = 5 ∧
    ¬ ((runWriter true 2 "t" "168.0" emptyDB
        [WItem.good (blankRec "a"), WItem.good (blankRec "b")]).totalCommits
      = (2 + 2 - 1) / 2) := by
  refine ⟨by decide, by decide, by decide, by decide⟩

/-- Amended C3: in a run without loop-fatal failures, with batch size
B ≥ 1 and N successfully written experiments, the batching logic alone
issues exactly ceil(N/B) = (N + B − 1)/B commits (counter reset at B,
one trailing commit for a non-empty partial batch); the remaining
commits of the run are the one inside `delete_experiment` per processed
record in incremental mode and the two finalize metadata commits. -/
theorem commit_batching_amended (incremental : Bool) (B : Nat)
    (now hoursStr : String) (db : DB) (items : List WItem)
    (hB : 1 ≤ B) (hnf : ∀ m, WItem.fatal m ∉ items) :
    (runWriter incremental B now hoursStr db items).successCount =
      goodCount items ∧
    (runWriter incremental B now hoursStr db items).batchCommits =
      (goodCount items + B - 1) / B ∧
    (runWriter incremental B now hoursStr db items).totalCommits =
      (if incremental then delCount items else 0) +
        (goodCount items + B - 1) / B + 2 := by
  have hloop := writerLoop_counts incremental B hB items (writerInit db) hnf
    (by simp [writerInit]; omega) (by simp [writerInit])
  simp only [writerInit] at hloop
  set lp := writerLoop incremental B (writerInit db) items with hlp
  have hbc : lp.batchCommits = goodCount items / B := by
    have := hloop.1
    simpa using this
  have hcount : lp.batchCount = goodCount items % B := by
    have := hloop.2.1
    simpa using this
  have hfe : lp.fatalErr = none := hloop.2.2.1
  have hsc : lp.successCount = goodCount items := by
    have := hloop.2.2.2.1
    simpa using this
  have htc : lp.totalCommits =
      (if incremental then delCount items else 0) + goodCount items / B := by
    have := hloop.2.2.2.2
    simpa using this
  have htr : trailingCommit lp =
      (if lp.batchCount > 0 then
        { lp with
            batchCommits := lp.batchCommits + 1
            totalCommits := lp.totalCommits + 1 }
      else lp) := by
    unfold trailingCommit
    rw [hfe]
  have hceil := ceilDiv_split B (goodCount items) hB
  unfold runWriter
  rw [← hlp, htr]
  by_cases hpos : lp.batchCount > 0
  · rw [if_pos hpos]
    have hmodne : ¬ goodCount items % B = 0 := by
      rw [hcount] at hpos
      omega
    refine ⟨by simp [finalizeWriter, hsc], ?_, ?_⟩
    · simp only [finalizeWriter]
      rw [hbc]
      rw [if_neg hmodne] at hceil
      omega
    · simp only [finalizeWriter]
      rw [htc]
      rw [if_neg hmodne] at hceil
      omega
  · rw [if_neg hpos]
    have hmodz : goodCount items % B = 0 := by
      rw [hcount] at hpos
      omega
    refine ⟨by simp [finalizeWriter, hsc], ?_, ?_⟩
    · simp only [finalizeWriter]
      rw [hbc]
      rw [if_pos hmodz] at hceil
      omega
    · simp only [finalizeWriter]
      rw [htc]
      rw [if_pos hmodz] at hceil
      omega

/-- Witness for amended C3: batch size 2, three successes and one
error result, non-incremental: 2 batch commits, 4 total. -/
theorem commit_batching_amended_witness :
    (1 ≤ 2) ∧
    (∀ m, WItem.fatal m ∉
      [WItem.good (blankRec "a"), WItem.errorResult "x" "boom",
        WItem.good (blankRec "b"), WItem.good (blankRec "c")]) ∧
    (runWriter false 2 "t" "168.0" emptyDB
        [WItem.good (blankRec "a"), WItem.errorResult "x" "boom",
          WItem.good (blankRec "b"), WItem.good (blankRec "c")]).batchCommits =
      (goodCount
        [WItem.good (blankRec "a"), WItem.errorResult "x" "boom",
          WItem.good (blankRec "b"), WItem.good (blankRec "c")] + 2 - 1) / 2 := by
  have hnf : ∀ m, WItem.fatal m ∉
      [WItem.good (blankRec "a"), WItem.errorResult "x" "boom",
        WItem.good (blankRec "b"), WItem.good (blankRec "c")] := by
    intro m hm
    simp at hm
  refine ⟨by decide, hnf, ?_⟩
  exact (commit_batching_amended false 2 "t" "168.0" emptyDB
    [WItem.good (blankRec "a"), WItem.errorResult "x" "boom",
      WItem.good (blankRec "b"), WItem.good (blankRec "c")]
    (by decide) hnf).2.1

/-! ### Claim C5: finalize-always and writer-fatal re-raise -/

theorem getMetadata_set_same (db : DB) (k v : String) :
    getMetadata (setMetadataNC db k v) k = some v := by
  unfold getMetadata setMetadataNC dictGet?
  rw [List.find?_append]
  have hnone : (db.metadata.filter (fun p => p.1 ≠ k)).find?
      (fun p => p.1 = k) = none := by
    rw [List.find?_eq_none]
    intro p hp
    have := (List.mem_filter.mp hp).2
    simpa using this
  rw [hnone]
  simp [List.find?_cons]

theorem getMetadata_set_ne (db : DB) (k v k' : String) (h : k ≠ k') :
    getMetadata (setMetadataNC db k v) k' = getMetadata db k' := by
  unfold getMetadata setMetadataNC dictGet?
  rw [List.find?_append]
  have hfilter : (db.metadata.filter (fun p => p.1 ≠ k)).find?
      (fun p => p.1 = k') = db.metadata.find? (fun p => p.1 = k') := by
    induction db.metadata with
    | nil => rfl
    | cons p m ih =>
      by_cases hp1 : p.1 = k
      · have hp2 : ¬ p.1 = k' := by rw [hp1]; exact h
        simp only [List.filter_cons, hp1]
        rw [List.find?_cons_of_neg _ (by simpa using hp2)]
        simpa using ih
      · by_cases hp2 : p.1 = k'
        · simp only [List.filter_cons]
          rw [if_pos (by simpa using hp1)]
          rw [List.find?_cons_of_pos _ (by simpa using hp2),
            List.find?_cons_of_pos _ (by simpa using hp2)]
        · simp only [List.filter_cons]
          rw [if_pos (by simpa using hp1)]
          rw [List.find?_cons_of_neg _ (by simpa using hp2),
            List.find?_cons_of_neg _ (by simpa using hp2)]
          exact ih
  rw [hfilter]
  cases hf : db.metadata.find? (fun p => p.1 = k') with
  | some p => rfl
  | none =>
    rw [List.find?_cons_of_neg _ (by simpa using h), List.find?_nil]
    rfl

theorem trailingCommit_fatalErr (st : WriterState) :
    (trailingCommit st).fatalErr = st.fatalErr := by
  unfold trailingCommit
  cases hfe : st.fatalErr with
  | some e => exact hfe
  | none =>
    by_cases h : st.batchCount > 0
    · rw [if_pos h]
    · rw [if_neg h]; exact hfe

theorem finalizeWriter_fields (now hoursStr : String) (st : WriterState) :
    (finalizeWriter now hoursStr st).fatalErr = st.fatalErr ∧
    (finalizeWriter now hoursStr st).successCount = st.successCount ∧
    (finalizeWriter now hoursStr st).failed = st.failed ∧
    (finalizeWriter now hoursStr st).walCheckpointed = true ∧
    (finalizeWriter now hoursStr st).journalDelete = true ∧
    (finalizeWriter now hoursStr st).closed = true ∧
    (finalizeWriter now hoursStr st).db =
      setMetadataNC (setMetadataNC st.db "last_update" now)
        "hours_lookback" hoursStr := by
  refine ⟨rfl, rfl, rfl, rfl, rfl, rfl, rfl⟩

theorem writerLoop_fatal_position (incr : Bool) (B : Nat) :
    ∀ (pre : List WItem) (msg : String) (post : List WItem)
      (st : WriterState),
      (∀ m, WItem.fatal m ∉ pre) →
      (writerLoop incr B st (pre ++ WItem.fatal msg :: post)).fatalErr =
        some msg := by
  intro pre
  induction pre with
  | nil => intro msg post st _; rfl
  | cons item pre' ih =>
    intro msg post st hnf
    cases item with
    | fatal m => exact absurd (by simp) (hnf m)
    | errorResult eid err =>
      exact ih msg post _ (fun m hm => hnf m (by simp [hm]))
    | good rec =>
      exact ih msg post _ (fun m hm => hnf m (by simp [hm]))
    | badWrite eid err =>
      exact ih msg post _ (fun m hm => hnf m (by simp [hm]))

/-- C5: whatever items the drain loop consumes — and whether it ends
normally or is aborted by a loop-fatal exception — the writer's
`finally` block writes the completion time and the configured lookback
window into `Metadata` and closes the store through the finalize
sequence (full WAL checkpoint, then journal mode DELETE, then close);
`_do_update` re-raises a captured loop-fatal error after the writer has
terminated, and otherwise reports the success and failure counts.  A
fatal item (the first one reached) is what sets the captured error. -/
theorem finalize_always_and_reraise (incremental : Bool) (B : Nat)
    (now hoursStr : String) (db : DB) (items : List WItem) :
    getMetadata (runWriter incremental B now hoursStr db items).db
        "last_update" = some now
  ∧ getMetadata (runWriter incremental B now hoursStr db items).db
        "hours_lookback" = some hoursStr
  ∧ (runWriter incremental B now hoursStr db items).walCheckpointed = true
  ∧ (runWriter incremental B now hoursStr db items).journalDelete = true
  ∧ (runWriter incremental B now hoursStr db items).closed = true
  ∧ (∀ e, (runWriter incremental B now hoursStr db items).fatalErr = some e →
      doUpdateResult (runWriter incremental B now hoursStr db items) =
        Except.error e)
  ∧ ((runWriter incremental B now hoursStr db items).fatalErr = none →
      doUpdateResult (runWriter incremental B now hoursStr db items) =
        Except.ok
          ((runWriter incremental B now hoursStr db items).successCount,
            (runWriter incremental B now hoursStr db items).failed.length))
  ∧ (∀ (pre : List WItem) (msg : String) (post : List WItem),
      items = pre ++ WItem.fatal msg :: post → (∀ m, WItem.fatal m ∉ pre) →
      (runWriter incremental B now hoursStr db items).fatalErr = some msg) := by
  set lp := writerLoop incremental B (writerInit db) items with hlp
  have hdb : (runWriter incremental B now hoursStr db items).db =
      setMetadataNC (setMetadataNC (trailingCommit lp).db "last_update" now)
        "hours_lookback" hoursStr := rfl
  have hfe : (runWriter incremental B now hoursStr db items).fatalErr =
      lp.fatalErr := by
    show (finalizeWriter now hoursStr (trailingCommit lp)).fatalErr = lp.fatalErr
    rw [(finalizeWriter_fields now hoursStr (trailingCommit lp)).1,
      trailingCommit_fatalErr]
  refine ⟨?_, ?_, rfl, rfl, rfl, ?_, ?_, ?_⟩
  · rw [hdb, getMetadata_set_ne _ _ _ _ (by decide), getMetadata_set_same]
  · rw [hdb, getMetadata_set_same]
  · intro e he
    unfold doUpdateResult
    rw [he]
  · intro he
    unfold doUpdateResult
    rw [he]
  · intro pre msg post hitems hnf
    rw [hfe, hlp, hitems]
    exact writerLoop_fatal_position incremental B pre msg post
      (writerInit db) hnf

/-- Witness for C5: a run aborted by a fatal item after one success,
and a clean run; metadata and close flags hold in both, and the fatal
error is re-raised. -/
theorem finalize_always_and_reraise_witness :
    getMetadata (runWriter true 2 "now" "168.0" emptyDB
        [WItem.good (blankRec "a"), WItem.fatal "disk gone"]).db
        "last_update" = some "now"
  ∧ (runWriter true 2 "now" "168.0" emptyDB
        [WItem.good (blankRec "a"), WItem.fatal "disk gone"]).closed = true
  ∧ (runWriter true 2 "now" "168.0" emptyDB
        [WItem.good (blankRec "a"), WItem.fatal "disk gone"]).fatalErr =
      some "disk gone"
  ∧ doUpdateResult (runWriter true 2 "now" "168.0" emptyDB
        [WItem.good (blankRec "a"), WItem.fatal "disk gone"]) =
      Except.error "disk gone"
  ∧ doUpdateResult (runWriter true 2 "now" "168.0" emptyDB
        [WItem.good (blankRec "a")]) =
      Except.ok (1, 0) := by
  have h := finalize_always_and_reraise true 2 "now" "168.0" emptyDB
    [WItem.good (blankRec "a"), WItem.fatal "disk gone"]
  have hfatal : (runWriter true 2 "now" "168.0" emptyDB
      [WItem.good (blankRec "a"), WItem.fatal "disk gone"]).fatalErr =
      some "disk gone" :=
    h.2.2.2.2.2.2.2 [WItem.good (blankRec "a")] "disk gone" [] rfl
      (fun m hm => by simp at hm)
  refine ⟨h.1, h.2.2.2.1, hfatal, h.2.2.2.2.2.1 "disk gone" hfatal, ?_⟩
  have h2 := finalize_always_and_reraise true 2 "now" "168.0" emptyDB
    [WItem.good (blankRec "a")]
  have hok := h2.2.2.2.2.2.2.1 (by decide)
  have hsc : (runWriter true 2 "now" "168.0" emptyDB
      [WItem.good (blankRec "a")]).successCount = 1 := by decide
  have hfl : (runWriter true 2 "now" "168.0" emptyDB
      [WItem.good (blankRec "a")]).failed.length = 0 := by decide
  rw [hok, hsc, hfl]

/-! ### Exclusivity lock (`src/fetch_elog/utils/locking.py`)

The OS advisory `flock` on one lock file is modeled as a boolean
held-state: `LOCK_EX | LOCK_NB` succeeds exactly when no other process
holds the lock and raises `BlockingIOError` otherwise.  Only the
non-blocking path — the default, and the one the CLI uses — is
modeled.  The protected body is a state transformer so that "the
caller never proceeds with ingestion" is visible as an unchanged
world. -/

structure LockState where
  held : Bool
  fileOpen : Bool
deriving DecidableEq, Repr

/-- Result of one `with acquire_lock(...)` scope: either the body ran
(returning or raising), or acquisition failed with `LockError` and the
body never ran. -/
inductive WithLockResult (α : Type) where
  | ran (r : Except String α)
  | contention

/-- The `acquire_lock` context manager: open the lock file, try the
non-blocking exclusive `flock` (raising `LockError` on contention after
closing the file), yield to the body, and in the `finally` clause
unlock and close — on normal and raising exits alike. -/
def withLock {σ α : Type} (st : LockState) (world : σ)
    (body : σ → σ × Except String α) :
    WithLockResult α × LockState × σ :=
  let st := { st with fileOpen := true }
  if st.held then
    (WithLockResult.contention, { st with fileOpen := false }, world)
  else
    let st := { st with held := true }
    let (world, r) := body world
    (WithLockResult.ran r, { st with held := false, fileOpen := false }, world)

/-- Outcome of the CLI `update` command around the lock: `LockError`
exits with status 1 before any ingestion. -/
inductive UpdateOutcome (α : Type) where
  | completed (result : α)
  | exited (code : Nat)
  | raised (err : String)
deriving DecidableEq

/-- The `update` command's lock handling: `with acquire_lock(...):
_do_update(...)` guarded by `except LockError: sys.exit(1)`. -/
def updateEntry {σ α : Type} (st : LockState) (world : σ)
    (body : σ → σ × Except String α) :
    UpdateOutcome α × LockState × σ :=
  match withLock st world body with
  | (WithLockResult.contention, st', w') => (UpdateOutcome.exited 1, st', w')
  | (WithLockResult.ran (Except.ok a), st', w') =>
    (UpdateOutcome.completed a, st', w')
  | (WithLockResult.ran (Except.error e), st', w') =>
    (UpdateOutcome.raised e, st', w')

/-- C8: acquiring the lock while another holder holds it fails
immediately with the contention result, the body never runs (the world
is unchanged) and the CLI exits without ingesting; when the owning
scope exits — normally or via an exception in the body — the lock is
unlocked and the lock file closed, so a subsequent acquisition on the
same path succeeds. -/
theorem lock_exclusivity {σ α : Type} (st : LockState) (world : σ)
    (body : σ → σ × Except String α) :
    (st.held = true →
      withLock st world body =
        (WithLockResult.contention, ⟨true, false⟩, world) ∧
      updateEntry st world body = (UpdateOutcome.exited 1, ⟨true, false⟩, world))
  ∧ (st.held = false →
      (withLock st world body).2.1 = ⟨false, false⟩ ∧
      (withLock st world body).1 = WithLockResult.ran (body world).2 ∧
      ∀ (w2 : σ) (body2 : σ → σ × Except String α),
        (withLock (withLock st world body).2.1 w2 body2).1 ≠
          WithLockResult.contention) := by
  constructor
  · intro hheld
    have hw : withLock st world body =
        (WithLockResult.contention, ⟨true, false⟩, world) := by
      unfold withLock
      rw [if_pos (by simpa using hheld)]
      cases st
      simp_all
    exact ⟨hw, by unfold updateEntry; rw [hw]⟩
  · intro hfree
    have hw : withLock st world body =
        (WithLockResult.ran (body world).2, ⟨false, false⟩, (body world).1) := by
      unfold withLock
      rw [if_neg (by simpa using hfree)]
    refine ⟨by rw [hw], by rw [hw], ?_⟩
    intro w2 body2
    rw [hw]
    unfold withLock
    rw [if_neg (by simp)]
    simp

/-- Witness for C8: a free lock is acquired, the body runs, and after
the scope — including a raising body — a second acquisition succeeds;
a held lock yields contention at once. -/
theorem lock_exclusivity_witness :
    (withLock ⟨true, false⟩ (0 : Nat) (fun w => (w + 1, Except.ok ())) =
      (WithLockResult.contention, ⟨true, false⟩, 0))
  ∧ (updateEntry ⟨true, false⟩ (0 : Nat) (fun w => (w + 1, Except.ok ())) =
      (UpdateOutcome.exited 1, ⟨true, false⟩, 0))
  ∧ ((withLock ⟨false, false⟩ (0 : Nat)
        (fun w => (w + 1, (Except.error "boom" : Except String Unit)))).2.1 =
      ⟨false, false⟩)
  ∧ ((withLock
        (withLock ⟨false, false⟩ (0 : Nat)
          (fun w => (w + 1, (Except.error "boom" : Except String Unit)))).2.1
        (5 : Nat) (fun w => (w, Except.ok ()))).1 ≠
      WithLockResult.contention) := by
  have h1 := (lock_exclusivity ⟨true, false⟩ (0 : Nat)
    (fun w => (w + 1, Except.ok ()))).1 rfl
  have h2 := (lock_exclusivity ⟨false, false⟩ (0 : Nat)
    (fun w => (w + 1, (Except.error "boom" : Except String Unit)))).2 rfl
  exact ⟨h1.1, h1.2, h2.1, h2.2.2 5 (fun w => (w, Except.ok ()))⟩

/-! ### Fetch worker (`fetch_and_queue` in `src/elogfetch/cli.py`)

The six per-endpoint fetchers are modeled as fallible functions of the
experiment id (`Except.error` models a raised exception).  The model
also reports how many fetch calls were entered, following Python's
left-to-right evaluation of the dict literal inside the single
`try`. -/

structure Fetchers where
  info : String → Except String (Option ExperimentRow)
  logbook : String → Except String (List TransformedEntry)
  runtable : String → Except String (Option RuntableData)
  file_manager : String → Except String (Option FileManagerData)
  questionnaire : String → Except String (Option QuestionnaireData)
  workflow : String → Except String (Option WorkflowData)

/-- An item pushed to the staging channel by a fetch worker. -/
inductive ChannelItem where
  | record (rec : CompositeRecord)
  | errorResult (experiment_id error : String)

/-- `fetch_and_queue`: evaluate the six fetch calls left to right
inside one `try`; the first raised exception is caught and converted
into an error result, and the item is pushed to the channel either
way.  The second component counts the calls entered. -/
def fetchAndQueue (fs : Fetchers) (exp_id : String) : ChannelItem × Nat :=
  match fs.info exp_id with
  | .error e => (ChannelItem.errorResult exp_id e, 1)
  | .ok info =>
    match fs.logbook exp_id with
    | .error e => (ChannelItem.errorResult exp_id e, 2)
    | .ok logbook =>
      match fs.runtable exp_id with
      | .error e => (ChannelItem.errorResult exp_id e, 3)
      | .ok runtable =>
        match fs.file_manager exp_id with
        | .error e => (ChannelItem.errorResult exp_id e, 4)
        | .ok file_manager =>
          match fs.questionnaire exp_id with
          | .error e => (ChannelItem.errorResult exp_id e, 5)
          | .ok questionnaire =>
            match fs.workflow exp_id with
            | .error e => (ChannelItem.errorResult exp_id e, 6)
            | .ok workflow =>
              (ChannelItem.record
                ⟨exp_id, info, logbook, runtable, file_manager,
                  questionnaire, workflow⟩, 6)

/-- A fetcher set whose first (info) call raises. -/
def failingFetchers : Fetchers :=
  { info := fun _ => Except.error "401 Unauthorized"
    logbook := fun _ => Except.ok []
    runtable := fun _ => Except.ok none
    file_manager := fun _ => Except.ok none
    questionnaire := fun _ => Except.ok none
    workflow := fun _ => Except.ok none }

/-- Counterexample to C4 as stated: when the first of the six calls
raises, the remaining five are never attempted — only 1 of the 6 calls
is entered — although the exception is indeed converted into an error
result. -/
theorem fetch_isolation_counterexample :
    (fetchAndQueue failingFetchers "exp1").2 = 1 ∧
    ¬ ((fetchAndQueue failingFetchers "exp1").2 = 6) ∧
    (fetchAndQueue failingFetchers "exp1").1 =
      ChannelItem.errorResult "exp1" "401 Unauthorized" := by
  refine ⟨rfl, by decide, rfl⟩

/-- Amended C4: the six fetch calls are attempted in order; the first
exception aborts the remaining calls for that experiment and is caught
and converted into an error result `{experiment_id, error}` pushed to
the channel instead of propagating; when all six succeed the composite
record is pushed with all six facets; and since the worker is total,
one experiment's failure never prevents processing of the remaining
experiments. -/
theorem fetch_isolation_amended (fs : Fetchers) (exp_id : String) :
    (∀ e, fs.info exp_id = Except.error e →
        fetchAndQueue fs exp_id = (ChannelItem.errorResult exp_id e, 1))
  ∧ (∀ i e, fs.info exp_id = Except.ok i →
        fs.logbook exp_id = Except.error e →
        fetchAndQueue fs exp_id = (ChannelItem.errorResult exp_id e, 2))
  ∧ (∀ i lb e, fs.info exp_id = Except.ok i →
        fs.logbook exp_id = Except.ok lb →
        fs.runtable exp_id = Except.error e →
        fetchAndQueue fs exp_id = (ChannelItem.errorResult exp_id e, 3))
  ∧ (∀ i lb rt e, fs.info exp_id = Except.ok i →
        fs.logbook exp_id = Except.ok lb →
        fs.runtable exp_id = Except.ok rt →
        fs.file_manager exp_id = Except.error e →
        fetchAndQueue fs exp_id = (ChannelItem.errorResult exp_id e, 4))
  ∧ (∀ i lb rt fm e, fs.info exp_id = Except.ok i →
        fs.logbook exp_id = Except.ok lb →
        fs.runtable exp_id = Except.ok rt →
        fs.file_manager exp_id = Except.ok fm →
        fs.questionnaire exp_id = Except.error e →
        fetchAndQueue fs exp_id = (ChannelItem.errorResult exp_id e, 5))
  ∧ (∀ i lb rt fm q e, fs.info exp_id = Except.ok i →
        fs.logbook exp_id = Except.ok lb →
        fs.runtable exp_id = Except.ok rt →
        fs.file_manager exp_id = Except.ok fm →
        fs.questionnaire exp_id = Except.ok q →
        fs.workflow exp_id = Except.error e →
        fetchAndQueue fs exp_id = (ChannelItem.errorResult exp_id e, 6))
  ∧ (∀ i lb rt fm q w, fs.info exp_id = Except.ok i →
        fs.logbook exp_id = Except.ok lb →
        fs.runtable exp_id = Except.ok rt →
        fs.file_manager exp_id = Except.ok fm →
        fs.questionnaire exp_id = Except.ok q →
        fs.workflow exp_id = Except.ok w →
        fetchAndQueue fs exp_id =
          (ChannelItem.record ⟨exp_id, i, lb, rt, fm, q, w⟩, 6))
  ∧ (∀ (ids : List String),
        (ids.map (fun id => (fetchAndQueue fs id).1)).length = ids.length) := by
  refine ⟨?_, ?_, ?_, ?_, ?_, ?_, ?_, fun ids => List.length_map ids _⟩
  · intro e h1
    unfold fetchAndQueue
    rw [h1]
  · intro i e h1 h2
    unfold fetchAndQueue
    rw [h1, h2]
  · intro i lb e h1 h2 h3
    unfold fetchAndQueue
    rw [h1, h2, h3]
  · intro i lb rt e h1 h2 h3 h4
    unfold fetchAndQueue
    rw [h1, h2, h3, h4]
  · intro i lb rt fm e h1 h2 h3 h4 h5
    unfold fetchAndQueue
    rw [h1, h2, h3, h4, h5]
  · intro i lb rt fm q e h1 h2 h3 h4 h5 h6
    unfold fetchAndQueue
    rw [h1, h2, h3, h4, h5, h6]
  · intro i lb rt fm q w h1 h2 h3 h4 h5 h6
    unfold fetchAndQueue
    rw [h1, h2, h3, h4, h5, h6]

/-- Witness for amended C4: the first-call-fails and all-succeed cases
on concrete fetcher sets. -/
theorem fetch_isolation_amended_witness :
    fetchAndQueue failingFetchers "exp1" =
      (ChannelItem.errorResult "exp1" "401 Unauthorized", 1)
  ∧ fetchAndQueue
      { info := fun _ => Except.ok none
        logbook := fun _ => Except.ok []
        runtable := fun _ => Except.ok none
        file_manager := fun _ => Except.ok none
        questionnaire := fun _ => Except.ok none
        workflow := fun _ => Except.ok none } "exp2" =
      (ChannelItem.record ⟨"exp2", none, [], none, none, none, none⟩, 6) := by
  constructor
  · exact (fetch_isolation_amended failingFetchers "exp1").1
      "401 Unauthorized" rfl
  · exact (fetch_isolation_amended _ "exp2").2.2.2.2.2.2.1
      none [] none none none none rfl rfl rfl rfl rfl rfl


/-! ### Incremental idempotence (`delete_experiment` + `insert_experiment_batch`)

Groundwork: the decimal rendering used by the `f"{eid}_{run}"` cache
key is injective, and every cache key of an experiment starts with
`f"{eid}_"` — which is exactly what `delete_experiment` clears. -/

theorem natToCharsAux_append (fuel n : Nat) (acc : List Char) :
    natToCharsAux fuel n acc = natToCharsAux fuel n [] ++ acc := by
  induction fuel generalizing n acc with
  | zero => simp [natToCharsAux]
  | succ f ih =>
    simp only [natToCharsAux]
    by_cases h : n < 10
    · rw [if_pos h, if_pos h]; rfl
    · rw [if_neg h, if_neg h, ih (n / 10) (digitChar (n % 10) :: acc),
        ih (n / 10) [digitChar (n % 10)]]
      simp

theorem digitsFold_shift (a : Nat) (ys : List Char) :
    ys.foldl (fun a c => a * 10 + (c.toNat - 48)) a =
      a * 10 ^ ys.length + digitsVal ys := by
  induction ys generalizing a with
  | nil => simp [digitsVal]
  | cons c ys ih =>
    simp only [List.foldl_cons, List.length_cons, digitsVal]
    rw [ih (a * 10 + (c.toNat - 48)), ih (0 * 10 + (c.toNat - 48))]
    rw [pow_succ]
    ring

theorem digitsVal_append (xs ys : List Char) :
    digitsVal (xs ++ ys) = digitsVal xs * 10 ^ ys.length + digitsVal ys := by
  rw [digitsVal, List.foldl_append]
  exact digitsFold_shift _ ys

theorem digitsVal_digit (d : Nat) (h : d < 10) :
    digitsVal [digitChar d] = d := by
  interval_cases d <;> decide

theorem digitsVal_natToCharsAux :
    ∀ fuel n : Nat, n < fuel → digitsVal (natToCharsAux fuel n []) = n := by
  intro fuel
  induction fuel with
  | zero => intro n h; omega
  | succ f ih =>
    intro n h
    simp only [natToCharsAux]
    by_cases h10 : n < 10
    · rw [if_pos h10]; exact digitsVal_digit n h10
    · rw [if_neg h10, natToCharsAux_append, digitsVal_append]
      rw [ih (n / 10) (by omega)]
      rw [digitsVal_digit (n % 10) (Nat.mod_lt n (by norm_num))]
      simp
      omega

theorem digitsVal_natToChars (n : Nat) : digitsVal (natToChars n) = n :=
  digitsVal_natToCharsAux (n + 1) n (Nat.lt_succ_self n)

theorem natToChars_inj {a b : Nat} (h : natToChars a = natToChars b) :
    a = b := by
  have ha := digitsVal_natToChars a
  rw [h, digitsVal_natToChars] at ha
  omega

theorem natToCharsAux_head :
    ∀ fuel n : Nat, n < fuel →
      ∃ d rest, d < 10 ∧ natToCharsAux fuel n [] = digitChar d :: rest := by
  intro fuel
  induction fuel with
  | zero => intro n h; omega
  | succ f ih =>
    intro n h
    simp only [natToCharsAux]
    by_cases h10 : n < 10
    · rw [if_pos h10]; exact ⟨n, [], h10, rfl⟩
    · rw [if_neg h10, natToCharsAux_append]
      obtain ⟨d, rest, hd, he⟩ := ih (n / 10) (by omega)
      exact ⟨d, rest ++ [digitChar (n % 10)], hd, by rw [he]; rfl⟩

theorem digitChar_ne_dash (d : Nat) (h : d < 10) : digitChar d ≠ '-' := by
  interval_cases d <;> decide

theorem intToChars_inj {a b : Int} (h : intToChars a = intToChars b) :
    a = b := by
  cases a with
  | ofNat m =>
    cases b with
    | ofNat k =>
      simp only [intToChars] at h
      exact congrArg Int.ofNat (natToChars_inj h)
    | negSucc k =>
      simp only [intToChars, natToChars] at h
      obtain ⟨d, rest, hd, he⟩ :=
        natToCharsAux_head (m + 1) m (Nat.lt_succ_self m)
      rw [he] at h
      exact absurd (List.head_eq_of_cons_eq h) (digitChar_ne_dash d hd)
  | negSucc m =>
    cases b with
    | ofNat k =>
      simp only [intToChars, natToChars] at h
      obtain ⟨d, rest, hd, he⟩ :=
        natToCharsAux_head (k + 1) k (Nat.lt_succ_self k)
      rw [he] at h
      exact absurd (List.head_eq_of_cons_eq h.symm) (digitChar_ne_dash d hd)
    | negSucc k =>
      simp only [intToChars] at h
      have h2 := List.tail_eq_of_cons_eq h
      have h3 := natToChars_inj h2
      have h4 : m = k := by omega
      rw [h4]

theorem find?_filter_eq {α : Type} (p q : α → Bool) (l : List α)
    (h : ∀ x, p x = true → q x = true) :
    (l.filter q).find? p = l.find? p := by
  induction l with
  | nil => rfl
  | cons a l ih =>
    cases hq : q a with
    | true =>
      rw [List.filter_cons_of_pos hq]
      cases hp : p a with
      | true => rw [List.find?_cons_of_pos _ hp, List.find?_cons_of_pos _ hp]
      | false =>
        rw [List.find?_cons_of_neg _ (by simp [hp]),
          List.find?_cons_of_neg _ (by simp [hp])]
        exact ih
    | false =>
      have hp : p a = false := by
        cases hpa : p a with
        | true => rw [h a hpa] at hq; exact absurd hq (by simp)
        | false => rfl
      rw [List.filter_cons_of_neg (by simp [hq]),
        List.find?_cons_of_neg _ (by simp [hp])]
      exact ih

theorem length_filter_split {α : Type} (p q : α → Bool) (l : List α)
    (h : ∀ x, q x = ! p x) :
    (l.filter p).length + (l.filter q).length = l.length := by
  induction l with
  | nil => rfl
  | cons a l ih =>
    cases hp : p a with
    | true =>
      have hq : q a = false := by rw [h a, hp]; rfl
      rw [List.filter_cons_of_pos hp, List.filter_cons_of_neg (by simp [hq])]
      simp only [List.length_cons]
      omega
    | false =>
      have hq : q a = true := by rw [h a, hp]; rfl
      rw [List.filter_cons_of_neg (by simp [hp]), List.filter_cons_of_pos hq]
      simp only [List.length_cons]
      omega

theorem map_filter_exchange {α β : Type} (f : α → β) (p : β → Bool)
    (l : List α) :
    (l.filter (fun x => p (f x))).map f = (l.map f).filter p := by
  induction l with
  | nil => rfl
  | cons a l ih => cases h : p (f a) <;> simp [List.filter_cons, h, ih]

theorem find?_map_local {α β : Type} (f : α → β) (p : β → Bool) (l : List α) :
    (l.map f).find? p = (l.find? (fun x => p (f x))).map f := by
  induction l with
  | nil => rfl
  | cons a l ih => cases h : p (f a) <;> simp [List.find?_cons, h, ih]

theorem filter_filter_comm {α : Type} (p q : α → Bool) (l : List α) :
    (l.filter p).filter q = (l.filter q).filter p := by
  simp only [List.filter_filter]
  exact List.filter_congr (fun x _ => by cases p x <;> cases q x <;> rfl)

theorem runKey_toList (eid : String) (n : Int) :
    (runKey eid n).toList = eid.toList ++ '_' :: intToChars n := rfl

theorem leadsWith_self_append (p t : List Char) :
    leadsWith p (p ++ t) = true := by
  induction p with
  | nil => rfl
  | cons c p ih => simp [leadsWith, ih]

theorem append_toList (a b : String) :
    (a ++ b).toList = a.toList ++ b.toList := by
  cases a
  cases b
  rfl

theorem runKey_startsWith (eid : String) (n : Int) :
    pyStartsWith (runKey eid n) (eid ++ "_") = true := by
  unfold pyStartsWith
  rw [append_toList, runKey_toList]
  have h2 : eid.toList ++ '_' :: intToChars n =
      (eid.toList ++ "_".toList) ++ intToChars n := by simp
  rw [h2]
  exact leadsWith_self_append _ _

theorem runKey_inj {eid : String} {n m : Int}
    (h : runKey eid n = runKey eid m) : n = m := by
  apply intToChars_inj
  have h2 : eid.toList ++ '_' :: intToChars n =
      eid.toList ++ '_' :: intToChars m := by
    have h3 := congrArg String.toList h
    rwa [runKey_toList, runKey_toList] at h3
  have h3 := List.append_cancel_left h2
  exact List.tail_eq_of_cons_eq h3

/-! The incremental update pipeline of `_do_update(incremental=True)`:
each experiment's entity graph is deleted and its composite record
re-inserted.  A second CLI invocation constructs a fresh `Database`
instance over the same file, so the in-memory id caches start empty
while tables and row counters persist. -/

/-- One incremental write: `delete_experiment` then
`insert_experiment_batch`. -/
def procIncr (db : DB) (rec : CompositeRecord) : DB :=
  insertExperimentBatch (deleteExperiment db rec.experiment_id) rec

/-- One incremental update run over a batch of composite records. -/
def runIncr (db : DB) (recs : List CompositeRecord) : DB :=
  recs.foldl procIncr db

/-- A fresh `Database` instance over the same store: empty in-memory
caches, persistent tables and row counters. -/
def resetCaches (db : DB) : DB :=
  { db with
      runIdCache := []
      detectorCache := [] }

/-- The eight per-table row counts compared by the idempotence claim. -/
def countsOf (db : DB) : Nat × Nat × Nat × Nat × Nat × Nat × Nat × Nat :=
  (db.experiment.length, db.run.length, db.rpd.length, db.detector.length,
    db.runDetector.length, db.logbook.length, db.questionnaire.length,
    db.workflow.length)

/-! Per-experiment views of the store: the rows `delete_experiment`
removes for an experiment id. -/

def eidExp (db : DB) (eid : String) : List ExperimentRow :=
  db.experiment.filter (fun e => e.experiment_id = eid)

def eidQ (db : DB) (eid : String) : List QRow :=
  db.questionnaire.filter (fun q => q.experiment_id = eid)

def eidW (db : DB) (eid : String) : List WRow :=
  db.workflow.filter (fun w => w.experiment_id = eid)

def eidLog (db : DB) (eid : String) : List LogRow :=
  db.logbook.filter (fun l => l.experiment_id = eid)

def eidRuns (db : DB) (eid : String) : List RunRow :=
  db.run.filter (fun r => r.experiment_id = eid)

def eidRPD (db : DB) (eid : String) : List RPDRow :=
  db.rpd.filter (fun p => p.run_id ∈ runIdsOf db eid)

def eidRD (db : DB) (eid : String) : List RunDetectorRow :=
  db.runDetector.filter (fun d => d.run_id ∈ runIdsOf db eid)

/-- Structural well-formedness the store maintains across merge
operations: `Run` ids are unique and below the `AUTOINCREMENT`
counter, child rows reference ids below the counter, `Detector` ids
are unique and below their counter, and every detector-cache entry is
backed by a `Detector` row. -/
def StoreInv (db : DB) : Prop :=
  db.run.Pairwise (fun a b => a.run_id ≠ b.run_id) ∧
  (∀ r ∈ db.run, r.run_id < db.nextRunId) ∧
  (∀ p ∈ db.rpd, p.run_id < db.nextRunId) ∧
  (∀ d ∈ db.runDetector, d.run_id < db.nextRunId) ∧
  db.detector.Pairwise (fun a b => a.detector_id ≠ b.detector_id) ∧
  (∀ d ∈ db.detector, d.detector_id < db.nextDetectorId) ∧
  (∀ kv ∈ db.detectorCache, ∃ d ∈ db.detector,
    d.detector_name = kv.1 ∧ d.detector_id = kv.2)

/-- No trace of the experiment in the store: the post-state of
`delete_experiment` for its experiment id. -/
def EidCleared (db : DB) (eid : String) : Prop :=
  (∀ e ∈ db.experiment, e.experiment_id ≠ eid) ∧
  (∀ q ∈ db.questionnaire, q.experiment_id ≠ eid) ∧
  (∀ w ∈ db.workflow, w.experiment_id ≠ eid) ∧
  (∀ l ∈ db.logbook, l.experiment_id ≠ eid) ∧
  (∀ r ∈ db.run, r.experiment_id ≠ eid) ∧
  (∀ p ∈ db.runIdCache, pyStartsWith p.1 (eid ++ "_") = false)

/-- All of the other experiments' views are untouched. -/
def OtherPreserved (eid : String) (db db' : DB) : Prop :=
  (∀ e, e ≠ eid → eidExp db' e = eidExp db e) ∧
  (∀ e, e ≠ eid → eidQ db' e = eidQ db e) ∧
  (∀ e, e ≠ eid → eidW db' e = eidW db e) ∧
  (∀ e, e ≠ eid → eidLog db' e = eidLog db e) ∧
  (∀ e, e ≠ eid → eidRuns db' e = eidRuns db e) ∧
  (∀ e, e ≠ eid → eidRPD db' e = eidRPD db e) ∧
  (∀ e, e ≠ eid → eidRD db' e = eidRD db e)

theorem OtherPreserved_refl (eid : String) (db : DB) :
    OtherPreserved eid db db :=
  ⟨fun _ _ => rfl, fun _ _ => rfl, fun _ _ => rfl, fun _ _ => rfl,
    fun _ _ => rfl, fun _ _ => rfl, fun _ _ => rfl⟩

theorem OtherPreserved_trans {eid : String} {a b c : DB}
    (h1 : OtherPreserved eid a b) (h2 : OtherPreserved eid b c) :
    OtherPreserved eid a c :=
  ⟨fun e he => (h2.1 e he).trans (h1.1 e he),
    fun e he => (h2.2.1 e he).trans (h1.2.1 e he),
    fun e he => (h2.2.2.1 e he).trans (h1.2.2.1 e he),
    fun e he => (h2.2.2.2.1 e he).trans (h1.2.2.2.1 e he),
    fun e he => (h2.2.2.2.2.1 e he).trans (h1.2.2.2.2.1 e he),
    fun e he => (h2.2.2.2.2.2.1 e he).trans (h1.2.2.2.2.2.1 e he),
    fun e he => (h2.2.2.2.2.2.2 e he).trans (h1.2.2.2.2.2.2 e he)⟩

/-- A detector name already has a `Detector` row. -/
def detReady (db : DB) (name : String) : Prop :=
  ∃ d ∈ db.detector, d.detector_name = name

/-! Canonical per-record trackers: the run numbers, run-production
run numbers and (run number, detector key) pairs an insert of the
record materialises, mirroring the dedup behaviour of
`_get_or_create_run_id` and the upsert/replace statements. -/

structure CanonState where
  runs : List Int
  rpds : List Int
  rds : List (Int × String)
deriving DecidableEq, Repr

def addRunNum (runs : List Int) (n : Int) : List Int :=
  if n ∈ runs then runs else runs ++ [n]

def canonLog (cst : CanonState) (e : TransformedEntry) : CanonState :=
  match e.run_number with
  | none => cst
  | some n => { cst with runs := addRunNum cst.runs n }

def canonProd (cst : CanonState) (rd : RunProdEntry) : CanonState :=
  match rd.run_number with
  | none => cst
  | some n =>
    { cst with
        runs := addRunNum cst.runs n
        rpds := addRunNum cst.rpds n }

def canonDetItem (n : Int) (cst : CanonState) (kv : String × String) :
    CanonState :=
  if kv.1 = "run_number" ∨ pyStrip kv.1 = "" then cst
  else
    { cst with
        rds := (cst.rds.filter (fun p => p ≠ (n, kv.1))) ++ [(n, kv.1)] }

def canonDet (cst : CanonState) (det : DetectorEntry) : CanonState :=
  match det.run_number with
  | none => cst
  | some n =>
    det.items.foldl (canonDetItem n) { cst with runs := addRunNum cst.runs n }

def canonFM (cst : CanonState) (record : FMRecord) : CanonState :=
  match record.run_number with
  | none => cst
  | some n =>
    { cst with
        runs := addRunNum cst.runs n
        rpds := addRunNum cst.rpds n }

def canonOfRec (rec : CompositeRecord) : CanonState :=
  let c1 := rec.logbook.foldl canonLog ⟨[], [], []⟩
  let c2 :=
    match rec.runtable with
    | none => c1
    | some rt =>
      rt.detectors.foldl canonDet (rt.data_production.foldl canonProd c1)
  match rec.file_manager with
  | none => c2
  | some fm => fm.file_manager_records.foldl canonFM c2

/-- Canonical `Questionnaire` rows of a questionnaire facet inserted
into a store holding none of the experiment's rows. -/
def qRowsCanon (q : QuestionnaireData) : List QRow :=
  q.fields.foldl
    (fun rows f =>
      qReplaceInsert rows
        ⟨q.experiment_id, q.proposal_number, f.category, f.field_id,
          f.field_name, f.field_value, f.modified_time, f.modified_uid⟩)
    []

def expCnt (rec : CompositeRecord) : Nat :=
  match rec.info with
  | some _ => 1
  | none => 0

def qCnt (rec : CompositeRecord) : Nat :=
  match rec.questionnaire with
  | some q => (qRowsCanon q).length
  | none => 0

def wCnt (rec : CompositeRecord) : Nat :=
  match rec.workflow with
  | some w => w.workflows.length
  | none => 0

/-- The detector keys for which the run-table insert calls
`_get_or_create_detector_id`. -/
def detKeysOf (det : DetectorEntry) : List String :=
  match det.run_number with
  | none => []
  | some _ =>
    (det.items.map Prod.fst).filter
      (fun k => ¬ (k = "run_number" ∨ pyStrip k = ""))

def detNamesOf (rec : CompositeRecord) : List String :=
  match rec.runtable with
  | none => []
  | some rt => rt.detectors.foldl (fun acc det => acc ++ detKeysOf det) []

/-- The simulation context of the run-id machinery while inserting one
experiment's record: `S` pairs the experiment's run numbers with their
`Run` ids (in table order), the experiment's slice of the run-id cache
mirrors `S` exactly, and `P`/`D` pair the canonical
`RunProductionData` keys and `RunDetector` keys with the concrete id
rows. -/
def MCtx (eid : String) (db : DB) (S P : List (Int × Nat))
    (D : List ((Int × String) × (Nat × Nat))) : Prop :=
  (eidRuns db eid).map (fun r => (r.run_number, r.run_id)) = S ∧
  db.runIdCache.filter (fun p => pyStartsWith p.1 (eid ++ "_")) =
    S.map (fun p => (runKey eid p.1, p.2)) ∧
  S.Pairwise (fun a b => a.1 ≠ b.1) ∧
  S.Pairwise (fun a b => a.2 ≠ b.2) ∧
  (∀ p ∈ S, p.2 < db.nextRunId) ∧
  (db.rpd.filter (fun p => p.run_id ∈ S.map Prod.snd)).map
      (fun p => p.run_id) = P.map Prod.snd ∧
  (∀ p ∈ P, p ∈ S) ∧
  (db.runDetector.filter (fun d => d.run_id ∈ S.map Prod.snd)).map
      (fun d => (d.run_id, d.detector_id)) = D.map Prod.snd ∧
  (∀ x ∈ D, (x.1.1, x.2.1) ∈ S ∧
    dictGet? db.detectorCache x.1.2 = some x.2.2)

theorem runIdsOf_eq_of_MCtx {eid : String} {db : DB}
    {S P : List (Int × Nat)} {D : List ((Int × String) × (Nat × Nat))}
    (h : MCtx eid db S P D) : runIdsOf db eid = S.map Prod.snd := by
  have h1 := h.1
  unfold runIdsOf
  have h2 : (db.run.filter (fun r => r.experiment_id = eid)).map
      (fun r => r.run_id) =
      ((eidRuns db eid).map (fun r => (r.run_number, r.run_id))).map
        Prod.snd := by
    unfold eidRuns
    rw [List.map_map]
    rfl
  rw [h2, h1]

theorem find?_congr_local {α : Type} (p q : α → Bool) (l : List α)
    (h : ∀ x ∈ l, p x = q x) : l.find? p = l.find? q := by
  induction l with
  | nil => rfl
  | cons a l ih =>
    have ha := h a (by simp)
    cases hp : p a with
    | true =>
      rw [List.find?_cons_of_pos _ hp,
        List.find?_cons_of_pos _ (by rw [← ha]; exact hp)]
    | false =>
      rw [List.find?_cons_of_neg _ (by simp [hp]),
        List.find?_cons_of_neg _ (by rw [← ha]; simp [hp])]
      exact ih (fun x hx => h x (by simp [hx]))

/-- Cache probe of `_get_or_create_run_id` through the simulation
context: the experiment's cache slice answers exactly the association
recorded in `S`. -/
theorem probe_spec {eid : String} {db : DB} {S P : List (Int × Nat)}
    {D : List ((Int × String) × (Nat × Nat))} (h : MCtx eid db S P D)
    (n : Int) :
    dictGet? db.runIdCache (runKey eid n) =
      (S.find? (fun pr => pr.1 = n)).map Prod.snd := by
  unfold dictGet?
  have h1 : db.runIdCache.find? (fun p => p.1 = runKey eid n) =
      (db.runIdCache.filter (fun p => pyStartsWith p.1 (eid ++ "_"))).find?
        (fun p => p.1 = runKey eid n) := by
    rw [find?_filter_eq]
    intro x hx
    have hx2 : x.1 = runKey eid n := by simpa using hx
    rw [hx2]
    exact runKey_startsWith eid n
  rw [h1, h.2.1, find?_map_local]
  have h2 : S.find?
      (fun x => decide ((runKey eid x.1, x.2).1 = runKey eid n)) =
      S.find? (fun pr => pr.1 = n) := by
    apply find?_congr_local
    intro x _
    by_cases hx : x.1 = n
    · simp [hx]
    · have hne : runKey eid x.1 ≠ runKey eid n := fun hc => hx (runKey_inj hc)
      simp [hx, hne]
  rw [h2]
  cases S.find? (fun pr => pr.1 = n) <;> rfl

/-- When the run number is already recorded in `S`, the helper answers
from the cache and leaves the store untouched. -/
theorem getOrCreateRunId_hit {eid : String} {db : DB}
    {S P : List (Int × Nat)} {D : List ((Int × String) × (Nat × Nat))}
    (h : MCtx eid db S P D) {n : Int} {pr : Int × Nat}
    (hf : S.find? (fun x => x.1 = n) = some pr) :
    getOrCreateRunId db eid n = (pr.2, db) := by
  simp only [getOrCreateRunId]
  rw [probe_spec h n, hf]
  rfl

/-- When the run number is new, the helper misses the cache and the
table and inserts a fresh `Run` row under the next counter value. -/
theorem getOrCreateRunId_fresh {eid : String} {db : DB}
    {S P : List (Int × Nat)} {D : List ((Int × String) × (Nat × Nat))}
    (h : MCtx eid db S P D) {n : Int}
    (hf : S.find? (fun x => x.1 = n) = none) :
    getOrCreateRunId db eid n =
      (db.nextRunId,
        { db with
            run := db.run ++ [⟨db.nextRunId, n, eid, none, none⟩]
            nextRunId := db.nextRunId + 1
            runIdCache := db.runIdCache ++ [(runKey eid n, db.nextRunId)] }) := by
  have hprobe : dictGet? db.runIdCache (runKey eid n) = none := by
    rw [probe_spec h n, hf]
    rfl
  have htbl : db.run.find?
      (fun r => r.experiment_id = eid ∧ r.run_number = n) = none := by
    rw [List.find?_eq_none]
    intro r hr hpred
    have hmatch : r.experiment_id = eid ∧ r.run_number = n := by
      simpa using hpred
    have hmem : r ∈ eidRuns db eid := by
      unfold eidRuns
      rw [List.mem_filter]
      exact ⟨hr, by simp [hmatch.1]⟩
    have hS : (r.run_number, r.run_id) ∈ S := by
      rw [← h.1]
      exact List.mem_map_of_mem _ hmem
    have hcontra := List.find?_eq_none.mp hf _ hS
    simp [hmatch.2] at hcontra
  have hkey : ¬ db.runIdCache.any (fun p => p.1 = runKey eid n) = true := by
    intro hany
    rw [List.any_eq_true] at hany
    obtain ⟨x, hx, hxe⟩ := hany
    have hx1 : x.1 = runKey eid n := by simpa using hxe
    have hxf : x ∈ db.runIdCache.filter
        (fun p => pyStartsWith p.1 (eid ++ "_")) := by
      rw [List.mem_filter]
      exact ⟨hx, by rw [hx1]; exact runKey_startsWith eid n⟩
    rw [h.2.1] at hxf
    obtain ⟨pr, hpr, hpre⟩ := List.mem_map.mp hxf
    have hpr1 : pr.1 = n := by
      apply @runKey_inj eid pr.1 n
      rw [← hx1, ← hpre]
    have hcontra := List.find?_eq_none.mp hf _ hpr
    simp [hpr1] at hcontra
  simp only [getOrCreateRunId]
  rw [hprobe, htbl]
  unfold dictSet
  rw [if_neg hkey]

/-- The store produced by the miss/miss branch of
`_get_or_create_run_id`. -/
def freshRunDB (db : DB) (eid : String) (n : Int) : DB :=
  { db with
      run := db.run ++ [⟨db.nextRunId, n, eid, none, none⟩]
      nextRunId := db.nextRunId + 1
      runIdCache := db.runIdCache ++ [(runKey eid n, db.nextRunId)] }

theorem getOrCreateRunId_fresh' {eid : String} {db : DB}
    {S P : List (Int × Nat)} {D : List ((Int × String) × (Nat × Nat))}
    (h : MCtx eid db S P D) {n : Int}
    (hf : S.find? (fun x => x.1 = n) = none) :
    getOrCreateRunId db eid n = (db.nextRunId, freshRunDB db eid n) :=
  getOrCreateRunId_fresh h hf

/-- Creating a fresh `Run` row extends the simulation context by the
new association and preserves the store invariant and every other
experiment's view. -/
theorem fresh_preserves {eid : String} {db : DB} {S P : List (Int × Nat)}
    {D : List ((Int × String) × (Nat × Nat))}
    (h : MCtx eid db S P D) (hInv : StoreInv db) {n : Int}
    (hf : S.find? (fun x => x.1 = n) = none) :
    MCtx eid (freshRunDB db eid n) (S ++ [(n, db.nextRunId)]) P D ∧
    StoreInv (freshRunDB db eid n) ∧
    OtherPreserved eid db (freshRunDB db eid n) := by
  obtain ⟨hruns, hcache, hnums, hids, hbound, hrpd, hPS, hrd, hD⟩ := h
  obtain ⟨i1, i2, i3, i4, i5, i6, i7⟩ := hInv
  have hnewnum : ∀ pr ∈ S, pr.1 ≠ n := by
    intro pr hpr
    have := List.find?_eq_none.mp hf pr hpr
    simpa using this
  have hmemS : ∀ pr ∈ S, pr.2 ∈ S.map Prod.snd :=
    fun pr hpr => List.mem_map_of_mem _ hpr
  have hidsplit : ∀ k : Nat, k < db.nextRunId →
      ∀ x, (x ∈ (S ++ [(n, db.nextRunId)]).map Prod.snd) ↔
        (x ∈ S.map Prod.snd) ∨ x = db.nextRunId := by
    intro k hk x
    simp [List.mem_append]
  refine ⟨⟨?_, ?_, ?_, ?_, ?_, ?_, ?_, ?_, ?_⟩, ⟨?_, ?_, ?_, ?_, ?_, ?_, ?_⟩,
    ⟨?_, ?_, ?_, ?_, ?_, ?_, ?_⟩⟩
  · have hsplit : eidRuns (freshRunDB db eid n) eid =
        eidRuns db eid ++ [⟨db.nextRunId, n, eid, none, none⟩] := by
      unfold eidRuns freshRunDB
      simp only
      rw [List.filter_append]
      simp only [List.filter_cons, List.filter_nil]
      rw [if_pos (by simp)]
    rw [hsplit, List.map_append, hruns]
    rfl
  · show (freshRunDB db eid n).runIdCache.filter _ = _
    unfold freshRunDB
    simp only
    rw [List.filter_append]
    rw [hcache]
    simp only [List.filter_cons, List.filter_nil]
    rw [if_pos (by simp [runKey_startsWith])]
    rw [List.map_append]
    rfl
  · rw [List.pairwise_append]
    refine ⟨hnums, List.pairwise_singleton _ _, ?_⟩
    intro a ha b hb
    have hb2 : b = (n, db.nextRunId) := by simpa using hb
    rw [hb2]
    exact hnewnum a ha
  · rw [List.pairwise_append]
    refine ⟨hids, List.pairwise_singleton _ _, ?_⟩
    intro a ha b hb
    have hb2 : b = (n, db.nextRunId) := by simpa using hb
    rw [hb2]
    exact fun hc => absurd (hc ▸ hbound a ha) (lt_irrefl _)
  · intro p hp
    rcases List.mem_append.mp hp with hp1 | hp2
    · show p.2 < db.nextRunId + 1
      exact Nat.lt_succ_of_lt (hbound p hp1)
    · have : p = (n, db.nextRunId) := by simpa using hp2
      rw [this]
      exact Nat.lt_succ_self _
  · show ((freshRunDB db eid n).rpd.filter _).map _ = _
    unfold freshRunDB
    simp only
    have hcongr : db.rpd.filter
        (fun p => p.run_id ∈ (S ++ [(n, db.nextRunId)]).map Prod.snd) =
        db.rpd.filter (fun p => p.run_id ∈ S.map Prod.snd) := by
      apply List.filter_congr
      intro p hp
      have hlt := i3 p hp
      simp [List.mem_append, List.map_append]
      intro hne
      omega
    rw [hcongr, hrpd]
  · intro p hp
    exact List.mem_append.mpr (Or.inl (hPS p hp))
  · show ((freshRunDB db eid n).runDetector.filter _).map _ = _
    unfold freshRunDB
    simp only
    have hcongr : db.runDetector.filter
        (fun d => d.run_id ∈ (S ++ [(n, db.nextRunId)]).map Prod.snd) =
        db.runDetector.filter (fun d => d.run_id ∈ S.map Prod.snd) := by
      apply List.filter_congr
      intro d hd
      have hlt := i4 d hd
      simp [List.mem_append, List.map_append]
      intro hne
      omega
    rw [hcongr, hrd]
  · intro x hx
    exact ⟨List.mem_append.mpr (Or.inl ((hD x hx).1)), (hD x hx).2⟩
  · show ((freshRunDB db eid n).run).Pairwise _
    unfold freshRunDB
    simp only
    rw [List.pairwise_append]
    refine ⟨i1, List.pairwise_singleton _ _, ?_⟩
    intro a ha b hb
    have hb2 : b = ⟨db.nextRunId, n, eid, none, none⟩ := by simpa using hb
    rw [hb2]
    exact fun hc => absurd (hc ▸ i2 a ha) (lt_irrefl _)
  · intro r hr
    rcases List.mem_append.mp hr with hr1 | hr2
    · exact Nat.lt_succ_of_lt (i2 r hr1)
    · have : r = ⟨db.nextRunId, n, eid, none, none⟩ := by simpa using hr2
      rw [this]
      exact Nat.lt_succ_self _
  · intro p hp
    exact Nat.lt_succ_of_lt (i3 p hp)
  · intro d hd
    exact Nat.lt_succ_of_lt (i4 d hd)
  · exact i5
  · exact i6
  · exact i7
  · intro e he
    rfl
  · intro e he
    rfl
  · intro e he
    rfl
  · intro e he
    rfl
  · intro e he
    unfold eidRuns freshRunDB
    simp only
    rw [List.filter_append]
    simp only [List.filter_cons, List.filter_nil]
    rw [if_neg (by simp [Ne.symm he])]
    simp
  · intro e he
    unfold eidRPD
    have hids2 : runIdsOf (freshRunDB db eid n) e = runIdsOf db e := by
      unfold runIdsOf freshRunDB
      simp only
      rw [List.filter_append]
      simp only [List.filter_cons, List.filter_nil]
      rw [if_neg (by simp [Ne.symm he])]
      simp
    rw [hids2]
    rfl
  · intro e he
    unfold eidRD
    have hids2 : runIdsOf (freshRunDB db eid n) e = runIdsOf db e := by
      unfold runIdsOf freshRunDB
      simp only
      rw [List.filter_append]
      simp only [List.filter_cons, List.filter_nil]
      rw [if_neg (by simp [Ne.symm he])]
      simp
    rw [hids2]
    rfl

theorem find?_append_some {α : Type} {l t : List α} {p : α → Bool} {a : α}
    (h : l.find? p = some a) : (l ++ t).find? p = some a := by
  induction l with
  | nil => simp [List.find?] at h
  | cons x l ih =>
    cases hp : p x with
    | true =>
      rw [List.find?_cons_of_pos _ hp] at h
      rw [List.cons_append, List.find?_cons_of_pos _ hp]
      exact h
    | false =>
      rw [List.find?_cons_of_neg _ (by simp [hp])] at h
      rw [List.cons_append, List.find?_cons_of_neg _ (by simp [hp])]
      exact ih h

theorem find?_append_none {α : Type} {l : List α} (t : List α) {p : α → Bool}
    (h : l.find? p = none) : (l ++ t).find? p = t.find? p := by
  induction l with
  | nil => rfl
  | cons x l ih =>
    cases hp : p x with
    | true =>
      rw [List.find?_cons_of_pos _ hp] at h
      exact absurd h (by simp)
    | false =>
      rw [List.find?_cons_of_neg _ (by simp [hp])] at h
      rw [List.cons_append, List.find?_cons_of_neg _ (by simp [hp])]
      exact ih h

theorem dictGet?_append_keep {β : Type} {m : List (String × β)} {k : String}
    {v : β} (t : List (String × β)) (h : dictGet? m k = some v) :
    dictGet? (m ++ t) k = some v := by
  unfold dictGet? at h ⊢
  cases hf : m.find? (fun p => p.1 = k) with
  | none => rw [hf] at h; simp at h
  | some pr =>
    rw [hf] at h
    rw [find?_append_some hf]
    exact h

theorem dictGet?_append_new {β : Type} {m : List (String × β)} {k : String}
    (v : β) (h : dictGet? m k = none) :
    dictGet? (m ++ [(k, v)]) k = some v := by
  unfold dictGet? at h ⊢
  cases hf : m.find? (fun p => p.1 = k) with
  | some pr => rw [hf] at h; simp at h
  | none =>
    rw [find?_append_none _ hf]
    rw [List.find?_cons_of_pos _ (by simp)]
    rfl

/-- Views, simulation context and invariant only look at the listed
fields, so any operation that fixes them preserves the others'
views. -/
theorem OtherPreserved_of_fields {eid : String} {db db' : DB}
    (hexp : db'.experiment = db.experiment)
    (hq : db'.questionnaire = db.questionnaire)
    (hw : db'.workflow = db.workflow) (hlog : db'.logbook = db.logbook)
    (hrun : db'.run = db.run) (hrpd : db'.rpd = db.rpd)
    (hrd : db'.runDetector = db.runDetector) :
    OtherPreserved eid db db' := by
  have hids : ∀ e, runIdsOf db' e = runIdsOf db e := by
    intro e
    unfold runIdsOf
    rw [hrun]
  refine ⟨?_, ?_, ?_, ?_, ?_, ?_, ?_⟩ <;> intro e he
  · unfold eidExp; rw [hexp]
  · unfold eidQ; rw [hq]
  · unfold eidW; rw [hw]
  · unfold eidLog; rw [hlog]
  · unfold eidRuns; rw [hrun]
  · unfold eidRPD; rw [hrpd, hids]
  · unfold eidRD; rw [hrd, hids]

/-- The simulation context survives any operation that fixes the
run-side fields and only grows the detector cache. -/
theorem MCtx_of_fields {eid : String} {db db' : DB} {S P : List (Int × Nat)}
    {D : List ((Int × String) × (Nat × Nat))} (h : MCtx eid db S P D)
    (hrun : db'.run = db.run) (hcache : db'.runIdCache = db.runIdCache)
    (hrpd : db'.rpd = db.rpd) (hrd : db'.runDetector = db.runDetector)
    (hnext : db'.nextRunId = db.nextRunId)
    (hdc : ∀ k v, dictGet? db.detectorCache k = some v →
      dictGet? db'.detectorCache k = some v) :
    MCtx eid db' S P D := by
  obtain ⟨hruns, hcache0, hnums, hids, hbound, hrpd0, hPS, hrd0, hD⟩ := h
  refine ⟨?_, ?_, hnums, hids, ?_, ?_, hPS, ?_, ?_⟩
  · unfold eidRuns
    rw [hrun]
    exact hruns
  · rw [hcache]
    exact hcache0
  · intro p hp
    rw [hnext]
    exact hbound p hp
  · rw [hrpd]
    exact hrpd0
  · rw [hrd]
    exact hrd0
  · intro x hx
    exact ⟨(hD x hx).1, hdc _ _ (hD x hx).2⟩

/-- Branch analysis of `_get_or_create_detector_id`: probe the cache,
then the table, then create.  The result id is cached afterwards and
backed by a `Detector` row, the run-side state is untouched, and no
row is created when the name is already present. -/
theorem getOrCreateDetectorId_spec (db : DB) (name : String)
    (hInv : StoreInv db) :
    (∃ t, (getOrCreateDetectorId db name).2.detector = db.detector ++ t) ∧
    (getOrCreateDetectorId db name).2.run = db.run ∧
    (getOrCreateDetectorId db name).2.rpd = db.rpd ∧
    (getOrCreateDetectorId db name).2.runDetector = db.runDetector ∧
    (getOrCreateDetectorId db name).2.logbook = db.logbook ∧
    (getOrCreateDetectorId db name).2.experiment = db.experiment ∧
    (getOrCreateDetectorId db name).2.questionnaire = db.questionnaire ∧
    (getOrCreateDetectorId db name).2.workflow = db.workflow ∧
    (getOrCreateDetectorId db name).2.nextRunId = db.nextRunId ∧
    (getOrCreateDetectorId db name).2.runIdCache = db.runIdCache ∧
    (getOrCreateDetectorId db name).2.metadata = db.metadata ∧
    db.nextDetectorId ≤ (getOrCreateDetectorId db name).2.nextDetectorId ∧
    StoreInv (getOrCreateDetectorId db name).2 ∧
    dictGet? (getOrCreateDetectorId db name).2.detectorCache name =
      some (getOrCreateDetectorId db name).1 ∧
    (∀ k v, dictGet? db.detectorCache k = some v →
      dictGet? (getOrCreateDetectorId db name).2.detectorCache k = some v) ∧
    (detReady db name → (getOrCreateDetectorId db name).2.detector =
      db.detector) ∧
    (∀ nm, detReady db nm → detReady (getOrCreateDetectorId db name).2 nm) := by
  obtain ⟨i1, i2, i3, i4, i5, i6, i7⟩ := hInv
  cases hc : dictGet? db.detectorCache name with
  | some did =>
    have he : getOrCreateDetectorId db name = (did, db) := by
      simp only [getOrCreateDetectorId]
      rw [hc]
    rw [he]
    refine ⟨⟨[], by simp⟩, rfl, rfl, rfl, rfl, rfl, rfl, rfl, rfl, rfl, rfl,
      le_refl _, ⟨i1, i2, i3, i4, i5, i6, i7⟩, hc, fun k v hv => hv, fun _ => rfl,
      fun nm hnm => hnm⟩
  | none =>
    cases hfind : db.detector.find? (fun d => d.detector_name = name) with
    | some d =>
      have hd_mem : d ∈ db.detector := List.mem_of_find?_eq_some hfind
      have hd_name : d.detector_name = name := by
        have := List.find?_some hfind
        simpa using this
      have hnokey : ¬ db.detectorCache.any (fun p => p.1 = name) = true := by
        intro hany
        rw [List.any_eq_true] at hany
        obtain ⟨x, hx, hxe⟩ := hany
        have hx1 : x.1 = name := by simpa using hxe
        unfold dictGet? at hc
        cases hcf : db.detectorCache.find? (fun p => p.1 = name) with
        | some pr => rw [hcf] at hc; simp at hc
        | none =>
          have := List.find?_eq_none.mp hcf x hx
          simp [hx1] at this
      have he : getOrCreateDetectorId db name =
          (d.detector_id,
            { db with detectorCache :=
                db.detectorCache ++ [(name, d.detector_id)] }) := by
        simp only [getOrCreateDetectorId, hc, hfind]
        unfold dictSet
        rw [if_neg hnokey]
      rw [he]
      refine ⟨⟨[], by simp⟩, rfl, rfl, rfl, rfl, rfl, rfl, rfl, rfl, rfl, rfl,
        le_refl _, ⟨i1, i2, i3, i4, i5, i6, ?_⟩, ?_, ?_, fun _ => rfl, ?_⟩
      · intro kv hkv
        rcases List.mem_append.mp hkv with hk1 | hk2
        · exact i7 kv hk1
        · have : kv = (name, d.detector_id) := by simpa using hk2
          rw [this]
          exact ⟨d, hd_mem, hd_name, rfl⟩
      · exact dictGet?_append_new _ hc
      · intro k v hv
        exact dictGet?_append_keep _ hv
      · intro nm hnm
        exact hnm
    | none =>
      have hnokey : ¬ db.detectorCache.any (fun p => p.1 = name) = true := by
        intro hany
        rw [List.any_eq_true] at hany
        obtain ⟨x, hx, hxe⟩ := hany
        have hx1 : x.1 = name := by simpa using hxe
        unfold dictGet? at hc
        cases hcf : db.detectorCache.find? (fun p => p.1 = name) with
        | some pr => rw [hcf] at hc; simp at hc
        | none =>
          have := List.find?_eq_none.mp hcf x hx
          simp [hx1] at this
      have he : getOrCreateDetectorId db name =
          (db.nextDetectorId,
            { db with
                detector := db.detector ++ [⟨db.nextDetectorId, name⟩]
                nextDetectorId := db.nextDetectorId + 1
                detectorCache :=
                  db.detectorCache ++ [(name, db.nextDetectorId)] }) := by
        simp only [getOrCreateDetectorId, hc, hfind]
        unfold dictSet
        rw [if_neg hnokey]
      rw [he]
      have hnoready : ¬ detReady db name := by
        intro ⟨d, hd, hdn⟩
        have := List.find?_eq_none.mp hfind d hd
        simp [hdn] at this
      refine ⟨⟨[⟨db.nextDetectorId, name⟩], rfl⟩, rfl, rfl, rfl, rfl, rfl, rfl,
        rfl, rfl, rfl, rfl, Nat.le_succ _, ⟨i1, i2, i3, i4, ?_, ?_, ?_⟩, ?_, ?_,
        fun hr => absurd hr hnoready, ?_⟩
      · rw [List.pairwise_append]
        refine ⟨i5, List.pairwise_singleton _ _, ?_⟩
        intro a ha b hb
        have hb2 : b = ⟨db.nextDetectorId, name⟩ := by simpa using hb
        rw [hb2]
        exact fun hc2 => absurd (hc2 ▸ i6 a ha) (lt_irrefl _)
      · intro x hx
        rcases List.mem_append.mp hx with hx1 | hx2
        · exact Nat.lt_succ_of_lt (i6 x hx1)
        · have : x = ⟨db.nextDetectorId, name⟩ := by simpa using hx2
          rw [this]
          exact Nat.lt_succ_self _
      · intro kv hkv
        rcases List.mem_append.mp hkv with hk1 | hk2
        · obtain ⟨d2, hd2, hd2a, hd2b⟩ := i7 kv hk1
          exact ⟨d2, List.mem_append.mpr (Or.inl hd2), hd2a, hd2b⟩
        · have : kv = (name, db.nextDetectorId) := by simpa using hk2
          rw [this]
          exact ⟨⟨db.nextDetectorId, name⟩,
            List.mem_append.mpr (Or.inr (by simp)), rfl, rfl⟩
      · exact dictGet?_append_new _ hc
      · intro k v hv
        exact dictGet?_append_keep _ hv
      · intro nm ⟨d2, hd2, hd2n⟩
        exact ⟨d2, List.mem_append.mpr (Or.inl hd2), hd2n⟩

theorem S_inj_fst {S : List (Int × Nat)}
    (hnums : S.Pairwise (fun a b => a.1 ≠ b.1)) {a b : Int × Nat}
    (ha : a ∈ S) (hb : b ∈ S) (he : a.1 = b.1) : a = b := by
  by_contra hne
  exact (hnums.forall (fun x y hxy => (hxy ∘ Eq.symm : y.1 ≠ x.1)) ha hb hne) he

theorem S_inj_snd {S : List (Int × Nat)}
    (hids : S.Pairwise (fun a b => a.2 ≠ b.2)) {a b : Int × Nat}
    (ha : a ∈ S) (hb : b ∈ S) (he : a.2 = b.2) : a = b := by
  by_contra hne
  exact (hids.forall (fun x y hxy => (hxy ∘ Eq.symm : y.2 ≠ x.2)) ha hb hne) he

/-- A run id recorded for the experiment cannot be a run id of any
other experiment. -/
theorem sid_not_other {eid : String} {db : DB} {S P : List (Int × Nat)}
    {D : List ((Int × String) × (Nat × Nat))} (h : MCtx eid db S P D)
    (hInv : StoreInv db) {pr : Int × Nat} (hpr : pr ∈ S) {e : String}
    (he : e ≠ eid) : pr.2 ∉ runIdsOf db e := by
  intro hmem
  obtain ⟨r0, hr0, hr0e⟩ := by
    rw [← h.1] at hpr
    exact List.mem_map.mp hpr
  have hr0run : r0 ∈ db.run := List.mem_of_mem_filter hr0
  have hr0id : r0.run_id = pr.2 := congrArg Prod.snd hr0e
  have hr0eid : r0.experiment_id = eid := by
    have := List.of_mem_filter hr0
    simpa using this
  unfold runIdsOf at hmem
  obtain ⟨r1, hr1, hr1id⟩ := List.mem_map.mp hmem
  have hr1run : r1 ∈ db.run := List.mem_of_mem_filter hr1
  have hr1eid : r1.experiment_id = e := by
    have := List.of_mem_filter hr1
    simpa using this
  have hne : r0 ≠ r1 := by
    intro hc
    rw [hc, hr1eid] at hr0eid
    exact he hr0eid
  exact (hInv.1.forall (fun x y hxy => (hxy ∘ Eq.symm : y.run_id ≠ x.run_id))
    hr0run hr1run hne) (hr0id.trans hr1id.symm)

/-- The `UPDATE Run SET start_time, end_time` statement of a run the
experiment owns: the simulation context, the invariant and the other
experiments' views survive, and no table length changes. -/
theorem updateRunTimes_spec {eid : String} {db : DB} {S P : List (Int × Nat)}
    {D : List ((Int × String) × (Nat × Nat))} (h : MCtx eid db S P D)
    (hInv : StoreInv db) {pr : Int × Nat} (hpr : pr ∈ S)
    (st et : Option String) :
    MCtx eid (updateRunTimes db pr.2 st et) S P D ∧
    StoreInv (updateRunTimes db pr.2 st et) ∧
    OtherPreserved eid db (updateRunTimes db pr.2 st et) ∧
    (updateRunTimes db pr.2 st et).run.length = db.run.length ∧
    (updateRunTimes db pr.2 st et).rpd = db.rpd ∧
    (updateRunTimes db pr.2 st et).runDetector = db.runDetector ∧
    (updateRunTimes db pr.2 st et).detector = db.detector ∧
    (updateRunTimes db pr.2 st et).logbook = db.logbook ∧
    (updateRunTimes db pr.2 st et).experiment = db.experiment ∧
    (updateRunTimes db pr.2 st et).questionnaire = db.questionnaire ∧
    (updateRunTimes db pr.2 st et).workflow = db.workflow ∧
    (updateRunTimes db pr.2 st et).nextRunId = db.nextRunId ∧
    (updateRunTimes db pr.2 st et).nextDetectorId = db.nextDetectorId ∧
    (updateRunTimes db pr.2 st et).runIdCache = db.runIdCache ∧
    (updateRunTimes db pr.2 st et).detectorCache = db.detectorCache := by
  obtain ⟨hruns, hcache, hnums, hids, hbound, hrpd, hPS, hrd, hD⟩ := h
  have hfieldkeep : ∀ r : RunRow,
      ((if r.run_id = pr.2 then { r with start_time := st, end_time := et }
        else r) : RunRow).run_id = r.run_id ∧
      ((if r.run_id = pr.2 then { r with start_time := st, end_time := et }
        else r) : RunRow).experiment_id = r.experiment_id ∧
      ((if r.run_id = pr.2 then { r with start_time := st, end_time := et }
        else r) : RunRow).run_number = r.run_number := by
    intro r
    split <;> exact ⟨rfl, rfl, rfl⟩
  have hfilter : ∀ e : String, (updateRunTimes db pr.2 st et).run.filter
      (fun r => r.experiment_id = e) =
      (db.run.filter (fun r => r.experiment_id = e)).map
        (fun r => if r.run_id = pr.2 then
          { r with start_time := st, end_time := et } else r) := by
    intro e
    unfold updateRunTimes
    simp only
    rw [← map_filter_exchange]
    apply congrArg
    apply List.filter_congr
    intro r _
    rw [(hfieldkeep r).2.1]
  have hidsof : ∀ e : String, runIdsOf (updateRunTimes db pr.2 st et) e =
      runIdsOf db e := by
    intro e
    unfold runIdsOf
    rw [show (updateRunTimes db pr.2 st et).run.filter
        (fun r => r.experiment_id = e) = _ from hfilter e]
    rw [List.map_map]
    apply List.map_congr_left
    intro r _
    exact (hfieldkeep r).1
  refine ⟨⟨?_, hcache, hnums, hids, hbound, hrpd, hPS, hrd, hD⟩,
    ⟨?_, ?_, hInv.2.2.1, hInv.2.2.2.1, hInv.2.2.2.2.1, hInv.2.2.2.2.2.1,
      hInv.2.2.2.2.2.2⟩,
    ⟨fun e _ => rfl, fun e _ => rfl, fun e _ => rfl, fun e _ => rfl, ?_, ?_, ?_⟩,
    ?_, rfl, rfl, rfl, rfl, rfl, rfl, rfl, rfl, rfl, rfl, rfl⟩
  · show ((eidRuns (updateRunTimes db pr.2 st et) eid).map _) = S
    unfold eidRuns
    rw [hfilter eid, List.map_map]
    rw [show ((fun r => (r.run_number, r.run_id)) ∘
        (fun r : RunRow => if r.run_id = pr.2 then
          { r with start_time := st, end_time := et } else r)) =
        (fun r : RunRow => (r.run_number, r.run_id)) from ?_]
    · exact hruns
    · funext r
      show ((if r.run_id = pr.2 then _ else r : RunRow).run_number,
        (if r.run_id = pr.2 then _ else r : RunRow).run_id) = _
      rw [(hfieldkeep r).1, (hfieldkeep r).2.2]
  · show ((updateRunTimes db pr.2 st et).run).Pairwise _
    unfold updateRunTimes
    simp only
    rw [List.pairwise_map]
    apply hInv.1.imp_of_mem
    intro a b _ _ hab
    rw [(hfieldkeep a).1, (hfieldkeep b).1]
    exact hab
  · intro r hr
    unfold updateRunTimes at hr
    simp only at hr
    obtain ⟨r0, hr0, hr0e⟩ := List.mem_map.mp hr
    rw [← hr0e]
    show (if r0.run_id = pr.2 then _ else r0 : RunRow).run_id < _
    rw [(hfieldkeep r0).1]
    exact hInv.2.1 r0 hr0
  · intro e he
    unfold eidRuns
    rw [hfilter e]
    have hfix : ∀ r ∈ db.run.filter (fun r => r.experiment_id = e),
        (if r.run_id = pr.2 then
          ({ r with start_time := st, end_time := et } : RunRow) else r) = r := by
      intro r hr
      have hrid : r.run_id ∈ runIdsOf db e := by
        unfold runIdsOf
        exact List.mem_map_of_mem _ hr
      have hne : r.run_id ≠ pr.2 := by
        intro hc
        exact sid_not_other
          ⟨hruns, hcache, hnums, hids, hbound, hrpd, hPS, hrd, hD⟩
          hInv hpr he (hc ▸ hrid)
      rw [if_neg hne]
    rw [List.map_congr_left hfix]
    simp
  · intro e he
    unfold eidRPD
    rw [hidsof e]
    rfl
  · intro e he
    unfold eidRD
    rw [hidsof e]
    rfl
  · unfold updateRunTimes
    simp only
    rw [List.length_map]

/-- The update branch of the `RunProductionData` upsert. -/
def rpdMapDB (db : DB) (rid : Nat) (g : RPDRow → RPDRow) : DB :=
  { db with rpd := db.rpd.map (fun p => if p.run_id = rid then g p else p) }

/-- The insert branch of the `RunProductionData` upsert. -/
def rpdAppDB (db : DB) (row : RPDRow) : DB :=
  { db with rpd := db.rpd ++ [row] }

/-- The `SELECT 1 FROM RunProductionData WHERE run_id = ?` existence
probe answers exactly whether the canonical tracker holds the run. -/
theorem rpd_any_iff {eid : String} {db : DB} {S P : List (Int × Nat)}
    {D : List ((Int × String) × (Nat × Nat))} (h : MCtx eid db S P D)
    {pr : Int × Nat} (hpr : pr ∈ S) :
    db.rpd.any (fun p => p.run_id = pr.2) = true ↔ pr ∈ P := by
  obtain ⟨hruns, hcache, hnums, hids, hbound, hrpd, hPS, hrd, hD⟩ := h
  constructor
  · intro hany
    rw [List.any_eq_true] at hany
    obtain ⟨p, hp, hpe⟩ := hany
    have hpe2 : p.run_id = pr.2 := by simpa using hpe
    have hpf : p ∈ db.rpd.filter (fun p => p.run_id ∈ S.map Prod.snd) := by
      rw [List.mem_filter]
      refine ⟨hp, ?_⟩
      simp only [hpe2, decide_eq_true_eq]
      exact List.mem_map_of_mem _ hpr
    have hmm : p.run_id ∈ P.map Prod.snd := by
      rw [← hrpd]
      exact List.mem_map_of_mem _ hpf
    obtain ⟨q, hq, hqe⟩ := List.mem_map.mp hmm
    have hq2 : q = pr := S_inj_snd hids (hPS q hq) hpr (by rw [hqe, hpe2])
    rw [← hq2]
    exact hq
  · intro hP
    have hmm : pr.2 ∈ P.map Prod.snd := List.mem_map_of_mem _ hP
    rw [← hrpd] at hmm
    obtain ⟨p, hp, hpe⟩ := List.mem_map.mp hmm
    rw [List.any_eq_true]
    exact ⟨p, List.mem_of_mem_filter hp, by simp [hpe]⟩

theorem mem_P_iff_fst {S P : List (Int × Nat)}
    (hnums : S.Pairwise (fun a b => a.1 ≠ b.1)) (hPS : ∀ p ∈ P, p ∈ S)
    {pr : Int × Nat} (hpr : pr ∈ S) :
    pr ∈ P ↔ pr.1 ∈ P.map Prod.fst := by
  constructor
  · exact fun h => List.mem_map_of_mem _ h
  · intro h
    obtain ⟨q, hq, hqe⟩ := List.mem_map.mp h
    have : q = pr := S_inj_fst hnums (hPS q hq) hpr hqe
    rw [← this]
    exact hq

/-- Coalescing update-in-place of the experiment's production row:
all tracked state survives unchanged. -/
theorem rpd_map_spec {eid : String} {db : DB} {S P : List (Int × Nat)}
    {D : List ((Int × String) × (Nat × Nat))} (h : MCtx eid db S P D)
    (hInv : StoreInv db) {pr : Int × Nat} (hpr : pr ∈ S)
    (g : RPDRow → RPDRow) (hg : ∀ p, (g p).run_id = p.run_id) :
    MCtx eid (rpdMapDB db pr.2 g) S P D ∧
    StoreInv (rpdMapDB db pr.2 g) ∧
    OtherPreserved eid db (rpdMapDB db pr.2 g) ∧
    (rpdMapDB db pr.2 g).rpd.length = db.rpd.length := by
  obtain ⟨hruns, hcache, hnums, hids, hbound, hrpd, hPS, hrd, hD⟩ := h
  have hg' : ∀ p : RPDRow,
      ((if p.run_id = pr.2 then g p else p) : RPDRow).run_id = p.run_id := by
    intro p
    split
    · exact hg p
    · rfl
  have hview : ∀ ids : List Nat, ((rpdMapDB db pr.2 g).rpd.filter
      (fun p => p.run_id ∈ ids)) =
      (db.rpd.filter (fun p => p.run_id ∈ ids)).map
        (fun p => if p.run_id = pr.2 then g p else p) := by
    intro ids
    unfold rpdMapDB
    simp only
    rw [← map_filter_exchange]
    apply congrArg
    apply List.filter_congr
    intro p _
    rw [hg' p]
  refine ⟨⟨hruns, hcache, hnums, hids, hbound, ?_, hPS, hrd, hD⟩,
    ⟨hInv.1, hInv.2.1, ?_, hInv.2.2.2.1, hInv.2.2.2.2.1, hInv.2.2.2.2.2.1,
      hInv.2.2.2.2.2.2⟩,
    ⟨fun e _ => rfl, fun e _ => rfl, fun e _ => rfl, fun e _ => rfl,
      fun e _ => rfl, ?_, fun e _ => rfl⟩, ?_⟩
  · rw [hview, List.map_map]
    rw [show ((fun p : RPDRow => p.run_id) ∘
        (fun p : RPDRow => if p.run_id = pr.2 then g p else p)) =
        (fun p : RPDRow => p.run_id) from funext (fun p => hg' p)]
    exact hrpd
  · intro p hp
    obtain ⟨p0, hp0, hp0e⟩ := List.mem_map.mp hp
    rw [← hp0e]
    show ((if p0.run_id = pr.2 then g p0 else p0) : RPDRow).run_id < _
    rw [hg' p0]
    exact hInv.2.2.1 p0 hp0
  · intro e he
    unfold eidRPD
    have hids2 : runIdsOf (rpdMapDB db pr.2 g) e = runIdsOf db e := rfl
    rw [hids2, hview]
    have hfix : ∀ p ∈ db.rpd.filter (fun p => p.run_id ∈ runIdsOf db e),
        ((if p.run_id = pr.2 then g p else p) : RPDRow) = p := by
      intro p hp
      have hpin : p.run_id ∈ runIdsOf db e := by
        have := List.of_mem_filter hp
        simpa using this
      have hne : p.run_id ≠ pr.2 := by
        intro hc
        exact sid_not_other
          ⟨hruns, hcache, hnums, hids, hbound, hrpd, hPS, hrd, hD⟩
          hInv hpr he (hc ▸ hpin)
      rw [if_neg hne]
    rw [List.map_congr_left hfix]
    simp
  · unfold rpdMapDB
    simp only
    rw [List.length_map]

/-- First production write for a run: the row is appended and the
tracker extended. -/
theorem rpd_append_spec {eid : String} {db : DB} {S P : List (Int × Nat)}
    {D : List ((Int × String) × (Nat × Nat))} (h : MCtx eid db S P D)
    (hInv : StoreInv db) {pr : Int × Nat} (hpr : pr ∈ S)
    (row : RPDRow) (hrow : row.run_id = pr.2) :
    MCtx eid (rpdAppDB db row) S (P ++ [pr]) D ∧
    StoreInv (rpdAppDB db row) ∧
    OtherPreserved eid db (rpdAppDB db row) ∧
    (rpdAppDB db row).rpd.length = db.rpd.length + 1 := by
  obtain ⟨hruns, hcache, hnums, hids, hbound, hrpd, hPS, hrd, hD⟩ := h
  have hprid : pr.2 ∈ S.map Prod.snd := List.mem_map_of_mem _ hpr
  refine ⟨⟨hruns, hcache, hnums, hids, hbound, ?_, ?_, hrd, hD⟩,
    ⟨hInv.1, hInv.2.1, ?_, hInv.2.2.2.1, hInv.2.2.2.2.1, hInv.2.2.2.2.2.1,
      hInv.2.2.2.2.2.2⟩,
    ⟨fun e _ => rfl, fun e _ => rfl, fun e _ => rfl, fun e _ => rfl,
      fun e _ => rfl, ?_, fun e _ => rfl⟩, ?_⟩
  · show ((db.rpd ++ [row]).filter _).map _ = _
    rw [List.filter_append]
    simp only [List.filter_cons, List.filter_nil]
    rw [if_pos (by simp only [hrow]; simpa using hprid)]
    rw [List.map_append, hrpd, List.map_append]
    simp [hrow]
  · intro p hp
    rcases List.mem_append.mp hp with h1 | h2
    · exact hPS p h1
    · have : p = pr := by simpa using h2
      rw [this]
      exact hpr
  · intro p hp
    rcases List.mem_append.mp hp with h1 | h2
    · exact hInv.2.2.1 p h1
    · have : p = row := by simpa using h2
      rw [this, hrow]
      exact hbound pr hpr
  · intro e he
    unfold eidRPD
    have hids2 : runIdsOf (rpdAppDB db row) e = runIdsOf db e := rfl
    rw [hids2]
    show (db.rpd ++ [row]).filter _ = _
    rw [List.filter_append]
    simp only [List.filter_cons, List.filter_nil]
    rw [if_neg ?_]
    · simp
    · simp only [hrow]
      have := sid_not_other
        ⟨hruns, hcache, hnums, hids, hbound, hrpd, hPS, hrd, hD⟩
        hInv hpr he
      simpa using this
  · show (db.rpd ++ [row]).length = _
    simp

theorem StoreInv_of_fields {db db' : DB} (h : StoreInv db)
    (hrun : db'.run = db.run) (hrpd : db'.rpd = db.rpd)
    (hrd : db'.runDetector = db.runDetector)
    (hdet : db'.detector = db.detector)
    (hnr : db'.nextRunId = db.nextRunId)
    (hnd : db'.nextDetectorId = db.nextDetectorId)
    (hdc : db'.detectorCache = db.detectorCache) : StoreInv db' := by
  unfold StoreInv at h ⊢
  rw [hrun, hrpd, hrd, hdet, hnr, hnd, hdc]
  exact h

/-- Appending one of the experiment's logbook rows leaves every other
experiment's views alone. -/
theorem logAppend_other {eid : String} {db : DB} (row : LogRow)
    (hrow : row.experiment_id = eid) :
    OtherPreserved eid db { db with logbook := db.logbook ++ [row] } := by
  refine ⟨fun e _ => rfl, fun e _ => rfl, fun e _ => rfl, ?_, fun e _ => rfl,
    fun e _ => rfl, fun e _ => rfl⟩
  intro e he
  unfold eidLog
  show (db.logbook ++ [row]).filter _ = _
  rw [List.filter_append]
  simp only [List.filter_cons, List.filter_nil]
  rw [if_neg (by simp [hrow, Ne.symm he])]
  simp

/-- Common effects of every run-machinery micro-operation during the
insert of one experiment's record. -/
def MachOut (eid : String) (db db' : DB) : Prop :=
  StoreInv db' ∧ OtherPreserved eid db db' ∧
  db'.experiment = db.experiment ∧ db'.questionnaire = db.questionnaire ∧
  db'.workflow = db.workflow ∧
  (∃ t, db'.detector = db.detector ++ t) ∧
  db.nextRunId ≤ db'.nextRunId ∧ db.nextDetectorId ≤ db'.nextDetectorId ∧
  (∀ k v, dictGet? db.detectorCache k = some v →
    dictGet? db'.detectorCache k = some v) ∧
  (∀ nm, detReady db nm → detReady db' nm)

theorem MachOut_trans {eid : String} {a b c : DB} (h1 : MachOut eid a b)
    (h2 : MachOut eid b c) : MachOut eid a c := by
  obtain ⟨s1, o1, e1, q1, w1, ⟨t1, d1⟩, r1, n1, c1, y1⟩ := h1
  obtain ⟨s2, o2, e2, q2, w2, ⟨t2, d2⟩, r2, n2, c2, y2⟩ := h2
  refine ⟨s2, OtherPreserved_trans o1 o2, e2.trans e1, q2.trans q1,
    w2.trans w1, ⟨t1 ++ t2, ?_⟩, le_trans r1 r2, le_trans n1 n2,
    fun k v hv => c2 k v (c1 k v hv), fun nm hnm => y2 nm (y1 nm hnm)⟩
  rw [d2, d1, List.append_assoc]

theorem MachOut_of_self {eid : String} {db db' : DB} (hInv : StoreInv db)
    (hrun : db'.run = db.run) (hrpd : db'.rpd = db.rpd)
    (hrd : db'.runDetector = db.runDetector)
    (hdet : db'.detector = db.detector)
    (hnr : db'.nextRunId = db.nextRunId)
    (hnd : db'.nextDetectorId = db.nextDetectorId)
    (hdc : db'.detectorCache = db.detectorCache)
    (hexp : db'.experiment = db.experiment)
    (hq : db'.questionnaire = db.questionnaire)
    (hw : db'.workflow = db.workflow)
    (hop : OtherPreserved eid db db') : MachOut eid db db' :=
  ⟨StoreInv_of_fields hInv hrun hrpd hrd hdet hnr hnd hdc, hop, hexp, hq, hw,
    ⟨[], by rw [hdet]; simp⟩, le_of_eq hnr.symm, le_of_eq hnd.symm,
    fun k v hv => by rw [hdc]; exact hv,
    fun nm hnm => by unfold detReady at hnm ⊢; rw [hdet]; exact hnm⟩

/-- One iteration of the logbook insert loop: the logbook grows by one
row of the experiment and the run tracker absorbs the entry's run
number. -/
theorem logStep_spec {eid : String} {db : DB} {S P : List (Int × Nat)}
    {D : List ((Int × String) × (Nat × Nat))} (h : MCtx eid db S P D)
    (hInv : StoreInv db) {entry : TransformedEntry}
    (hwfe : entry.experiment_id = eid) :
    ∃ S',
      MCtx eid (logStep db entry) S' P D ∧
      MachOut eid db (logStep db entry) ∧
      S'.map Prod.fst =
        (match entry.run_number with
          | none => S.map Prod.fst
          | some n => addRunNum (S.map Prod.fst) n) ∧
      (logStep db entry).run.length + S.length = db.run.length + S'.length ∧
      (logStep db entry).rpd = db.rpd ∧
      (logStep db entry).runDetector = db.runDetector ∧
      (logStep db entry).detector = db.detector ∧
      (logStep db entry).logbook.length = db.logbook.length + 1 ∧
      (eidLog (logStep db entry) eid).length = (eidLog db eid).length + 1 := by
  cases hn : entry.run_number with
  | none =>
    have he : logStep db entry = { db with logbook := db.logbook ++
        [(⟨eid, none, entry.timestamp, entry.content,
          entry.tags, entry.author⟩ : LogRow)] } := by
      unfold logStep
      rw [hn, hwfe]
    rw [he]
    refine ⟨S, ?_, ?_, rfl, by simp, rfl, rfl, rfl, by simp, ?_⟩
    · exact MCtx_of_fields h rfl rfl rfl rfl rfl (fun k v hv => hv)
    · exact MachOut_of_self hInv rfl rfl rfl rfl rfl rfl rfl rfl rfl rfl
        (logAppend_other _ rfl)
    · unfold eidLog
      show ((db.logbook ++ [_]).filter _).length = _
      rw [List.filter_append]
      simp
  | some n =>
    cases hfind : S.find? (fun x => x.1 = n) with
    | some pr =>
      have hprS : pr ∈ S := List.mem_of_find?_eq_some hfind
      have hpr1 : pr.1 = n := by
        have := List.find?_some hfind
        simpa using this
      have he : logStep db entry = { db with logbook := db.logbook ++
          [(⟨eid, some pr.2, entry.timestamp, entry.content,
            entry.tags, entry.author⟩ : LogRow)] } := by
        unfold logStep
        rw [hn]
        dsimp only
        rw [hwfe, getOrCreateRunId_hit h hfind]
      rw [he]
      refine ⟨S, ?_, ?_, ?_, by simp, rfl, rfl, rfl, by simp, ?_⟩
      · exact MCtx_of_fields h rfl rfl rfl rfl rfl (fun k v hv => hv)
      · exact MachOut_of_self hInv rfl rfl rfl rfl rfl rfl rfl rfl rfl rfl
          (logAppend_other _ rfl)
      · show S.map Prod.fst = addRunNum (S.map Prod.fst) n
        have hmem : n ∈ S.map Prod.fst := by
          rw [← hpr1]
          exact List.mem_map_of_mem _ hprS
        unfold addRunNum
        rw [if_pos hmem]
      · unfold eidLog
        show ((db.logbook ++ [_]).filter _).length = _
        rw [List.filter_append]
        simp
    | none =>
      have hnmem : n ∉ S.map Prod.fst := by
        intro hmem
        obtain ⟨q, hq, hqe⟩ := List.mem_map.mp hmem
        have := List.find?_eq_none.mp hfind q hq
        simp [hqe] at this
      obtain ⟨hm2, hi2, ho2⟩ := fresh_preserves h hInv hfind
      have he : logStep db entry =
          { freshRunDB db eid n with logbook :=
              (freshRunDB db eid n).logbook ++
              [(⟨eid, some db.nextRunId, entry.timestamp, entry.content,
                entry.tags, entry.author⟩ : LogRow)] } := by
        unfold logStep
        rw [hn]
        dsimp only
        rw [hwfe, getOrCreateRunId_fresh' h hfind]
      rw [he]
      refine ⟨S ++ [(n, db.nextRunId)], ?_, ?_, ?_, ?_, rfl, rfl, ?_, ?_, ?_⟩
      · exact MCtx_of_fields hm2 rfl rfl rfl rfl rfl (fun k v hv => hv)
      · refine MachOut_trans
          ⟨hi2, ho2, rfl, rfl, rfl, ⟨[], by unfold freshRunDB; simp⟩,
            Nat.le_succ _, le_refl _, fun k v hv => hv, fun nm hnm => hnm⟩
          (MachOut_of_self hi2 rfl rfl rfl rfl rfl rfl rfl rfl rfl rfl
            (logAppend_other _ rfl))
      · show (S ++ [(n, db.nextRunId)]).map Prod.fst =
          addRunNum (S.map Prod.fst) n
        rw [List.map_append]
        unfold addRunNum
        rw [if_neg hnmem]
        rfl
      · show (freshRunDB db eid n).run.length + _ = _
        unfold freshRunDB
        simp only
        rw [List.length_append, List.length_append]
        simp only [List.length_cons, List.length_nil]
        omega
      · show (freshRunDB db eid n).detector = db.detector
        unfold freshRunDB
        rfl
      · show ((freshRunDB db eid n).logbook ++ [_]).length = _
        rw [List.length_append]
        rfl
      · unfold eidLog
        show (((freshRunDB db eid n).logbook ++ [_]).filter _).length = _
        have hfl : (freshRunDB db eid n).logbook = db.logbook := rfl
        rw [hfl, List.filter_append]
        simp

theorem rpdUpsertProd_eq_map {db : DB} {rid : Nat} {rd : RunProdEntry}
    (hany : db.rpd.any (fun p => p.run_id = rid) = true) :
    rpdUpsertProd db rid rd = rpdMapDB db rid (rpdCoalesceProd rd) := by
  unfold rpdUpsertProd rpdMapDB
  rw [if_pos hany]

theorem rpdUpsertProd_eq_app {db : DB} {rid : Nat} {rd : RunProdEntry}
    (hany : ¬ db.rpd.any (fun p => p.run_id = rid) = true) :
    rpdUpsertProd db rid rd =
      rpdAppDB db ⟨rid, rd.n_events, rd.n_damaged, rd.n_dropped,
        rd.prod_start, rd.prod_end, none, none⟩ := by
  unfold rpdUpsertProd rpdAppDB
  rw [if_neg hany]

theorem rpdUpsertFM_eq_map {db : DB} {rid : Nat} {record : FMRecord}
    (hany : db.rpd.any (fun p => p.run_id = rid) = true) :
    rpdUpsertFM db rid record = rpdMapDB db rid (rpdCoalesceFM record) := by
  unfold rpdUpsertFM rpdMapDB
  rw [if_pos hany]

theorem rpdUpsertFM_eq_app {db : DB} {rid : Nat} {record : FMRecord}
    (hany : ¬ db.rpd.any (fun p => p.run_id = rid) = true) :
    rpdUpsertFM db rid record =
      rpdAppDB db ⟨rid, none, none, none, none, none,
        record.number_of_files, record.total_size_bytes⟩ := by
  unfold rpdUpsertFM rpdAppDB
  rw [if_neg hany]

/-- Full effect of one production-data upsert keyed by a run the
experiment owns: existing row coalesced in place, or a fresh row
appended, mirrored by `addRunNum` on the tracker keys. -/
theorem rpdUpsertProd_full {eid : String} {db : DB} {S P : List (Int × Nat)}
    {D : List ((Int × String) × (Nat × Nat))} (h : MCtx eid db S P D)
    (hInv : StoreInv db) {pr : Int × Nat} (hpr : pr ∈ S) (rd : RunProdEntry) :
    ∃ P',
      MCtx eid (rpdUpsertProd db pr.2 rd) S P' D ∧
      StoreInv (rpdUpsertProd db pr.2 rd) ∧
      OtherPreserved eid db (rpdUpsertProd db pr.2 rd) ∧
      P'.map Prod.fst = addRunNum (P.map Prod.fst) pr.1 ∧
      (rpdUpsertProd db pr.2 rd).rpd.length + P.length =
        db.rpd.length + P'.length ∧
      (rpdUpsertProd db pr.2 rd).run = db.run ∧
      (rpdUpsertProd db pr.2 rd).runDetector = db.runDetector ∧
      (rpdUpsertProd db pr.2 rd).detector = db.detector ∧
      (rpdUpsertProd db pr.2 rd).logbook = db.logbook ∧
      (rpdUpsertProd db pr.2 rd).experiment = db.experiment ∧
      (rpdUpsertProd db pr.2 rd).questionnaire = db.questionnaire ∧
      (rpdUpsertProd db pr.2 rd).workflow = db.workflow ∧
      (rpdUpsertProd db pr.2 rd).nextRunId = db.nextRunId ∧
      (rpdUpsertProd db pr.2 rd).nextDetectorId = db.nextDetectorId ∧
      (rpdUpsertProd db pr.2 rd).runIdCache = db.runIdCache ∧
      (rpdUpsertProd db pr.2 rd).detectorCache = db.detectorCache := by
  by_cases hP : pr ∈ P
  · have he := @rpdUpsertProd_eq_map db pr.2 rd ((rpd_any_iff h hpr).mpr hP)
    obtain ⟨hm, hi, ho, hl⟩ :=
      rpd_map_spec h hInv hpr (rpdCoalesceProd rd) (fun p => rfl)
    rw [he]
    refine ⟨P, hm, hi, ho, ?_, by omega, rfl, rfl, rfl, rfl, rfl, rfl, rfl,
      rfl, rfl, rfl, rfl⟩
    have hmem : pr.1 ∈ P.map Prod.fst :=
      (mem_P_iff_fst h.2.2.1 h.2.2.2.2.2.2.1 hpr).mp hP
    unfold addRunNum
    rw [if_pos hmem]
  · have hany : ¬ db.rpd.any (fun p => p.run_id = pr.2) = true := by
      intro hc
      exact hP ((rpd_any_iff h hpr).mp hc)
    have he := @rpdUpsertProd_eq_app db pr.2 rd hany
    obtain ⟨hm, hi, ho, hl⟩ := rpd_append_spec h hInv hpr
      ⟨pr.2, rd.n_events, rd.n_damaged, rd.n_dropped, rd.prod_start,
        rd.prod_end, none, none⟩ rfl
    rw [he]
    refine ⟨P ++ [pr], hm, hi, ho, ?_, by rw [hl]; simp; omega, rfl, rfl, rfl,
      rfl, rfl, rfl, rfl, rfl, rfl, rfl, rfl⟩
    have hmem : pr.1 ∉ P.map Prod.fst := fun hc =>
      hP ((mem_P_iff_fst h.2.2.1 h.2.2.2.2.2.2.1 hpr).mpr hc)
    rw [List.map_append]
    unfold addRunNum
    rw [if_neg hmem]
    rfl

/-- Counterpart of `rpdUpsertProd_full` for the file-manager
coalescing upsert. -/
theorem rpdUpsertFM_full {eid : String} {db : DB} {S P : List (Int × Nat)}
    {D : List ((Int × String) × (Nat × Nat))} (h : MCtx eid db S P D)
    (hInv : StoreInv db) {pr : Int × Nat} (hpr : pr ∈ S) (record : FMRecord) :
    ∃ P',
      MCtx eid (rpdUpsertFM db pr.2 record) S P' D ∧
      StoreInv (rpdUpsertFM db pr.2 record) ∧
      OtherPreserved eid db (rpdUpsertFM db pr.2 record) ∧
      P'.map Prod.fst = addRunNum (P.map Prod.fst) pr.1 ∧
      (rpdUpsertFM db pr.2 record).rpd.length + P.length =
        db.rpd.length + P'.length ∧
      (rpdUpsertFM db pr.2 record).run = db.run ∧
      (rpdUpsertFM db pr.2 record).runDetector = db.runDetector ∧
      (rpdUpsertFM db pr.2 record).detector = db.detector ∧
      (rpdUpsertFM db pr.2 record).logbook = db.logbook ∧
      (rpdUpsertFM db pr.2 record).experiment = db.experiment ∧
      (rpdUpsertFM db pr.2 record).questionnaire = db.questionnaire ∧
      (rpdUpsertFM db pr.2 record).workflow = db.workflow ∧
      (rpdUpsertFM db pr.2 record).nextRunId = db.nextRunId ∧
      (rpdUpsertFM db pr.2 record).nextDetectorId = db.nextDetectorId ∧
      (rpdUpsertFM db pr.2 record).runIdCache = db.runIdCache ∧
      (rpdUpsertFM db pr.2 record).detectorCache = db.detectorCache := by
  by_cases hP : pr ∈ P
  · have he := @rpdUpsertFM_eq_map db pr.2 record
      ((rpd_any_iff h hpr).mpr hP)
    obtain ⟨hm, hi, ho, hl⟩ :=
      rpd_map_spec h hInv hpr (rpdCoalesceFM record) (fun p => rfl)
    rw [he]
    refine ⟨P, hm, hi, ho, ?_, by omega, rfl, rfl, rfl, rfl, rfl, rfl, rfl,
      rfl, rfl, rfl, rfl⟩
    have hmem : pr.1 ∈ P.map Prod.fst :=
      (mem_P_iff_fst h.2.2.1 h.2.2.2.2.2.2.1 hpr).mp hP
    unfold addRunNum
    rw [if_pos hmem]
  · have hany : ¬ db.rpd.any (fun p => p.run_id = pr.2) = true := by
      intro hc
      exact hP ((rpd_any_iff h hpr).mp hc)
    have he := @rpdUpsertFM_eq_app db pr.2 record hany
    obtain ⟨hm, hi, ho, hl⟩ := rpd_append_spec h hInv hpr
      ⟨pr.2, none, none, none, none, none, record.number_of_files,
        record.total_size_bytes⟩ rfl
    rw [he]
    refine ⟨P ++ [pr], hm, hi, ho, ?_, by rw [hl]; simp; omega, rfl, rfl, rfl,
      rfl, rfl, rfl, rfl, rfl, rfl, rfl, rfl⟩
    have hmem : pr.1 ∉ P.map Prod.fst := fun hc =>
      hP ((mem_P_iff_fst h.2.2.1 h.2.2.2.2.2.2.1 hpr).mpr hc)
    rw [List.map_append]
    unfold addRunNum
    rw [if_neg hmem]
    rfl

theorem MachOut_refl {eid : String} {db : DB} (hInv : StoreInv db) :
    MachOut eid db db :=
  ⟨hInv, OtherPreserved_refl _ _, rfl, rfl, rfl, ⟨[], by simp⟩, le_refl _,
    le_refl _, fun k v hv => hv, fun nm hnm => hnm⟩

theorem MachOut_of_parts {eid : String} {db db' : DB} (hi : StoreInv db')
    (ho : OtherPreserved eid db db')
    (hexp : db'.experiment = db.experiment)
    (hq : db'.questionnaire = db.questionnaire)
    (hw : db'.workflow = db.workflow) (hdet : db'.detector = db.detector)
    (hnr : db.nextRunId ≤ db'.nextRunId)
    (hnd : db'.nextDetectorId = db.nextDetectorId)
    (hdc : db'.detectorCache = db.detectorCache) : MachOut eid db db' :=
  ⟨hi, ho, hexp, hq, hw, ⟨[], by rw [hdet]; simp⟩, hnr, le_of_eq hnd.symm,
    fun k v hv => by rw [hdc]; exact hv,
    fun nm hnm => by
      unfold detReady at hnm ⊢
      rw [hdet]
      exact hnm⟩

/-- One iteration of the `data_production` loop: run resolved or
created, run times updated, production row coalesced or inserted. -/
theorem prodStep_spec {eid : String} {db : DB} {S P : List (Int × Nat)}
    {D : List ((Int × String) × (Nat × Nat))} (h : MCtx eid db S P D)
    (hInv : StoreInv db) (rd : RunProdEntry) :
    ∃ S' P',
      MCtx eid (prodStep eid db rd) S' P' D ∧
      MachOut eid db (prodStep eid db rd) ∧
      S'.map Prod.fst =
        (match rd.run_number with
          | none => S.map Prod.fst
          | some n => addRunNum (S.map Prod.fst) n) ∧
      P'.map Prod.fst =
        (match rd.run_number with
          | none => P.map Prod.fst
          | some n => addRunNum (P.map Prod.fst) n) ∧
      (prodStep eid db rd).run.length + S.length =
        db.run.length + S'.length ∧
      (prodStep eid db rd).rpd.length + P.length =
        db.rpd.length + P'.length ∧
      (prodStep eid db rd).runDetector = db.runDetector ∧
      (prodStep eid db rd).detector = db.detector ∧
      (prodStep eid db rd).logbook = db.logbook ∧
      (prodStep eid db rd).detectorCache = db.detectorCache ∧
      (prodStep eid db rd).nextDetectorId = db.nextDetectorId := by
  cases hn : rd.run_number with
  | none =>
    have he : prodStep eid db rd = db := by
      unfold prodStep
      rw [hn]
    rw [he]
    exact ⟨S, P, h, MachOut_refl hInv, rfl, rfl, by omega, by omega, rfl, rfl,
      rfl, rfl, rfl⟩
  | some n =>
    cases hfind : S.find? (fun x => x.1 = n) with
    | some pr =>
      have hprS : pr ∈ S := List.mem_of_find?_eq_some hfind
      have hpr1 : pr.1 = n := by
        have := List.find?_some hfind
        simpa using this
      have he : prodStep eid db rd =
          rpdUpsertProd (updateRunTimes db pr.2 rd.start_time rd.end_time)
            pr.2 rd := by
        unfold prodStep
        rw [hn]
        dsimp only
        rw [getOrCreateRunId_hit h hfind]
      obtain ⟨hm2, hi2, ho2, hlen2, hrpd2, hrd2, hdet2, hlog2, hexp2, hq2,
        hw2, hnr2, hnd2, hric2, hdc2⟩ :=
        updateRunTimes_spec h hInv hprS rd.start_time rd.end_time
      obtain ⟨P', hm3, hi3, ho3, hPmap, hlen3, hrun3, hrd3, hdet3, hlog3,
        hexp3, hq3, hw3, hnr3, hnd3, hric3, hdc3⟩ :=
        rpdUpsertProd_full hm2 hi2 hprS rd
      rw [he]
      refine ⟨S, P', hm3, ?_, ?_, ?_, ?_, ?_, hrd3.trans hrd2,
        hdet3.trans hdet2, hlog3.trans hlog2, hdc3.trans hdc2,
        hnd3.trans hnd2⟩
      · exact MachOut_trans
          (MachOut_of_parts hi2 ho2 hexp2 hq2 hw2 hdet2 (le_of_eq hnr2.symm)
            hnd2 hdc2)
          (MachOut_of_parts hi3 ho3 hexp3 hq3 hw3 hdet3 (le_of_eq hnr3.symm)
            hnd3 hdc3)
      · show S.map Prod.fst = addRunNum (S.map Prod.fst) n
        have hmem : n ∈ S.map Prod.fst := by
          rw [← hpr1]
          exact List.mem_map_of_mem _ hprS
        unfold addRunNum
        rw [if_pos hmem]
      · show P'.map Prod.fst = addRunNum (P.map Prod.fst) n
        rw [hPmap, hpr1]
      · have := congrArg List.length hrun3
        omega
      · rw [hrpd2] at hlen3
        exact hlen3
    | none =>
      have hnmem : n ∉ S.map Prod.fst := by
        intro hmem
        obtain ⟨q, hq, hqe⟩ := List.mem_map.mp hmem
        have := List.find?_eq_none.mp hfind q hq
        simp [hqe] at this
      obtain ⟨hm2, hi2, ho2⟩ := fresh_preserves h hInv hfind
      have hprS2 : ((n, db.nextRunId) : Int × Nat) ∈ S ++ [(n, db.nextRunId)] :=
        List.mem_append.mpr (Or.inr (by simp))
      have he : prodStep eid db rd =
          rpdUpsertProd
            (updateRunTimes (freshRunDB db eid n) db.nextRunId rd.start_time
              rd.end_time) db.nextRunId rd := by
        unfold prodStep
        rw [hn]
        dsimp only
        rw [getOrCreateRunId_fresh' h hfind]
      obtain ⟨hm3, hi3, ho3, hlen3, hrpd3, hrd3, hdet3, hlog3, hexp3, hq3,
        hw3, hnr3, hnd3, hric3, hdc3⟩ :=
        updateRunTimes_spec hm2 hi2 hprS2 rd.start_time rd.end_time
      obtain ⟨P', hm4, hi4, ho4, hPmap, hlen4, hrun4, hrd4, hdet4, hlog4,
        hexp4, hq4, hw4, hnr4, hnd4, hric4, hdc4⟩ :=
        rpdUpsertProd_full hm3 hi3 hprS2 rd
      rw [he]
      have hfr_det : (freshRunDB db eid n).detector = db.detector := by
        unfold freshRunDB
        rfl
      have hfr_rpd : (freshRunDB db eid n).rpd = db.rpd := by
        unfold freshRunDB
        rfl
      have hfr_rd : (freshRunDB db eid n).runDetector = db.runDetector := by
        unfold freshRunDB
        rfl
      have hfr_log : (freshRunDB db eid n).logbook = db.logbook := by
        unfold freshRunDB
        rfl
      have hfr_dc : (freshRunDB db eid n).detectorCache = db.detectorCache := by
        unfold freshRunDB
        rfl
      have hfr_nd : (freshRunDB db eid n).nextDetectorId = db.nextDetectorId := by
        unfold freshRunDB
        rfl
      have hfr_runlen : (freshRunDB db eid n).run.length = db.run.length + 1 := by
        unfold freshRunDB
        simp
      refine ⟨S ++ [(n, db.nextRunId)], P', hm4, ?_, ?_, ?_, ?_, ?_,
        hrd4.trans (hrd3.trans hfr_rd), hdet4.trans (hdet3.trans hfr_det),
        hlog4.trans (hlog3.trans hfr_log), hdc4.trans (hdc3.trans hfr_dc),
        hnd4.trans (hnd3.trans hfr_nd)⟩
      · refine MachOut_trans
          ⟨hi2, ho2, rfl, rfl, rfl, ⟨[], by rw [hfr_det]; simp⟩,
            Nat.le_succ _, le_refl _, fun k v hv => hv, fun nm hnm => by
              unfold detReady at hnm ⊢
              rw [hfr_det]
              exact hnm⟩
          (MachOut_trans
            (MachOut_of_parts hi3 ho3 hexp3 hq3 hw3 hdet3 (le_of_eq hnr3.symm)
              hnd3 hdc3)
            (MachOut_of_parts hi4 ho4 hexp4 hq4 hw4 hdet4 (le_of_eq hnr4.symm)
              hnd4 hdc4))
      · show (S ++ [(n, db.nextRunId)]).map Prod.fst =
          addRunNum (S.map Prod.fst) n
        rw [List.map_append]
        unfold addRunNum
        rw [if_neg hnmem]
        rfl
      · show P'.map Prod.fst = addRunNum (P.map Prod.fst) n
        rw [hPmap]
      · have h1 := congrArg List.length hrun4
        have h2 := hlen3
        rw [hfr_runlen] at h2
        simp at h1 h2 ⊢
        omega
      · rw [hrpd3, hfr_rpd] at hlen4
        exact hlen4

/-- One iteration of the file-manager records loop. -/
theorem fmStep_spec {eid : String} {db : DB} {S P : List (Int × Nat)}
    {D : List ((Int × String) × (Nat × Nat))} (h : MCtx eid db S P D)
    (hInv : StoreInv db) (record : FMRecord) :
    ∃ S' P',
      MCtx eid (fmStep eid db record) S' P' D ∧
      MachOut eid db (fmStep eid db record) ∧
      S'.map Prod.fst =
        (match record.run_number with
          | none => S.map Prod.fst
          | some n => addRunNum (S.map Prod.fst) n) ∧
      P'.map Prod.fst =
        (match record.run_number with
          | none => P.map Prod.fst
          | some n => addRunNum (P.map Prod.fst) n) ∧
      (fmStep eid db record).run.length + S.length =
        db.run.length + S'.length ∧
      (fmStep eid db record).rpd.length + P.length =
        db.rpd.length + P'.length ∧
      (fmStep eid db record).runDetector = db.runDetector ∧
      (fmStep eid db record).detector = db.detector ∧
      (fmStep eid db record).logbook = db.logbook ∧
      (fmStep eid db record).detectorCache = db.detectorCache ∧
      (fmStep eid db record).nextDetectorId = db.nextDetectorId := by
  cases hn : record.run_number with
  | none =>
    have he : fmStep eid db record = db := by
      unfold fmStep
      rw [hn]
    rw [he]
    exact ⟨S, P, h, MachOut_refl hInv, rfl, rfl, by omega, by omega, rfl, rfl,
      rfl, rfl, rfl⟩
  | some n =>
    cases hfind : S.find? (fun x => x.1 = n) with
    | some pr =>
      have hprS : pr ∈ S := List.mem_of_find?_eq_some hfind
      have hpr1 : pr.1 = n := by
        have := List.find?_some hfind
        simpa using this
      have he : fmStep eid db record = rpdUpsertFM db pr.2 record := by
        unfold fmStep
        rw [hn]
        dsimp only
        rw [getOrCreateRunId_hit h hfind]
      obtain ⟨P', hm3, hi3, ho3, hPmap, hlen3, hrun3, hrd3, hdet3, hlog3,
        hexp3, hq3, hw3, hnr3, hnd3, hric3, hdc3⟩ :=
        rpdUpsertFM_full h hInv hprS record
      rw [he]
      refine ⟨S, P', hm3, ?_, ?_, ?_, ?_, hlen3, hrd3, hdet3, hlog3, hdc3,
        hnd3⟩
      · exact MachOut_of_parts hi3 ho3 hexp3 hq3 hw3 hdet3
          (le_of_eq hnr3.symm) hnd3 hdc3
      · show S.map Prod.fst = addRunNum (S.map Prod.fst) n
        have hmem : n ∈ S.map Prod.fst := by
          rw [← hpr1]
          exact List.mem_map_of_mem _ hprS
        unfold addRunNum
        rw [if_pos hmem]
      · show P'.map Prod.fst = addRunNum (P.map Prod.fst) n
        rw [hPmap, hpr1]
      · have := congrArg List.length hrun3
        omega
    | none =>
      have hnmem : n ∉ S.map Prod.fst := by
        intro hmem
        obtain ⟨q, hq, hqe⟩ := List.mem_map.mp hmem
        have := List.find?_eq_none.mp hfind q hq
        simp [hqe] at this
      obtain ⟨hm2, hi2, ho2⟩ := fresh_preserves h hInv hfind
      have hprS2 : ((n, db.nextRunId) : Int × Nat) ∈ S ++ [(n, db.nextRunId)] :=
        List.mem_append.mpr (Or.inr (by simp))
      have he : fmStep eid db record =
          rpdUpsertFM (freshRunDB db eid n) db.nextRunId record := by
        unfold fmStep
        rw [hn]
        dsimp only
        rw [getOrCreateRunId_fresh' h hfind]
      obtain ⟨P', hm4, hi4, ho4, hPmap, hlen4, hrun4, hrd4, hdet4, hlog4,
        hexp4, hq4, hw4, hnr4, hnd4, hric4, hdc4⟩ :=
        rpdUpsertFM_full hm2 hi2 hprS2 record
      rw [he]
      have hfr_det : (freshRunDB db eid n).detector = db.detector := by
        unfold freshRunDB
        rfl
      have hfr_rpd : (freshRunDB db eid n).rpd = db.rpd := by
        unfold freshRunDB
        rfl
      have hfr_rd : (freshRunDB db eid n).runDetector = db.runDetector := by
        unfold freshRunDB
        rfl
      have hfr_log : (freshRunDB db eid n).logbook = db.logbook := by
        unfold freshRunDB
        rfl
      have hfr_dc : (freshRunDB db eid n).detectorCache = db.detectorCache := by
        unfold freshRunDB
        rfl
      have hfr_nd : (freshRunDB db eid n).nextDetectorId = db.nextDetectorId := by
        unfold freshRunDB
        rfl
      have hfr_runlen : (freshRunDB db eid n).run.length = db.run.length + 1 := by
        unfold freshRunDB
        simp
      refine ⟨S ++ [(n, db.nextRunId)], P', hm4, ?_, ?_, ?_, ?_, ?_,
        hrd4.trans hfr_rd, hdet4.trans hfr_det, hlog4.trans hfr_log,
        hdc4.trans hfr_dc, hnd4.trans hfr_nd⟩
      · refine MachOut_trans
          ⟨hi2, ho2, rfl, rfl, rfl, ⟨[], by rw [hfr_det]; simp⟩,
            Nat.le_succ _, le_refl _, fun k v hv => hv, fun nm hnm => by
              unfold detReady at hnm ⊢
              rw [hfr_det]
              exact hnm⟩
          (MachOut_of_parts hi4 ho4 hexp4 hq4 hw4 hdet4 (le_of_eq hnr4.symm)
            hnd4 hdc4)
      · show (S ++ [(n, db.nextRunId)]).map Prod.fst =
          addRunNum (S.map Prod.fst) n
        rw [List.map_append]
        unfold addRunNum
        rw [if_neg hnmem]
        rfl
      · show P'.map Prod.fst = addRunNum (P.map Prod.fst) n
        rw [hPmap]
      · have h1 := congrArg List.length hrun4
        rw [hfr_runlen] at h1
        simp at h1 ⊢
        omega
      · rw [hfr_rpd] at hlen4
        exact hlen4

theorem dictGet?_mem {β : Type} {m : List (String × β)} {k : String} {v : β}
    (h : dictGet? m k = some v) : (k, v) ∈ m := by
  unfold dictGet? at h
  cases hf : m.find? (fun p => p.1 = k) with
  | none => rw [hf] at h; simp at h
  | some pr =>
    rw [hf] at h
    have hpr : pr ∈ m := List.mem_of_find?_eq_some hf
    have hk : pr.1 = k := by
      have := List.find?_some hf
      simpa using this
    have hv : pr.2 = v := by simpa using h
    have : (k, v) = pr := by
      rw [← hk, ← hv]
    rw [this]
    exact hpr

/-- Two cached detector names with the same id are the same name. -/
theorem cached_det_inj {db : DB} (hInv : StoreInv db) {n1 n2 : String}
    {did : Nat} (h1 : dictGet? db.detectorCache n1 = some did)
    (h2 : dictGet? db.detectorCache n2 = some did) : n1 = n2 := by
  obtain ⟨d1, hd1, hd1n, hd1i⟩ := hInv.2.2.2.2.2.2 _ (dictGet?_mem h1)
  obtain ⟨d2, hd2, hd2n, hd2i⟩ := hInv.2.2.2.2.2.2 _ (dictGet?_mem h2)
  have hdd : d1 = d2 := by
    by_contra hne
    exact (hInv.2.2.2.2.1.forall
      (fun x y hxy => (hxy ∘ Eq.symm : y.detector_id ≠ x.detector_id))
      hd1 hd2 hne) (hd1i.trans hd2i.symm)
  have h3 : (n1, did).1 = (n2, did).1 := by
    rw [← hd1n, hdd]
    exact hd2n
  simpa using h3

/-- `INSERT OR REPLACE INTO RunDetector` for a run the experiment owns
and a cached detector id: the experiment's grid slice replaces the
`(run, detector)` cell, mirrored on the canonical keys. -/
theorem rdReplace_spec {eid : String} {db : DB} {S P : List (Int × Nat)}
    {D : List ((Int × String) × (Nat × Nat))} (h : MCtx eid db S P D)
    (hInv : StoreInv db) {pr : Int × Nat} (hpr : pr ∈ S) {name : String}
    {did : Nat} (hcached : dictGet? db.detectorCache name = some did)
    (status : String) :
    MCtx eid (rdReplaceInsert db pr.2 did status) S P
      (D.filter (fun x => x.2 ≠ (pr.2, did)) ++
        [((pr.1, name), (pr.2, did))]) ∧
    StoreInv (rdReplaceInsert db pr.2 did status) ∧
    OtherPreserved eid db (rdReplaceInsert db pr.2 did status) ∧
    (D.filter (fun x => x.2 ≠ (pr.2, did)) ++
      [((pr.1, name), (pr.2, did))]).map Prod.fst =
      (D.map Prod.fst).filter (fun p => p ≠ (pr.1, name)) ++ [(pr.1, name)] ∧
    (rdReplaceInsert db pr.2 did status).runDetector.length + D.length =
      db.runDetector.length +
        (D.filter (fun x => x.2 ≠ (pr.2, did)) ++
          [((pr.1, name), (pr.2, did))]).length ∧
    (rdReplaceInsert db pr.2 did status).run = db.run ∧
    (rdReplaceInsert db pr.2 did status).rpd = db.rpd ∧
    (rdReplaceInsert db pr.2 did status).detector = db.detector ∧
    (rdReplaceInsert db pr.2 did status).logbook = db.logbook ∧
    (rdReplaceInsert db pr.2 did status).experiment = db.experiment ∧
    (rdReplaceInsert db pr.2 did status).questionnaire = db.questionnaire ∧
    (rdReplaceInsert db pr.2 did status).workflow = db.workflow ∧
    (rdReplaceInsert db pr.2 did status).nextRunId = db.nextRunId ∧
    (rdReplaceInsert db pr.2 did status).nextDetectorId = db.nextDetectorId ∧
    (rdReplaceInsert db pr.2 did status).runIdCache = db.runIdCache ∧
    (rdReplaceInsert db pr.2 did status).detectorCache = db.detectorCache := by
  obtain ⟨hruns, hcache, hnums, hids, hbound, hrpd, hPS, hrd, hD⟩ := h
  have hprid : pr.2 ∈ S.map Prod.snd := List.mem_map_of_mem _ hpr
  have hcorr : ∀ x ∈ D, (x.2 = ((pr.2, did) : Nat × Nat)) ↔
      (x.1 = ((pr.1, name) : Int × String)) := by
    intro x hx
    obtain ⟨hxS, hxC⟩ := hD x hx
    constructor
    · intro hv
      have hv1 : x.2.1 = pr.2 := congrArg Prod.fst hv
      have hv2 : x.2.2 = did := congrArg Prod.snd hv
      have hx1 : x.1.1 = pr.1 := by
        have hxS2 : ((x.1.1, pr.2) : Int × Nat) ∈ S := by
          rw [← hv1]
          exact hxS
        have h5 := S_inj_snd hids hxS2 hpr rfl
        exact congrArg Prod.fst h5
      have hx2 : x.1.2 = name := by
        apply cached_det_inj hInv (hv2 ▸ hxC) hcached
      exact Prod.ext hx1 hx2
    · intro hk
      have hk1 : x.1.1 = pr.1 := congrArg Prod.fst hk
      have hk2 : x.1.2 = name := congrArg Prod.snd hk
      have hx1 : x.2.1 = pr.2 := by
        have hxS2 : ((pr.1, x.2.1) : Int × Nat) ∈ S := by
          rw [← hk1]
          exact hxS
        have h5 := S_inj_fst hnums hxS2 hpr rfl
        exact congrArg Prod.snd h5
      have hx2 : x.2.2 = did := by
        rw [hk2, hcached] at hxC
        exact (Option.some_inj.mp hxC).symm
      exact Prod.ext hx1 hx2
  have hTsplit : (rdReplaceInsert db pr.2 did status).runDetector =
      (db.runDetector.filter
        (fun rd => ¬ (rd.run_id = pr.2 ∧ rd.detector_id = did))) ++
      [(⟨pr.2, did, status⟩ : RunDetectorRow)] := rfl
  have hrowv : [(⟨pr.2, did, status⟩ : RunDetectorRow)].filter
      (fun d => d.run_id ∈ S.map Prod.snd) = [⟨pr.2, did, status⟩] := by
    simp only [List.filter_cons, List.filter_nil]
    rw [if_pos (by simpa using hprid)]
  have hmcong : ∀ l : List RunDetectorRow, l.filter
      (fun rd => ¬ (rd.run_id = pr.2 ∧ rd.detector_id = did)) =
      l.filter
        (fun rd => ((rd.run_id, rd.detector_id) : Nat × Nat) ≠ (pr.2, did)) := by
    intro l
    apply List.filter_congr
    intro r _
    simp only [ne_eq, decide_eq_decide, Prod.mk.injEq]
  refine ⟨⟨hruns, hcache, hnums, hids, hbound, hrpd, hPS, ?_, ?_⟩,
    ⟨hInv.1, hInv.2.1, hInv.2.2.1, ?_, hInv.2.2.2.2.1, hInv.2.2.2.2.2.1,
      hInv.2.2.2.2.2.2⟩,
    ⟨fun e _ => rfl, fun e _ => rfl, fun e _ => rfl, fun e _ => rfl,
      fun e _ => rfl, fun e _ => rfl, ?_⟩,
    ?_, ?_, rfl, rfl, rfl, rfl, rfl, rfl, rfl, rfl, rfl, rfl, rfl⟩
  · show (((rdReplaceInsert db pr.2 did status).runDetector).filter _).map _ = _
    rw [hTsplit, List.filter_append, hrowv, filter_filter_comm, hmcong,
      List.map_append]
    rw [map_filter_exchange (fun d : RunDetectorRow => (d.run_id, d.detector_id))
      (fun y => y ≠ ((pr.2, did) : Nat × Nat))]
    rw [hrd, List.map_append]
    rw [map_filter_exchange (Prod.snd)
      (fun y => y ≠ ((pr.2, did) : Nat × Nat))]
    rfl
  · intro x hx
    rcases List.mem_append.mp hx with h1 | h2
    · have hxD : x ∈ D := List.mem_of_mem_filter h1
      exact ⟨(hD x hxD).1, (hD x hxD).2⟩
    · have hx2 : x = ((pr.1, name), (pr.2, did)) := by simpa using h2
      rw [hx2]
      exact ⟨by simpa using hpr, hcached⟩
  · intro d hd
    rw [hTsplit] at hd
    rcases List.mem_append.mp hd with h1 | h2
    · exact hInv.2.2.2.1 d (List.mem_of_mem_filter h1)
    · have : d = ⟨pr.2, did, status⟩ := by simpa using h2
      rw [this]
      exact hbound pr hpr
  · intro e he
    unfold eidRD
    have hids2 : runIdsOf (rdReplaceInsert db pr.2 did status) e =
        runIdsOf db e := rfl
    rw [hids2, hTsplit, List.filter_append, filter_filter_comm]
    have hclear : [(⟨pr.2, did, status⟩ : RunDetectorRow)].filter
        (fun d => d.run_id ∈ runIdsOf db e) = [] := by
      simp only [List.filter_cons, List.filter_nil]
      rw [if_neg ?_]
      have := sid_not_other
        ⟨hruns, hcache, hnums, hids, hbound, hrpd, hPS, hrd, hD⟩
        hInv hpr he
      simpa using this
    rw [hclear, List.append_nil]
    apply List.filter_eq_self.mpr
    intro r hr
    have hrin : r.run_id ∈ runIdsOf db e := by
      have := List.of_mem_filter hr
      simpa using this
    have hne : r.run_id ≠ pr.2 := by
      intro hc
      exact sid_not_other
        ⟨hruns, hcache, hnums, hids, hbound, hrpd, hPS, hrd, hD⟩
        hInv hpr he (hc ▸ hrin)
    simp [hne]
  · rw [List.map_append]
    have h1 : D.filter (fun x => x.2 ≠ ((pr.2, did) : Nat × Nat)) =
        D.filter (fun x => x.1 ≠ ((pr.1, name) : Int × String)) := by
      apply List.filter_congr
      intro x hx
      simp only [ne_eq, decide_eq_decide]
      exact not_congr (hcorr x hx)
    rw [h1]
    rw [map_filter_exchange (Prod.fst)
      (fun y => y ≠ ((pr.1, name) : Int × String))]
    rfl
  · have hsplitT := length_filter_split
      (fun rd : RunDetectorRow => decide (rd.run_id = pr.2 ∧
        rd.detector_id = did))
      (fun rd : RunDetectorRow => decide (¬ (rd.run_id = pr.2 ∧
        rd.detector_id = did)))
      db.runDetector (fun x => by simp)
    have hsplitD := length_filter_split
      (fun x : (Int × String) × (Nat × Nat) =>
        decide (x.2 = ((pr.2, did) : Nat × Nat)))
      (fun x : (Int × String) × (Nat × Nat) =>
        decide (x.2 ≠ ((pr.2, did) : Nat × Nat)))
      D (fun x => by simp)
    have hmatchlen : (db.runDetector.filter
        (fun rd => rd.run_id = pr.2 ∧ rd.detector_id = did)).length =
        (D.filter (fun x => x.2 = ((pr.2, did) : Nat × Nat))).length := by
      have hTm : db.runDetector.filter
          (fun rd => rd.run_id = pr.2 ∧ rd.detector_id = did) =
          (db.runDetector.filter (fun d => d.run_id ∈ S.map Prod.snd)).filter
            (fun rd => rd.run_id = pr.2 ∧ rd.detector_id = did) := by
        rw [filter_filter_comm]
        apply Eq.symm
        apply List.filter_eq_self.mpr
        intro r hr
        have hrm := List.of_mem_filter hr
        have hr1 : r.run_id = pr.2 := by
          have : r.run_id = pr.2 ∧ r.detector_id = did := by simpa using hrm
          exact this.1
        simp only [hr1]
        simpa using hprid
      rw [hTm]
      have h2 : (db.runDetector.filter
          (fun d => d.run_id ∈ S.map Prod.snd)).filter
            (fun rd => rd.run_id = pr.2 ∧ rd.detector_id = did) =
          (db.runDetector.filter
            (fun d => d.run_id ∈ S.map Prod.snd)).filter
            (fun rd => ((rd.run_id, rd.detector_id) : Nat × Nat) =
              (pr.2, did)) := by
        apply List.filter_congr
        intro r _
        simp only [decide_eq_decide, Prod.mk.injEq]
      rw [h2]
      have h3 := congrArg List.length
        (map_filter_exchange
          (fun d : RunDetectorRow => (d.run_id, d.detector_id))
          (fun y => y = ((pr.2, did) : Nat × Nat))
          (db.runDetector.filter (fun d => d.run_id ∈ S.map Prod.snd)))
      rw [List.length_map] at h3
      rw [h3, hrd]
      have h4 := congrArg List.length
        (map_filter_exchange (Prod.snd)
          (fun y => y = ((pr.2, did) : Nat × Nat)) D)
      rw [List.length_map] at h4
      rw [← h4]
    rw [hTsplit]
    rw [List.length_append, List.length_append]
    simp only [List.length_cons, List.length_nil]
    omega

theorem canonDetItem_runs (n : Int) (cst : CanonState) (kv : String × String) :
    (canonDetItem n cst kv).runs = cst.runs := by
  unfold canonDetItem
  split <;> rfl

theorem canonDetItem_rpds (n : Int) (cst : CanonState) (kv : String × String) :
    (canonDetItem n cst kv).rpds = cst.rpds := by
  unfold canonDetItem
  split <;> rfl

theorem canonDetItem_fold_runs (n : Int) :
    ∀ (items : List (String × String)) (cst : CanonState),
      (items.foldl (canonDetItem n) cst).runs = cst.runs := by
  intro items
  induction items with
  | nil => intro cst; rfl
  | cons kv rest ih =>
    intro cst
    rw [List.foldl_cons, ih, canonDetItem_runs]

theorem canonDetItem_fold_rpds (n : Int) :
    ∀ (items : List (String × String)) (cst : CanonState),
      (items.foldl (canonDetItem n) cst).rpds = cst.rpds := by
  intro items
  induction items with
  | nil => intro cst; rfl
  | cons kv rest ih =>
    intro cst
    rw [List.foldl_cons, ih, canonDetItem_rpds]

/-- One key/value cell of the detector grid: skipped keys leave the
store alone; a real detector key resolves the detector id (creating a
row only when the name is unseen) and replaces the grid cell. -/
theorem detItemStep_spec {eid : String} {db : DB} {S P : List (Int × Nat)}
    {D : List ((Int × String) × (Nat × Nat))} (h : MCtx eid db S P D)
    (hInv : StoreInv db) {pr : Int × Nat} (hpr : pr ∈ S)
    (kv : String × String) :
    ∃ D',
      MCtx eid (detItemStep pr.2 db kv) S P D' ∧
      MachOut eid db (detItemStep pr.2 db kv) ∧
      D'.map Prod.fst =
        (if kv.1 = "run_number" ∨ pyStrip kv.1 = "" then D.map Prod.fst
          else (D.map Prod.fst).filter (fun p => p ≠ (pr.1, kv.1)) ++
            [(pr.1, kv.1)]) ∧
      (detItemStep pr.2 db kv).runDetector.length + D.length =
        db.runDetector.length + D'.length ∧
      (detItemStep pr.2 db kv).run = db.run ∧
      (detItemStep pr.2 db kv).rpd = db.rpd ∧
      (detItemStep pr.2 db kv).logbook = db.logbook ∧
      (detItemStep pr.2 db kv).runIdCache = db.runIdCache ∧
      (detItemStep pr.2 db kv).nextRunId = db.nextRunId ∧
      ((detReady db kv.1 ∨ kv.1 = "run_number" ∨ pyStrip kv.1 = "") →
        (detItemStep pr.2 db kv).detector = db.detector) ∧
      (¬ (kv.1 = "run_number" ∨ pyStrip kv.1 = "") →
        detReady (detItemStep pr.2 db kv) kv.1) := by
  by_cases hskip : kv.1 = "run_number" ∨ pyStrip kv.1 = ""
  · have he : detItemStep pr.2 db kv = db := by
      unfold detItemStep
      rw [if_pos hskip]
    rw [he]
    refine ⟨D, h, MachOut_refl hInv, ?_, by omega, rfl, rfl, rfl, rfl, rfl,
      fun _ => rfl, fun hc => absurd hskip hc⟩
    rw [if_pos hskip]
  · obtain ⟨⟨t, hdetap⟩, hrunE, hrpdE, hrdE, hlogE, hexpE, hqE, hwE, hnrE,
      hricE, hmetaE, hndLe, hInv2, hcached, hkeep, hreadyfix, hreadymono⟩ :=
      getOrCreateDetectorId_spec db kv.1 hInv
    have he : detItemStep pr.2 db kv =
        rdReplaceInsert (getOrCreateDetectorId db kv.1).2 pr.2
          (getOrCreateDetectorId db kv.1).1 kv.2 := by
      unfold detItemStep
      rw [if_neg hskip]
    have hm2 : MCtx eid (getOrCreateDetectorId db kv.1).2 S P D :=
      MCtx_of_fields h hrunE hricE hrpdE hrdE hnrE hkeep
    obtain ⟨hm3, hi3, ho3, hkeys, hlen, hrun3, hrpd3, hdet3, hlog3, hexp3,
      hq3, hw3, hnr3, hnd3, hric3, hdc3⟩ :=
      rdReplace_spec hm2 hInv2 hpr hcached kv.2
    rw [he]
    refine ⟨D.filter (fun x => x.2 ≠
        (pr.2, (getOrCreateDetectorId db kv.1).1)) ++
      [((pr.1, kv.1), (pr.2, (getOrCreateDetectorId db kv.1).1))],
      hm3, ?_, ?_, ?_, hrun3.trans hrunE, hrpd3.trans hrpdE,
      hlog3.trans hlogE, hric3.trans hricE, hnr3.trans hnrE, ?_, ?_⟩
    · refine MachOut_trans
        ⟨hInv2, OtherPreserved_of_fields hexpE hqE hwE hlogE hrunE hrpdE hrdE,
          hexpE, hqE, hwE, ⟨t, hdetap⟩, le_of_eq hnrE.symm, hndLe, hkeep,
          hreadymono⟩
        (MachOut_of_parts hi3 ho3 hexp3 hq3 hw3 hdet3 (le_of_eq hnr3.symm)
          hnd3 hdc3)
    · rw [if_neg hskip]
      exact hkeys
    · rw [hrdE] at hlen
      exact hlen
    · intro hready
      rcases hready with hr | hr | hr
      · exact hdet3.trans (hreadyfix hr)
      · exact absurd (Or.inl hr) hskip
      · exact absurd (Or.inr hr) hskip
    · intro _
      obtain ⟨d2, hd2, hd2n, hd2i⟩ :=
        hInv2.2.2.2.2.2.2 _ (dictGet?_mem hcached)
      refine ⟨d2, ?_, hd2n⟩
      rw [hdet3]
      exact hd2

theorem skipKeep_pos {k : String}
    (h : ¬ (k = "run_number" ∨ pyStrip k = "")) :
    (decide ¬ (k = "run_number" ∨ pyStrip k = "")) = true := by
  simp only [decide_eq_true_eq]
  exact h

theorem skipKeep_neg {k : String} (h : k = "run_number" ∨ pyStrip k = "") :
    ¬ ((decide ¬ (k = "run_number" ∨ pyStrip k = "")) = true) := by
  simp only [decide_eq_true_eq]
  exact not_not_intro h

/-- The key/value loop over one detector-grid entry. -/
theorem detItems_fold {eid : String} {pr : Int × Nat} :
    ∀ (items : List (String × String)) (db : DB) (S P : List (Int × Nat))
      (D : List ((Int × String) × (Nat × Nat))) (cst : CanonState),
      MCtx eid db S P D → StoreInv db → pr ∈ S →
      D.map Prod.fst = cst.rds →
      ∃ D',
        MCtx eid (items.foldl (detItemStep pr.2) db) S P D' ∧
        MachOut eid db (items.foldl (detItemStep pr.2) db) ∧
        D'.map Prod.fst = (items.foldl (canonDetItem pr.1) cst).rds ∧
        (items.foldl (detItemStep pr.2) db).runDetector.length + D.length =
          db.runDetector.length + D'.length ∧
        (items.foldl (detItemStep pr.2) db).run = db.run ∧
        (items.foldl (detItemStep pr.2) db).rpd = db.rpd ∧
        (items.foldl (detItemStep pr.2) db).logbook = db.logbook ∧
        (items.foldl (detItemStep pr.2) db).runIdCache = db.runIdCache ∧
        (items.foldl (detItemStep pr.2) db).nextRunId = db.nextRunId ∧
        ((∀ k ∈ (items.map Prod.fst).filter
            (fun k => ¬ (k = "run_number" ∨ pyStrip k = "")),
            detReady db k) →
          (items.foldl (detItemStep pr.2) db).detector = db.detector) ∧
        (∀ k ∈ (items.map Prod.fst).filter
            (fun k => ¬ (k = "run_number" ∨ pyStrip k = "")),
          detReady (items.foldl (detItemStep pr.2) db) k) := by
  intro items
  induction items with
  | nil =>
    intro db S P D cst hm hInv hpr hrds
    refine ⟨D, hm, MachOut_refl hInv, hrds, rfl, rfl, rfl, rfl, rfl, rfl,
      fun _ => rfl, ?_⟩
    intro k hk
    simp at hk
  | cons kv rest ih =>
    intro db S P D cst hm hInv hpr hrds
    obtain ⟨D1, hm1, ho1, hkeys1, hlen1, hrun1, hrpd1, hlog1, hric1, hnr1,
      hcond1, hafter1⟩ := detItemStep_spec hm hInv hpr kv
    have hInv1 : StoreInv (detItemStep pr.2 db kv) := ho1.1
    have hlink : D1.map Prod.fst = (canonDetItem pr.1 cst kv).rds := by
      rw [hkeys1]
      unfold canonDetItem
      by_cases hskip : kv.1 = "run_number" ∨ pyStrip kv.1 = ""
      · rw [if_pos hskip, if_pos hskip, hrds]
      · rw [if_neg hskip, if_neg hskip, hrds]
    obtain ⟨D', hm2, ho2, hkeys2, hlen2, hrun2, hrpd2, hlog2, hric2, hnr2,
      hcond2, hafter2⟩ := ih (detItemStep pr.2 db kv) S P D1
        (canonDetItem pr.1 cst kv) hm1 hInv1 hpr hlink
    rw [List.foldl_cons]
    refine ⟨D', hm2, MachOut_trans ho1 ho2, hkeys2, by omega,
      hrun2.trans hrun1, hrpd2.trans hrpd1, hlog2.trans hlog1,
      hric2.trans hric1, hnr2.trans hnr1, ?_, ?_⟩
    · intro hready
      by_cases hskip : kv.1 = "run_number" ∨ pyStrip kv.1 = ""
      · have hready1 : ∀ k ∈ (rest.map Prod.fst).filter
            (fun k => ¬ (k = "run_number" ∨ pyStrip k = "")),
            detReady (detItemStep pr.2 db kv) k := by
          intro k hk
          have hkin : k ∈ ((kv :: rest).map Prod.fst).filter
              (fun k => ¬ (k = "run_number" ∨ pyStrip k = "")) := by
            simp only [List.map_cons, List.filter_cons]
            rw [if_neg (skipKeep_neg hskip)]
            exact hk
          exact ho1.2.2.2.2.2.2.2.2.2 k (hready k hkin)
        exact (hcond2 hready1).trans (hcond1 (Or.inr hskip))
      · have hkvin : kv.1 ∈ ((kv :: rest).map Prod.fst).filter
            (fun k => ¬ (k = "run_number" ∨ pyStrip k = "")) := by
          simp only [List.map_cons, List.filter_cons]
          rw [if_pos (skipKeep_pos hskip)]
          simp
        have hready1 : ∀ k ∈ (rest.map Prod.fst).filter
            (fun k => ¬ (k = "run_number" ∨ pyStrip k = "")),
            detReady (detItemStep pr.2 db kv) k := by
          intro k hk
          have hkin : k ∈ ((kv :: rest).map Prod.fst).filter
              (fun k => ¬ (k = "run_number" ∨ pyStrip k = "")) := by
            simp only [List.map_cons, List.filter_cons]
            rw [if_pos (skipKeep_pos hskip)]
            exact List.mem_cons_of_mem _ hk
          exact ho1.2.2.2.2.2.2.2.2.2 k (hready k hkin)
        exact (hcond2 hready1).trans (hcond1 (Or.inl (hready kv.1 hkvin)))
    · intro k hk
      by_cases hskip : kv.1 = "run_number" ∨ pyStrip kv.1 = ""
      · have hk2 : k ∈ (rest.map Prod.fst).filter
            (fun k => ¬ (k = "run_number" ∨ pyStrip k = "")) := by
          simp only [List.map_cons, List.filter_cons] at hk
          rw [if_neg (skipKeep_neg hskip)] at hk
          exact hk
        exact hafter2 k hk2
      · simp only [List.map_cons, List.filter_cons] at hk
        rw [if_pos (skipKeep_pos hskip)] at hk
        rcases List.mem_cons.mp hk with hk1 | hk2
        · rw [hk1]
          exact ho2.2.2.2.2.2.2.2.2.2 kv.1 (hafter1 hskip)
        · exact hafter2 k hk2

/-- One entry of the `detectors` loop of the run-table insert. -/
theorem detStep_spec {eid : String} {db : DB} {S P : List (Int × Nat)}
    {D : List ((Int × String) × (Nat × Nat))} (h : MCtx eid db S P D)
    (hInv : StoreInv db) (cst : CanonState) (hrs : S.map Prod.fst = cst.runs)
    (hrds : D.map Prod.fst = cst.rds) (det : DetectorEntry) :
    ∃ S' D',
      MCtx eid (detStep eid db det) S' P D' ∧
      MachOut eid db (detStep eid db det) ∧
      S'.map Prod.fst = (canonDet cst det).runs ∧
      D'.map Prod.fst = (canonDet cst det).rds ∧
      (detStep eid db det).run.length + S.length =
        db.run.length + S'.length ∧
      (detStep eid db det).runDetector.length + D.length =
        db.runDetector.length + D'.length ∧
      (detStep eid db det).rpd = db.rpd ∧
      (detStep eid db det).logbook = db.logbook ∧
      ((∀ k ∈ detKeysOf det, detReady db k) →
        (detStep eid db det).detector = db.detector) ∧
      (∀ k ∈ detKeysOf det, detReady (detStep eid db det) k) := by
  cases hn : det.run_number with
  | none =>
    have he : detStep eid db det = db := by
      unfold detStep
      rw [hn]
    have hkeys : detKeysOf det = [] := by
      unfold detKeysOf
      rw [hn]
    rw [he, hkeys]
    refine ⟨S, D, h, MachOut_refl hInv, ?_, ?_, by omega, by omega, rfl, rfl,
      fun _ => rfl, by intro k hk; simp at hk⟩
    · unfold canonDet
      rw [hn]
      exact hrs
    · unfold canonDet
      rw [hn]
      exact hrds
  | some n =>
    have hkeys : detKeysOf det = (det.items.map Prod.fst).filter
        (fun k => ¬ (k = "run_number" ∨ pyStrip k = "")) := by
      unfold detKeysOf
      rw [hn]
    have hcanon : canonDet cst det =
        det.items.foldl (canonDetItem n)
          { cst with runs := addRunNum cst.runs n } := by
      unfold canonDet
      rw [hn]
    cases hfind : S.find? (fun x => x.1 = n) with
    | some pr =>
      have hprS : pr ∈ S := List.mem_of_find?_eq_some hfind
      have hpr1 : pr.1 = n := by
        have := List.find?_some hfind
        simpa using this
      have hmem : n ∈ S.map Prod.fst := by
        rw [← hpr1]
        exact List.mem_map_of_mem _ hprS
      have he : detStep eid db det =
          det.items.foldl (detItemStep pr.2) db := by
        unfold detStep
        rw [hn]
        dsimp only
        rw [getOrCreateRunId_hit h hfind]
      obtain ⟨D', hm2, ho2, hkeys2, hlen2, hrun2, hrpd2, hlog2, hric2, hnr2,
        hcond2, hafter2⟩ := detItems_fold det.items db S P D
          { cst with runs := addRunNum cst.runs n } h hInv hprS hrds
      rw [he, hkeys, hcanon]
      have hkeys2' : D'.map Prod.fst =
          (det.items.foldl (canonDetItem n)
            { cst with runs := addRunNum cst.runs n }).rds := by
        rw [hkeys2, hpr1]
      refine ⟨S, D', hm2, ho2, ?_, hkeys2', ?_, hlen2, hrpd2, hlog2, hcond2,
        hafter2⟩
      · rw [canonDetItem_fold_runs]
        show S.map Prod.fst = addRunNum cst.runs n
        rw [← hrs]
        unfold addRunNum
        rw [if_pos hmem]
      · rw [hrun2]
    | none =>
      have hnmem : n ∉ S.map Prod.fst := by
        intro hmem
        obtain ⟨q, hq, hqe⟩ := List.mem_map.mp hmem
        have := List.find?_eq_none.mp hfind q hq
        simp [hqe] at this
      obtain ⟨hm2, hi2, ho2⟩ := fresh_preserves h hInv hfind
      have hprS2 : ((n, db.nextRunId) : Int × Nat) ∈
          S ++ [(n, db.nextRunId)] := List.mem_append.mpr (Or.inr (by simp))
      have he : detStep eid db det =
          det.items.foldl (detItemStep db.nextRunId) (freshRunDB db eid n) := by
        unfold detStep
        rw [hn]
        dsimp only
        rw [getOrCreateRunId_fresh' h hfind]
      have hDfr : D.map Prod.fst =
          ({ cst with runs := addRunNum cst.runs n } : CanonState).rds := hrds
      obtain ⟨D', hm3, ho3, hkeys3, hlen3, hrun3, hrpd3, hlog3, hric3, hnr3,
        hcond3, hafter3⟩ :=
        @detItems_fold eid (n, db.nextRunId) det.items (freshRunDB db eid n)
          (S ++ [(n, db.nextRunId)]) P D
          { cst with runs := addRunNum cst.runs n } hm2 hi2 hprS2 hDfr
      rw [he, hkeys, hcanon]
      have hfr_det : (freshRunDB db eid n).detector = db.detector := by
        unfold freshRunDB
        rfl
      have hfr_rpd : (freshRunDB db eid n).rpd = db.rpd := by
        unfold freshRunDB
        rfl
      have hfr_rd : (freshRunDB db eid n).runDetector = db.runDetector := by
        unfold freshRunDB
        rfl
      have hfr_log : (freshRunDB db eid n).logbook = db.logbook := by
        unfold freshRunDB
        rfl
      have hfr_runlen : (freshRunDB db eid n).run.length =
          db.run.length + 1 := by
        unfold freshRunDB
        simp
      refine ⟨S ++ [(n, db.nextRunId)], D', hm3, ?_, ?_, hkeys3, ?_, ?_,
        hrpd3.trans hfr_rpd, hlog3.trans hfr_log, ?_, ?_⟩
      · refine MachOut_trans
          ⟨hi2, ho2, rfl, rfl, rfl, ⟨[], by rw [hfr_det]; simp⟩,
            Nat.le_succ _, le_refl _, fun k v hv => hv, fun nm hnm => by
              unfold detReady at hnm ⊢
              rw [hfr_det]
              exact hnm⟩ ho3
      · rw [canonDetItem_fold_runs]
        show (S ++ [(n, db.nextRunId)]).map Prod.fst = addRunNum cst.runs n
        rw [List.map_append, ← hrs]
        unfold addRunNum
        rw [if_neg hnmem]
        rfl
      · rw [hrun3, hfr_runlen]
        rw [List.length_append]
        simp only [List.length_cons, List.length_nil]
        omega
      · rw [hfr_rd] at hlen3
        exact hlen3
      · intro hready
        have hready2 : ∀ k ∈ (det.items.map Prod.fst).filter
            (fun k => ¬ (k = "run_number" ∨ pyStrip k = "")),
            detReady (freshRunDB db eid n) k := by
          intro k hk
          unfold detReady at hready ⊢
          rw [hfr_det]
          exact hready k hk
        exact (hcond3 hready2).trans hfr_det
      · exact hafter3

theorem canonLog_rpds (cst : CanonState) (e : TransformedEntry) :
    (canonLog cst e).rpds = cst.rpds := by
  unfold canonLog
  split <;> rfl

theorem canonLog_rds (cst : CanonState) (e : TransformedEntry) :
    (canonLog cst e).rds = cst.rds := by
  unfold canonLog
  split <;> rfl

theorem canonProd_rds (cst : CanonState) (rd : RunProdEntry) :
    (canonProd cst rd).rds = cst.rds := by
  unfold canonProd
  split <;> rfl

theorem canonFM_rds (cst : CanonState) (record : FMRecord) :
    (canonFM cst record).rds = cst.rds := by
  unfold canonFM
  split <;> rfl

theorem canonDet_rpds (cst : CanonState) (det : DetectorEntry) :
    (canonDet cst det).rpds = cst.rpds := by
  unfold canonDet
  split
  · rfl
  · rw [canonDetItem_fold_rpds]

theorem mem_foldl_append {α β : Type} (f : α → List β) :
    ∀ (l : List α) (a : List β) (x : β),
      x ∈ l.foldl (fun acc d => acc ++ f d) a ↔ x ∈ a ∨ ∃ d ∈ l, x ∈ f d := by
  intro l
  induction l with
  | nil =>
    intro a x
    simp
  | cons d l ih =>
    intro a x
    rw [List.foldl_cons, ih]
    constructor
    · intro hx
      rcases hx with hx | ⟨d2, hd2, hx2⟩
      · rcases List.mem_append.mp hx with hx1 | hx2
        · exact Or.inl hx1
        · exact Or.inr ⟨d, by simp, hx2⟩
      · exact Or.inr ⟨d2, by simp [hd2], hx2⟩
    · intro hx
      rcases hx with hx | ⟨d2, hd2, hx2⟩
      · exact Or.inl (List.mem_append.mpr (Or.inl hx))
      · rcases List.mem_cons.mp hd2 with hdd | hdd
        · exact Or.inl (List.mem_append.mpr (Or.inr (hdd ▸ hx2)))
        · exact Or.inr ⟨d2, hdd, hx2⟩

/-- The logbook insert loop. -/
theorem logPhase_spec {eid : String} :
    ∀ (entries : List TransformedEntry) (db : DB) (S P : List (Int × Nat))
      (D : List ((Int × String) × (Nat × Nat))) (cst : CanonState),
      MCtx eid db S P D → StoreInv db →
      (∀ e ∈ entries, e.experiment_id = eid) →
      S.map Prod.fst = cst.runs →
      ∃ S',
        MCtx eid (entries.foldl logStep db) S' P D ∧
        MachOut eid db (entries.foldl logStep db) ∧
        S'.map Prod.fst = (entries.foldl canonLog cst).runs ∧
        (entries.foldl logStep db).run.length + S.length =
          db.run.length + S'.length ∧
        (entries.foldl logStep db).rpd = db.rpd ∧
        (entries.foldl logStep db).runDetector = db.runDetector ∧
        (entries.foldl logStep db).detector = db.detector ∧
        (entries.foldl logStep db).logbook.length =
          db.logbook.length + entries.length ∧
        (eidLog (entries.foldl logStep db) eid).length =
          (eidLog db eid).length + entries.length := by
  intro entries
  induction entries with
  | nil =>
    intro db S P D cst hm hInv hall hcanon
    exact ⟨S, hm, MachOut_refl hInv, hcanon, rfl, rfl, rfl, rfl, rfl, rfl⟩
  | cons e rest ih =>
    intro db S P D cst hm hInv hall hcanon
    obtain ⟨S1, hm1, ho1, hcanon1, hlen1, hrpd1, hrd1, hdet1, hloglen1,
      heid1⟩ := logStep_spec hm hInv (hall e (by simp))
    have hInv1 : StoreInv (logStep db e) := ho1.1
    have hlink : S1.map Prod.fst = (canonLog cst e).runs := by
      rw [hcanon1]
      unfold canonLog
      cases hn : e.run_number with
      | none => exact hcanon
      | some n =>
        show addRunNum (S.map Prod.fst) n = addRunNum cst.runs n
        rw [hcanon]
    obtain ⟨S', hm2, ho2, hcanon2, hlen2, hrpd2, hrd2, hdet2, hloglen2,
      heid2⟩ := ih (logStep db e) S1 P D (canonLog cst e) hm1 hInv1
        (fun x hx => hall x (by simp [hx])) hlink
    rw [List.foldl_cons]
    refine ⟨S', hm2, MachOut_trans ho1 ho2, hcanon2, by omega,
      hrpd2.trans hrpd1, hrd2.trans hrd1, hdet2.trans hdet1,
      by simp only [List.length_cons]; omega,
      by simp only [List.length_cons]; omega⟩

/-- The `data_production` loop. -/
theorem prodPhase_spec {eid : String} :
    ∀ (prods : List RunProdEntry) (db : DB) (S P : List (Int × Nat))
      (D : List ((Int × String) × (Nat × Nat))) (cst : CanonState),
      MCtx eid db S P D → StoreInv db →
      S.map Prod.fst = cst.runs → P.map Prod.fst = cst.rpds →
      ∃ S' P',
        MCtx eid (prods.foldl (prodStep eid) db) S' P' D ∧
        MachOut eid db (prods.foldl (prodStep eid) db) ∧
        S'.map Prod.fst = (prods.foldl canonProd cst).runs ∧
        P'.map Prod.fst = (prods.foldl canonProd cst).rpds ∧
        (prods.foldl (prodStep eid) db).run.length + S.length =
          db.run.length + S'.length ∧
        (prods.foldl (prodStep eid) db).rpd.length + P.length =
          db.rpd.length + P'.length ∧
        (prods.foldl (prodStep eid) db).runDetector = db.runDetector ∧
        (prods.foldl (prodStep eid) db).detector = db.detector ∧
        (prods.foldl (prodStep eid) db).logbook = db.logbook ∧
        (prods.foldl (prodStep eid) db).detectorCache = db.detectorCache ∧
        (prods.foldl (prodStep eid) db).nextDetectorId = db.nextDetectorId := by
  intro prods
  induction prods with
  | nil =>
    intro db S P D cst hm hInv hruns hrpds
    exact ⟨S, P, hm, MachOut_refl hInv, hruns, hrpds, rfl, rfl, rfl, rfl, rfl,
      rfl, rfl⟩
  | cons rd rest ih =>
    intro db S P D cst hm hInv hruns hrpds
    obtain ⟨S1, P1, hm1, ho1, hS1, hP1, hrlen1, hplen1, hrd1, hdet1, hlog1,
      hdc1, hnd1⟩ := prodStep_spec hm hInv rd
    have hInv1 : StoreInv (prodStep eid db rd) := ho1.1
    have hlinkS : S1.map Prod.fst = (canonProd cst rd).runs := by
      rw [hS1]
      unfold canonProd
      cases hn : rd.run_number with
      | none => exact hruns
      | some n =>
        show addRunNum (S.map Prod.fst) n = addRunNum cst.runs n
        rw [hruns]
    have hlinkP : P1.map Prod.fst = (canonProd cst rd).rpds := by
      rw [hP1]
      unfold canonProd
      cases hn : rd.run_number with
      | none => exact hrpds
      | some n =>
        show addRunNum (P.map Prod.fst) n = addRunNum cst.rpds n
        rw [hrpds]
    obtain ⟨S', P', hm2, ho2, hS2, hP2, hrlen2, hplen2, hrd2, hdet2, hlog2,
      hdc2, hnd2⟩ := ih (prodStep eid db rd) S1 P1 D (canonProd cst rd) hm1
        hInv1 hlinkS hlinkP
    rw [List.foldl_cons]
    refine ⟨S', P', hm2, MachOut_trans ho1 ho2, hS2, hP2, by omega, by omega,
      hrd2.trans hrd1, hdet2.trans hdet1, hlog2.trans hlog1,
      hdc2.trans hdc1, hnd2.trans hnd1⟩

/-- The file-manager records loop. -/
theorem fmPhase_spec {eid : String} :
    ∀ (records : List FMRecord) (db : DB) (S P : List (Int × Nat))
      (D : List ((Int × String) × (Nat × Nat))) (cst : CanonState),
      MCtx eid db S P D → StoreInv db →
      S.map Prod.fst = cst.runs → P.map Prod.fst = cst.rpds →
      ∃ S' P',
        MCtx eid (records.foldl (fmStep eid) db) S' P' D ∧
        MachOut eid db (records.foldl (fmStep eid) db) ∧
        S'.map Prod.fst = (records.foldl canonFM cst).runs ∧
        P'.map Prod.fst = (records.foldl canonFM cst).rpds ∧
        (records.foldl (fmStep eid) db).run.length + S.length =
          db.run.length + S'.length ∧
        (records.foldl (fmStep eid) db).rpd.length + P.length =
          db.rpd.length + P'.length ∧
        (records.foldl (fmStep eid) db).runDetector = db.runDetector ∧
        (records.foldl (fmStep eid) db).detector = db.detector ∧
        (records.foldl (fmStep eid) db).logbook = db.logbook ∧
        (records.foldl (fmStep eid) db).detectorCache = db.detectorCache ∧
        (records.foldl (fmStep eid) db).nextDetectorId = db.nextDetectorId := by
  intro records
  induction records with
  | nil =>
    intro db S P D cst hm hInv hruns hrpds
    exact ⟨S, P, hm, MachOut_refl hInv, hruns, hrpds, rfl, rfl, rfl, rfl, rfl,
      rfl, rfl⟩
  | cons record rest ih =>
    intro db S P D cst hm hInv hruns hrpds
    obtain ⟨S1, P1, hm1, ho1, hS1, hP1, hrlen1, hplen1, hrd1, hdet1, hlog1,
      hdc1, hnd1⟩ := fmStep_spec hm hInv record
    have hInv1 : StoreInv (fmStep eid db record) := ho1.1
    have hlinkS : S1.map Prod.fst = (canonFM cst record).runs := by
      rw [hS1]
      unfold canonFM
      cases hn : record.run_number with
      | none => exact hruns
      | some n =>
        show addRunNum (S.map Prod.fst) n = addRunNum cst.runs n
        rw [hruns]
    have hlinkP : P1.map Prod.fst = (canonFM cst record).rpds := by
      rw [hP1]
      unfold canonFM
      cases hn : record.run_number with
      | none => exact hrpds
      | some n =>
        show addRunNum (P.map Prod.fst) n = addRunNum cst.rpds n
        rw [hrpds]
    obtain ⟨S', P', hm2, ho2, hS2, hP2, hrlen2, hplen2, hrd2, hdet2, hlog2,
      hdc2, hnd2⟩ := ih (fmStep eid db record) S1 P1 D (canonFM cst record)
        hm1 hInv1 hlinkS hlinkP
    rw [List.foldl_cons]
    refine ⟨S', P', hm2, MachOut_trans ho1 ho2, hS2, hP2, by omega, by omega,
      hrd2.trans hrd1, hdet2.trans hdet1, hlog2.trans hlog1,
      hdc2.trans hdc1, hnd2.trans hnd1⟩

/-- The `detectors` loop. -/
theorem detPhase_spec {eid : String} :
    ∀ (dets : List DetectorEntry) (db : DB) (S P : List (Int × Nat))
      (D : List ((Int × String) × (Nat × Nat))) (cst : CanonState),
      MCtx eid db S P D → StoreInv db →
      S.map Prod.fst = cst.runs → D.map Prod.fst = cst.rds →
      ∃ S' D',
        MCtx eid (dets.foldl (detStep eid) db) S' P D' ∧
        MachOut eid db (dets.foldl (detStep eid) db) ∧
        S'.map Prod.fst = (dets.foldl canonDet cst).runs ∧
        D'.map Prod.fst = (dets.foldl canonDet cst).rds ∧
        (dets.foldl (detStep eid) db).run.length + S.length =
          db.run.length + S'.length ∧
        (dets.foldl (detStep eid) db).runDetector.length + D.length =
          db.runDetector.length + D'.length ∧
        (dets.foldl (detStep eid) db).rpd = db.rpd ∧
        (dets.foldl (detStep eid) db).logbook = db.logbook ∧
        ((∀ det ∈ dets, ∀ k ∈ detKeysOf det, detReady db k) →
          (dets.foldl (detStep eid) db).detector = db.detector) ∧
        (∀ det ∈ dets, ∀ k ∈ detKeysOf det,
          detReady (dets.foldl (detStep eid) db) k) := by
  intro dets
  induction dets with
  | nil =>
    intro db S P D cst hm hInv hruns hrds
    refine ⟨S, D, hm, MachOut_refl hInv, hruns, hrds, rfl, rfl, rfl, rfl,
      fun _ => rfl, ?_⟩
    intro det hdet
    simp at hdet
  | cons det rest ih =>
    intro db S P D cst hm hInv hruns hrds
    obtain ⟨S1, D1, hm1, ho1, hS1, hD1, hrlen1, hdlen1, hrpd1, hlog1, hcond1,
      hafter1⟩ := detStep_spec hm hInv cst hruns hrds det
    have hInv1 : StoreInv (detStep eid db det) := ho1.1
    obtain ⟨S', D', hm2, ho2, hS2, hD2, hrlen2, hdlen2, hrpd2, hlog2, hcond2,
      hafter2⟩ := ih (detStep eid db det) S1 P D1 (canonDet cst det) hm1 hInv1
        hS1 hD1
    rw [List.foldl_cons]
    refine ⟨S', D', hm2, MachOut_trans ho1 ho2, hS2, hD2, by omega, by omega,
      hrpd2.trans hrpd1, hlog2.trans hlog1, ?_, ?_⟩
    · intro hready
      have hready1 : ∀ d ∈ rest, ∀ k ∈ detKeysOf d,
          detReady (detStep eid db det) k := by
        intro d hd k hk
        exact ho1.2.2.2.2.2.2.2.2.2 k (hready d (by simp [hd]) k hk)
      exact (hcond2 hready1).trans (hcond1 (hready det (by simp)))
    · intro d hd k hk
      rcases List.mem_cons.mp hd with hdd | hdd
      · rw [hdd] at hk
        exact ho2.2.2.2.2.2.2.2.2.2 k (hafter1 k hk)
      · exact hafter2 d hdd k hk

/-- `_insert_experiment_no_commit` into a store holding no row of the
experiment: a plain append. -/
theorem insertExperimentNC_spec {eid : String} {db : DB}
    (hclean : ∀ e ∈ db.experiment, e.experiment_id ≠ eid)
    {info : ExperimentRow} (hinfo : info.experiment_id = eid) :
    (insertExperimentNC db info).experiment = db.experiment ++ [info] ∧
    (insertExperimentNC db info).questionnaire = db.questionnaire ∧
    (insertExperimentNC db info).workflow = db.workflow ∧
    (insertExperimentNC db info).run = db.run ∧
    (insertExperimentNC db info).rpd = db.rpd ∧
    (insertExperimentNC db info).detector = db.detector ∧
    (insertExperimentNC db info).runDetector = db.runDetector ∧
    (insertExperimentNC db info).logbook = db.logbook ∧
    (insertExperimentNC db info).nextRunId = db.nextRunId ∧
    (insertExperimentNC db info).nextDetectorId = db.nextDetectorId ∧
    (insertExperimentNC db info).runIdCache = db.runIdCache ∧
    (insertExperimentNC db info).detectorCache = db.detectorCache := by
  have hfix : db.experiment.filter
      (fun r => r.experiment_id ≠ info.experiment_id) = db.experiment := by
    apply List.filter_eq_self.mpr
    intro r hr
    simp [hinfo, hclean r hr]
  unfold insertExperimentNC
  rw [hfix]
  exact ⟨rfl, rfl, rfl, rfl, rfl, rfl, rfl, rfl, rfl, rfl, rfl, rfl⟩

theorem qReplaceInsert_split (A B : List QRow) (row : QRow)
    (hA : ∀ r ∈ A, r.experiment_id ≠ row.experiment_id) :
    qReplaceInsert (A ++ B) row = A ++ qReplaceInsert B row := by
  unfold qReplaceInsert
  cases hf : row.field_id with
  | none =>
    dsimp only
    rw [List.append_assoc]
  | some fid =>
    dsimp only
    rw [List.filter_append]
    have hAfix : A.filter (fun r => ¬ (r.experiment_id = row.experiment_id ∧
        r.field_id = some fid)) = A := by
      apply List.filter_eq_self.mpr
      intro r hr
      simp only [decide_eq_true_eq]
      intro hc
      exact hA r hr hc.1
    rw [hAfix, List.append_assoc]

theorem qReplaceInsert_all {B : List QRow} {row : QRow} {eid : String}
    (hB : ∀ r ∈ B, r.experiment_id = eid) (hrow : row.experiment_id = eid) :
    ∀ r ∈ qReplaceInsert B row, r.experiment_id = eid := by
  intro r hr
  unfold qReplaceInsert at hr
  cases hf : row.field_id with
  | none =>
    rw [hf] at hr
    rcases List.mem_append.mp hr with h1 | h2
    · exact hB r h1
    · have : r = row := by simpa using h2
      rw [this]
      exact hrow
  | some fid =>
    rw [hf] at hr
    rcases List.mem_append.mp hr with h1 | h2
    · exact hB r (List.mem_of_mem_filter h1)
    · have : r = row := by simpa using h2
      rw [this]
      exact hrow

theorem qfold_split (q : QuestionnaireData) :
    ∀ (fields : List QField) (A B : List QRow),
      (∀ r ∈ A, r.experiment_id ≠ q.experiment_id) →
      (∀ r ∈ B, r.experiment_id = q.experiment_id) →
      fields.foldl
        (fun rows f =>
          qReplaceInsert rows
            ⟨q.experiment_id, q.proposal_number, f.category, f.field_id,
              f.field_name, f.field_value, f.modified_time, f.modified_uid⟩)
        (A ++ B) =
      A ++ fields.foldl
        (fun rows f =>
          qReplaceInsert rows
            ⟨q.experiment_id, q.proposal_number, f.category, f.field_id,
              f.field_name, f.field_value, f.modified_time, f.modified_uid⟩)
        B := by
  intro fields
  induction fields with
  | nil =>
    intro A B hA hB
    rfl
  | cons f rest ih =>
    intro A B hA hB
    rw [List.foldl_cons, List.foldl_cons]
    rw [qReplaceInsert_split A B _ (fun r hr => hA r hr)]
    exact ih A _ hA
      (qReplaceInsert_all hB rfl)

theorem qRowsCanon_all (q : QuestionnaireData) :
    ∀ r ∈ qRowsCanon q, r.experiment_id = q.experiment_id := by
  unfold qRowsCanon
  generalize hB : ([] : List QRow) = B
  have hBall : ∀ r ∈ B, r.experiment_id = q.experiment_id := by
    rw [← hB]
    intro r hr
    simp at hr
  clear hB
  induction q.fields generalizing B with
  | nil => exact hBall
  | cons f rest ih =>
    rw [List.foldl_cons]
    exact ih _ (qReplaceInsert_all hBall rfl)

/-- `_insert_questionnaire_no_commit` into a store holding no row of
the experiment: the canonical rows are appended. -/
theorem insertQuestionnaireNC_spec {eid : String} {db : DB}
    (hclean : ∀ r ∈ db.questionnaire, r.experiment_id ≠ eid)
    {q : QuestionnaireData} (hq : q.experiment_id = eid) :
    (insertQuestionnaireNC db q).questionnaire =
      db.questionnaire ++ qRowsCanon q ∧
    (insertQuestionnaireNC db q).experiment = db.experiment ∧
    (insertQuestionnaireNC db q).workflow = db.workflow ∧
    (insertQuestionnaireNC db q).run = db.run ∧
    (insertQuestionnaireNC db q).rpd = db.rpd ∧
    (insertQuestionnaireNC db q).detector = db.detector ∧
    (insertQuestionnaireNC db q).runDetector = db.runDetector ∧
    (insertQuestionnaireNC db q).logbook = db.logbook ∧
    (insertQuestionnaireNC db q).nextRunId = db.nextRunId ∧
    (insertQuestionnaireNC db q).nextDetectorId = db.nextDetectorId ∧
    (insertQuestionnaireNC db q).runIdCache = db.runIdCache ∧
    (insertQuestionnaireNC db q).detectorCache = db.detectorCache := by
  have hfix : db.questionnaire.filter
      (fun r => r.experiment_id ≠ q.experiment_id) = db.questionnaire := by
    apply List.filter_eq_self.mpr
    intro r hr
    simp [hq, hclean r hr]
  have hmain : (insertQuestionnaireNC db q).questionnaire =
      db.questionnaire ++ qRowsCanon q := by
    unfold insertQuestionnaireNC
    simp only
    rw [hfix]
    have hsplit := qfold_split q q.fields db.questionnaire []
      (fun r hr => by
        rw [hq]
        exact hclean r hr)
      (fun r hr => by simp at hr)
    rw [List.append_nil] at hsplit
    exact hsplit
  exact ⟨hmain, rfl, rfl, rfl, rfl, rfl, rfl, rfl, rfl, rfl, rfl, rfl⟩

/-- `_insert_workflow_no_commit` into a store holding no row of the
experiment: the mapped rows are appended. -/
theorem insertWorkflowNC_spec {eid : String} {db : DB}
    (hclean : ∀ r ∈ db.workflow, r.experiment_id ≠ eid)
    {w : WorkflowData} (hw : w.experiment_id = eid) :
    (insertWorkflowNC db w).workflow =
      db.workflow ++ w.workflows.map
        (fun wf =>
          (⟨w.experiment_id, wf.mongo_id, wf.name, wf.executable, wf.trigger,
            wf.location, wf.parameters, wf.run_param_name, wf.run_param_value,
            wf.run_as_user⟩ : WRow)) ∧
    (insertWorkflowNC db w).experiment = db.experiment ∧
    (insertWorkflowNC db w).questionnaire = db.questionnaire ∧
    (insertWorkflowNC db w).run = db.run ∧
    (insertWorkflowNC db w).rpd = db.rpd ∧
    (insertWorkflowNC db w).detector = db.detector ∧
    (insertWorkflowNC db w).runDetector = db.runDetector ∧
    (insertWorkflowNC db w).logbook = db.logbook ∧
    (insertWorkflowNC db w).nextRunId = db.nextRunId ∧
    (insertWorkflowNC db w).nextDetectorId = db.nextDetectorId ∧
    (insertWorkflowNC db w).runIdCache = db.runIdCache ∧
    (insertWorkflowNC db w).detectorCache = db.detectorCache := by
  have hfix : db.workflow.filter
      (fun r => r.experiment_id ≠ w.experiment_id) = db.workflow := by
    apply List.filter_eq_self.mpr
    intro r hr
    simp [hw, hclean r hr]
  unfold insertWorkflowNC
  simp only
  rw [hfix]
  refine ⟨?_, ?_, ?_, ?_, ?_, ?_, ?_, ?_, ?_, ?_, ?_, ?_⟩ <;> trivial

theorem canonLog_fold_rpds :
    ∀ (entries : List TransformedEntry) (cst : CanonState),
      (entries.foldl canonLog cst).rpds = cst.rpds := by
  intro entries
  induction entries with
  | nil => intro cst; rfl
  | cons e rest ih =>
    intro cst
    rw [List.foldl_cons, ih, canonLog_rpds]

theorem canonLog_fold_rds :
    ∀ (entries : List TransformedEntry) (cst : CanonState),
      (entries.foldl canonLog cst).rds = cst.rds := by
  intro entries
  induction entries with
  | nil => intro cst; rfl
  | cons e rest ih =>
    intro cst
    rw [List.foldl_cons, ih, canonLog_rds]

theorem canonProd_fold_rds :
    ∀ (prods : List RunProdEntry) (cst : CanonState),
      (prods.foldl canonProd cst).rds = cst.rds := by
  intro prods
  induction prods with
  | nil => intro cst; rfl
  | cons rd rest ih =>
    intro cst
    rw [List.foldl_cons, ih, canonProd_rds]

theorem canonFM_fold_rds :
    ∀ (records : List FMRecord) (cst : CanonState),
      (records.foldl canonFM cst).rds = cst.rds := by
  intro records
  induction records with
  | nil => intro cst; rfl
  | cons record rest ih =>
    intro cst
    rw [List.foldl_cons, ih, canonFM_rds]

theorem canonDet_fold_rpds2 :
    ∀ (dets : List DetectorEntry) (cst : CanonState),
      (dets.foldl canonDet cst).rpds = cst.rpds := by
  intro dets
  induction dets with
  | nil => intro cst; rfl
  | cons det rest ih =>
    intro cst
    rw [List.foldl_cons, ih, canonDet_rpds]

/-- `_insert_logbook_no_commit` into a store holding no logbook row of
the experiment. -/
theorem insertLogbookNC_spec {eid : String} {db : DB}
    {S P : List (Int × Nat)} {D : List ((Int × String) × (Nat × Nat))}
    (hm : MCtx eid db S P D) (hInv : StoreInv db)
    (entries : List TransformedEntry)
    (hall : ∀ e ∈ entries, e.experiment_id = eid)
    (hclean : ∀ l ∈ db.logbook, l.experiment_id ≠ eid)
    (cst : CanonState) (hcanon : S.map Prod.fst = cst.runs) :
    ∃ S',
      MCtx eid (insertLogbookNC db entries) S' P D ∧
      MachOut eid db (insertLogbookNC db entries) ∧
      S'.map Prod.fst = (entries.foldl canonLog cst).runs ∧
      (insertLogbookNC db entries).run.length + S.length =
        db.run.length + S'.length ∧
      (insertLogbookNC db entries).rpd = db.rpd ∧
      (insertLogbookNC db entries).runDetector = db.runDetector ∧
      (insertLogbookNC db entries).detector = db.detector ∧
      (insertLogbookNC db entries).logbook.length =
        db.logbook.length + entries.length ∧
      (eidLog (insertLogbookNC db entries) eid).length = entries.length := by
  have heidnil : eidLog db eid = [] := by
    unfold eidLog
    rw [List.filter_eq_nil]
    intro l hl
    simp [hclean l hl]
  cases entries with
  | nil =>
    have he : insertLogbookNC db [] = db := rfl
    rw [he]
    exact ⟨S, hm, MachOut_refl hInv, hcanon, rfl, rfl, rfl, rfl, rfl,
      by rw [heidnil]; rfl⟩
  | cons first rest =>
    have hfe : first.experiment_id = eid := hall first (by simp)
    have hfix : db.logbook.filter
        (fun r => r.experiment_id ≠ first.experiment_id) = db.logbook := by
      apply List.filter_eq_self.mpr
      intro r hr
      simp [hfe, hclean r hr]
    have he : insertLogbookNC db (first :: rest) =
        (first :: rest).foldl logStep db := by
      unfold insertLogbookNC
      dsimp only
      rw [hfix]
    rw [he]
    obtain ⟨S', hm2, ho2, hcanon2, hlen2, hrpd2, hrd2, hdet2, hloglen2,
      heid2⟩ := logPhase_spec (first :: rest) db S P D cst hm hInv hall hcanon
    rw [heidnil] at heid2
    exact ⟨S', hm2, ho2, hcanon2, hlen2, hrpd2, hrd2, hdet2, hloglen2,
      by rw [heid2]; simp⟩

/-- `_insert_runtable_no_commit`. -/
theorem insertRuntableNC_spec {eid : String} {db : DB}
    {S P : List (Int × Nat)} {D : List ((Int × String) × (Nat × Nat))}
    (hm : MCtx eid db S P D) (hInv : StoreInv db) {rt : RuntableData}
    (hrt : rt.experiment_id = eid) (cst : CanonState)
    (hruns : S.map Prod.fst = cst.runs) (hrpds : P.map Prod.fst = cst.rpds)
    (hrds : D.map Prod.fst = cst.rds) :
    ∃ S' P' D',
      MCtx eid (insertRuntableNC db rt) S' P' D' ∧
      MachOut eid db (insertRuntableNC db rt) ∧
      S'.map Prod.fst =
        (rt.detectors.foldl canonDet
          (rt.data_production.foldl canonProd cst)).runs ∧
      P'.map Prod.fst =
        (rt.detectors.foldl canonDet
          (rt.data_production.foldl canonProd cst)).rpds ∧
      D'.map Prod.fst =
        (rt.detectors.foldl canonDet
          (rt.data_production.foldl canonProd cst)).rds ∧
      (insertRuntableNC db rt).run.length + S.length =
        db.run.length + S'.length ∧
      (insertRuntableNC db rt).rpd.length + P.length =
        db.rpd.length + P'.length ∧
      (insertRuntableNC db rt).runDetector.length + D.length =
        db.runDetector.length + D'.length ∧
      (insertRuntableNC db rt).logbook = db.logbook ∧
      ((∀ det ∈ rt.detectors, ∀ k ∈ detKeysOf det, detReady db k) →
        (insertRuntableNC db rt).detector = db.detector) ∧
      (∀ det ∈ rt.detectors, ∀ k ∈ detKeysOf det,
        detReady (insertRuntableNC db rt) k) := by
  have he : insertRuntableNC db rt =
      rt.detectors.foldl (detStep eid)
        (rt.data_production.foldl (prodStep eid) db) := by
    unfold insertRuntableNC
    rw [hrt]
  rw [he]
  obtain ⟨S1, P1, hm1, ho1, hS1, hP1, hrlen1, hplen1, hrd1, hdet1, hlog1,
    hdc1, hnd1⟩ := prodPhase_spec rt.data_production db S P D cst hm hInv
      hruns hrpds
  have hInv1 : StoreInv (rt.data_production.foldl (prodStep eid) db) := ho1.1
  have hrds1 : D.map Prod.fst =
      (rt.data_production.foldl canonProd cst).rds := by
    rw [canonProd_fold_rds]
    exact hrds
  obtain ⟨S', D', hm2, ho2, hS2, hD2, hrlen2, hdlen2, hrpd2, hlog2, hcond2,
    hafter2⟩ := detPhase_spec rt.detectors
      (rt.data_production.foldl (prodStep eid) db) S1 P1 D
      (rt.data_production.foldl canonProd cst) hm1 hInv1 hS1 hrds1
  refine ⟨S', P1, D', hm2, MachOut_trans ho1 ho2, hS2, ?_, hD2, by omega,
    ?_, ?_, hlog2.trans hlog1, ?_, ?_⟩
  · rw [canonDet_fold_rpds2]
    exact hP1
  · have h9 := congrArg List.length hrpd2
    omega
  · have h9 := congrArg List.length hrd1
    omega
  · intro hready
    have hready1 : ∀ det ∈ rt.detectors, ∀ k ∈ detKeysOf det,
        detReady (rt.data_production.foldl (prodStep eid) db) k := by
      intro det hdet k hk
      unfold detReady at hready ⊢
      rw [hdet1]
      exact hready det hdet k hk
    exact (hcond2 hready1).trans hdet1
  · exact hafter2

/-- `_insert_file_manager_no_commit`. -/
theorem insertFileManagerNC_spec {eid : String} {db : DB}
    {S P : List (Int × Nat)} {D : List ((Int × String) × (Nat × Nat))}
    (hm : MCtx eid db S P D) (hInv : StoreInv db) {fm : FileManagerData}
    (hfm : fm.experiment_id = eid) (cst : CanonState)
    (hruns : S.map Prod.fst = cst.runs) (hrpds : P.map Prod.fst = cst.rpds) :
    ∃ S' P',
      MCtx eid (insertFileManagerNC db fm) S' P' D ∧
      MachOut eid db (insertFileManagerNC db fm) ∧
      S'.map Prod.fst = (fm.file_manager_records.foldl canonFM cst).runs ∧
      P'.map Prod.fst = (fm.file_manager_records.foldl canonFM cst).rpds ∧
      (insertFileManagerNC db fm).run.length + S.length =
        db.run.length + S'.length ∧
      (insertFileManagerNC db fm).rpd.length + P.length =
        db.rpd.length + P'.length ∧
      (insertFileManagerNC db fm).runDetector = db.runDetector ∧
      (insertFileManagerNC db fm).detector = db.detector ∧
      (insertFileManagerNC db fm).logbook = db.logbook := by
  have he : insertFileManagerNC db fm =
      fm.file_manager_records.foldl (fmStep eid) db := by
    unfold insertFileManagerNC
    rw [hfm]
  rw [he]
  obtain ⟨S', P', hm1, ho1, hS1, hP1, hrlen1, hplen1, hrd1, hdet1, hlog1,
    hdc1, hnd1⟩ := fmPhase_spec fm.file_manager_records db S P D cst hm hInv
      hruns hrpds
  exact ⟨S', P', hm1, ho1, hS1, hP1, hrlen1, hplen1, hrd1, hdet1, hlog1⟩

/-! Stage views of `insert_experiment_batch`, one per guarded facet
insert, in source order. -/

def batch1 (db : DB) (rec : CompositeRecord) : DB :=
  match rec.info with
  | some info => insertExperimentNC db info
  | none => db

def batch2 (db : DB) (rec : CompositeRecord) : DB :=
  match rec.logbook with
  | [] => batch1 db rec
  | entries => insertLogbookNC (batch1 db rec) entries

def batch3 (db : DB) (rec : CompositeRecord) : DB :=
  match rec.runtable with
  | some rt => insertRuntableNC (batch2 db rec) rt
  | none => batch2 db rec

def batch4 (db : DB) (rec : CompositeRecord) : DB :=
  match rec.file_manager with
  | some fm => insertFileManagerNC (batch3 db rec) fm
  | none => batch3 db rec

def batch5 (db : DB) (rec : CompositeRecord) : DB :=
  match rec.questionnaire with
  | some q => insertQuestionnaireNC (batch4 db rec) q
  | none => batch4 db rec

def batch6 (db : DB) (rec : CompositeRecord) : DB :=
  match rec.workflow with
  | some w => insertWorkflowNC (batch5 db rec) w
  | none => batch5 db rec

theorem insertExperimentBatch_eq (db : DB) (rec : CompositeRecord) :
    insertExperimentBatch db rec = batch6 db rec := rfl

/-- The `Experiment` rows a record inserts. -/
def expRows (rec : CompositeRecord) : List ExperimentRow :=
  match rec.info with
  | some info => [info]
  | none => []

theorem expRows_length (rec : CompositeRecord) :
    (expRows rec).length = expCnt rec := by
  unfold expRows expCnt
  cases rec.info <;> rfl

theorem batch2_eq (db : DB) (rec : CompositeRecord) :
    batch2 db rec = insertLogbookNC (batch1 db rec) rec.logbook := by
  unfold batch2
  cases hl : rec.logbook with
  | nil => rfl
  | cons a l => rfl

/-- A cleared experiment yields the empty simulation context. -/
theorem MCtx_init {eid : String} {db : DB} (hclean : EidCleared db eid) :
    MCtx eid db [] [] [] := by
  obtain ⟨hce, hcq, hcw, hcl, hcr, hcc⟩ := hclean
  refine ⟨?_, ?_, List.Pairwise.nil, List.Pairwise.nil, ?_, ?_, ?_, ?_, ?_⟩
  · unfold eidRuns
    rw [List.filter_eq_nil_iff.mpr ?_]
    · rfl
    · intro r hr
      simp [hcr r hr]
  · rw [List.filter_eq_nil_iff.mpr ?_]
    · rfl
    · intro p hp
      simp [hcc p hp]
  · intro p hp
    simp at hp
  · rw [List.filter_eq_nil_iff.mpr ?_]
    · rfl
    · intro p hp
      simp
  · intro p hp
    simp at hp
  · rw [List.filter_eq_nil_iff.mpr ?_]
    · rfl
    · intro d hd
      simp
  · intro x hx
    simp at hx

/-- The `Questionnaire` rows a record inserts. -/
def qRowsOf (rec : CompositeRecord) : List QRow :=
  match rec.questionnaire with
  | some q => qRowsCanon q
  | none => []

theorem qRowsOf_length (rec : CompositeRecord) :
    (qRowsOf rec).length = qCnt rec := by
  unfold qRowsOf qCnt
  cases rec.questionnaire <;> rfl

/-- The `Workflow` rows a record inserts. -/
def wRowsOf (rec : CompositeRecord) : List WRow :=
  match rec.workflow with
  | some w =>
    w.workflows.map
      (fun wf =>
        (⟨w.experiment_id, wf.mongo_id, wf.name, wf.executable, wf.trigger,
          wf.location, wf.parameters, wf.run_param_name, wf.run_param_value,
          wf.run_as_user⟩ : WRow))
  | none => []

theorem wRowsOf_length (rec : CompositeRecord) :
    (wRowsOf rec).length = wCnt rec := by
  unfold wRowsOf wCnt
  cases rec.workflow with
  | none => rfl
  | some w => simp

theorem OtherPreserved_append3 {eid : String} {db db' : DB}
    {A : List ExperimentRow} {B : List QRow} {C : List WRow}
    (hexp : db'.experiment = db.experiment ++ A)
    (hA : ∀ r ∈ A, r.experiment_id = eid)
    (hq : db'.questionnaire = db.questionnaire ++ B)
    (hB : ∀ r ∈ B, r.experiment_id = eid)
    (hw : db'.workflow = db.workflow ++ C)
    (hC : ∀ r ∈ C, r.experiment_id = eid)
    (hlog : db'.logbook = db.logbook) (hrun : db'.run = db.run)
    (hrpd : db'.rpd = db.rpd) (hrd : db'.runDetector = db.runDetector) :
    OtherPreserved eid db db' := by
  have hids : ∀ e, runIdsOf db' e = runIdsOf db e := fun e => by
    unfold runIdsOf
    rw [hrun]
  refine ⟨?_, ?_, ?_, ?_, ?_, ?_, ?_⟩ <;> intro e he
  · unfold eidExp
    have hnil : (A.filter (fun r => decide (r.experiment_id = e))) = [] := by
      rw [List.filter_eq_nil_iff]
      intro r hr
      simp [hA r hr, Ne.symm he]
    rw [hexp, List.filter_append, hnil]
    simp
  · unfold eidQ
    have hnil : (B.filter (fun r => decide (r.experiment_id = e))) = [] := by
      rw [List.filter_eq_nil_iff]
      intro r hr
      simp [hB r hr, Ne.symm he]
    rw [hq, List.filter_append, hnil]
    simp
  · unfold eidW
    have hnil : (C.filter (fun r => decide (r.experiment_id = e))) = [] := by
      rw [List.filter_eq_nil_iff]
      intro r hr
      simp [hC r hr, Ne.symm he]
    rw [hw, List.filter_append, hnil]
    simp
  · unfold eidLog
    rw [hlog]
  · unfold eidRuns
    rw [hrun]
  · unfold eidRPD
    rw [hrpd, hids]
  · unfold eidRD
    rw [hrd, hids]

/-- The experiment's per-table views after its record is inserted into
a cleared store: the canonical counts of the record. -/
def ViewCounts (db : DB) (rec : CompositeRecord) : Prop :=
  (eidExp db rec.experiment_id).length = expCnt rec ∧
  (eidQ db rec.experiment_id).length = qCnt rec ∧
  (eidW db rec.experiment_id).length = wCnt rec ∧
  (eidLog db rec.experiment_id).length = rec.logbook.length ∧
  (eidRuns db rec.experiment_id).length = (canonOfRec rec).runs.length ∧
  (eidRPD db rec.experiment_id).length = (canonOfRec rec).rpds.length ∧
  (eidRD db rec.experiment_id).length = (canonOfRec rec).rds.length

/-- Every detector name of the record's run-table facet has a
`Detector` row. -/
def DetReadyFor (db : DB) (rec : CompositeRecord) : Prop :=
  ∀ k ∈ detNamesOf rec, detReady db k

theorem expRows_ids {rec : CompositeRecord} (hfm : FacetIdsMatch rec) :
    ∀ r ∈ expRows rec, r.experiment_id = rec.experiment_id := by
  obtain ⟨hfi, -, -, -, -, -⟩ := hfm
  unfold expRows
  cases hi : rec.info with
  | none =>
    intro r hr
    simp at hr
  | some info =>
    rw [hi] at hfi
    intro r hr
    have hre : r = info := by simpa using hr
    rw [hre]
    exact hfi

theorem qRowsOf_ids {rec : CompositeRecord} (hfm : FacetIdsMatch rec) :
    ∀ r ∈ qRowsOf rec, r.experiment_id = rec.experiment_id := by
  obtain ⟨-, -, -, -, hfq, -⟩ := hfm
  unfold qRowsOf
  cases hq : rec.questionnaire with
  | none =>
    intro r hr
    simp at hr
  | some q =>
    rw [hq] at hfq
    intro r hr
    rw [qRowsCanon_all q r hr]
    exact hfq

theorem wRowsOf_ids {rec : CompositeRecord} (hfm : FacetIdsMatch rec) :
    ∀ r ∈ wRowsOf rec, r.experiment_id = rec.experiment_id := by
  obtain ⟨-, -, -, -, -, hfw⟩ := hfm
  unfold wRowsOf
  cases hw : rec.workflow with
  | none =>
    intro r hr
    simp at hr
  | some w =>
    rw [hw] at hfw
    intro r hr
    obtain ⟨wf, hwf, hre⟩ := List.mem_map.mp hr
    rw [← hre]
    exact hfw

theorem mem_detNames {rec : CompositeRecord} {rt : RuntableData}
    (h : rec.runtable = some rt) (k : String) :
    k ∈ detNamesOf rec ↔ ∃ det ∈ rt.detectors, k ∈ detKeysOf det := by
  unfold detNamesOf
  rw [h]
  rw [mem_foldl_append]
  simp

/-- A record's view counts transfer along any frame that preserves the
other experiments' views. -/
theorem ViewCounts_of_other {eid : String} {db db' : DB}
    (hop : OtherPreserved eid db db') {rec : CompositeRecord}
    (hne : rec.experiment_id ≠ eid) (h : ViewCounts db rec) :
    ViewCounts db' rec := by
  obtain ⟨h1, h2, h3, h4, h5, h6, h7⟩ := h
  exact ⟨by rw [hop.1 _ hne]; exact h1,
    by rw [hop.2.1 _ hne]; exact h2,
    by rw [hop.2.2.1 _ hne]; exact h3,
    by rw [hop.2.2.2.1 _ hne]; exact h4,
    by rw [hop.2.2.2.2.1 _ hne]; exact h5,
    by rw [hop.2.2.2.2.2.1 _ hne]; exact h6,
    by rw [hop.2.2.2.2.2.2 _ hne]; exact h7⟩

theorem DetReadyFor_mono {db db' : DB}
    (hmono : ∀ nm, detReady db nm → detReady db' nm)
    {rec : CompositeRecord} (h : DetReadyFor db rec) :
    DetReadyFor db' rec := fun k hk => hmono k (h k hk)

/-- Stage 1 of the batch insert: the optional `Experiment` row. -/
theorem batch1_spec {db : DB} {rec : CompositeRecord}
    (hclean : ∀ e ∈ db.experiment, e.experiment_id ≠ rec.experiment_id)
    (hfm : FacetIdsMatch rec) :
    (batch1 db rec).experiment = db.experiment ++ expRows rec ∧
    (batch1 db rec).questionnaire = db.questionnaire ∧
    (batch1 db rec).workflow = db.workflow ∧
    (batch1 db rec).run = db.run ∧
    (batch1 db rec).rpd = db.rpd ∧
    (batch1 db rec).detector = db.detector ∧
    (batch1 db rec).runDetector = db.runDetector ∧
    (batch1 db rec).logbook = db.logbook ∧
    (batch1 db rec).nextRunId = db.nextRunId ∧
    (batch1 db rec).nextDetectorId = db.nextDetectorId ∧
    (batch1 db rec).runIdCache = db.runIdCache ∧
    (batch1 db rec).detectorCache = db.detectorCache := by
  obtain ⟨hfi, -, -, -, -, -⟩ := hfm
  unfold batch1 expRows
  cases hi : rec.info with
  | none =>
    exact ⟨by simp, rfl, rfl, rfl, rfl, rfl, rfl, rfl, rfl, rfl, rfl, rfl⟩
  | some info =>
    rw [hi] at hfi
    exact insertExperimentNC_spec hclean hfi

/-- The canonical tracker after the logbook and run-table phases. -/
def canonMid (rec : CompositeRecord) : CanonState :=
  match rec.runtable with
  | none => rec.logbook.foldl canonLog ⟨[], [], []⟩
  | some rt =>
    rt.detectors.foldl canonDet
      (rt.data_production.foldl canonProd
        (rec.logbook.foldl canonLog ⟨[], [], []⟩))

theorem canonOfRec_eq (rec : CompositeRecord) :
    canonOfRec rec =
      (match rec.file_manager with
        | none => canonMid rec
        | some fm => fm.file_manager_records.foldl canonFM (canonMid rec)) := by
  unfold canonOfRec canonMid
  rfl

/-- `insert_experiment_batch` of a facet-consistent composite record
into a store cleared of its experiment: the store invariant and every
other experiment's views survive, the experiment's views and each
table's growth equal the record's canonical counts, and the
`Detector` table only grows — not at all when every detector name is
already backed by a row. -/
theorem insertBatch_spec {db : DB} {rec : CompositeRecord}
    (hInv : StoreInv db) (hclean : EidCleared db rec.experiment_id)
    (hfm : FacetIdsMatch rec) :
    StoreInv (insertExperimentBatch db rec) ∧
    OtherPreserved rec.experiment_id db (insertExperimentBatch db rec) ∧
    ViewCounts (insertExperimentBatch db rec) rec ∧
    (insertExperimentBatch db rec).experiment.length =
      db.experiment.length + expCnt rec ∧
    (insertExperimentBatch db rec).questionnaire.length =
      db.questionnaire.length + qCnt rec ∧
    (insertExperimentBatch db rec).workflow.length =
      db.workflow.length + wCnt rec ∧
    (insertExperimentBatch db rec).logbook.length =
      db.logbook.length + rec.logbook.length ∧
    (insertExperimentBatch db rec).run.length =
      db.run.length + (canonOfRec rec).runs.length ∧
    (insertExperimentBatch db rec).rpd.length =
      db.rpd.length + (canonOfRec rec).rpds.length ∧
    (insertExperimentBatch db rec).runDetector.length =
      db.runDetector.length + (canonOfRec rec).rds.length ∧
    (∃ t, (insertExperimentBatch db rec).detector = db.detector ++ t) ∧
    (DetReadyFor db rec →
      (insertExperimentBatch db rec).detector = db.detector) ∧
    DetReadyFor (insertExperimentBatch db rec) rec ∧
    (∀ nm, detReady db nm → detReady (insertExperimentBatch db rec) nm) := by
  obtain ⟨hce, hcq, hcw, hcl, hcr, hcc⟩ := hclean
  have hfm2 := hfm
  obtain ⟨-, hfl, hfr, hff, hfq, hfw⟩ := hfm2
  rw [insertExperimentBatch_eq]
  obtain ⟨h1exp, h1q, h1w, h1run, h1rpd, h1det, h1rd, h1log, h1nr, h1nd,
    h1rc, h1dc⟩ := batch1_spec hce hfm
  have hm0 : MCtx rec.experiment_id db [] [] [] :=
    MCtx_init ⟨hce, hcq, hcw, hcl, hcr, hcc⟩
  have hm1 : MCtx rec.experiment_id (batch1 db rec) [] [] [] :=
    MCtx_of_fields hm0 h1run h1rc h1rpd h1rd h1nr
      (fun k v hv => by rw [h1dc]; exact hv)
  have hInv1 : StoreInv (batch1 db rec) :=
    StoreInv_of_fields hInv h1run h1rpd h1rd h1det h1nr h1nd h1dc
  have hcleanlog : ∀ l ∈ (batch1 db rec).logbook,
      l.experiment_id ≠ rec.experiment_id := by
    rw [h1log]
    exact hcl
  obtain ⟨S1, hm2, ho2, hcanon2, hrunlen2, hrpd2, hrd2, hdet2, hloglen2,
    heid2⟩ := insertLogbookNC_spec hm1 hInv1 rec.logbook hfl hcleanlog
      ⟨[], [], []⟩ rfl
  rw [← batch2_eq db rec] at hm2 ho2 hrunlen2 hrpd2 hrd2 hdet2 hloglen2 heid2
  obtain ⟨hInv2', hop2, he2, hq2, hw2, hdx2, -, -, hcm2, hrm2⟩ := ho2
  have hstage3 : ∃ S2 P2 D2,
      MCtx rec.experiment_id (batch3 db rec) S2 P2 D2 ∧
      MachOut rec.experiment_id (batch2 db rec) (batch3 db rec) ∧
      S2.map Prod.fst = (canonMid rec).runs ∧
      P2.map Prod.fst = (canonMid rec).rpds ∧
      D2.map Prod.fst = (canonMid rec).rds ∧
      (batch3 db rec).run.length + S1.length =
        (batch2 db rec).run.length + S2.length ∧
      (batch3 db rec).rpd.length =
        (batch2 db rec).rpd.length + P2.length ∧
      (batch3 db rec).runDetector.length =
        (batch2 db rec).runDetector.length + D2.length ∧
      (batch3 db rec).logbook = (batch2 db rec).logbook ∧
      ((∀ k ∈ detNamesOf rec, detReady (batch2 db rec) k) →
        (batch3 db rec).detector = (batch2 db rec).detector) ∧
      (∀ k ∈ detNamesOf rec, detReady (batch3 db rec) k) := by
    cases hr3 : rec.runtable with
    | none =>
      have hb3 : batch3 db rec = batch2 db rec := by
        unfold batch3
        rw [hr3]
      have hcm9 : canonMid rec = rec.logbook.foldl canonLog ⟨[], [], []⟩ := by
        unfold canonMid
        rw [hr3]
      have hdn : detNamesOf rec = [] := by
        unfold detNamesOf
        rw [hr3]
      rw [hb3, hcm9, hdn]
      refine ⟨S1, [], [], hm2, MachOut_refl hInv2', hcanon2,
        by simp [canonLog_fold_rpds], by simp [canonLog_fold_rds], rfl,
        by simp, by simp, rfl, fun h => rfl, ?_⟩
      intro k hk
      simp at hk
    | some rt =>
      have hb3 : batch3 db rec = insertRuntableNC (batch2 db rec) rt := by
        unfold batch3
        rw [hr3]
      have hcm9 : canonMid rec =
          rt.detectors.foldl canonDet
            (rt.data_production.foldl canonProd
              (rec.logbook.foldl canonLog ⟨[], [], []⟩)) := by
        unfold canonMid
        rw [hr3]
      rw [hr3] at hfr
      obtain ⟨S2, P2, D2, hm3, ho3, hS3, hP3, hD3, hrunlen3, hrpdlen3,
        hrdlen3, hlog3, hcond3, hafter3⟩ :=
        insertRuntableNC_spec hm2 hInv2' hfr
          (rec.logbook.foldl canonLog ⟨[], [], []⟩) hcanon2
          (by simp [canonLog_fold_rpds]) (by simp [canonLog_fold_rds])
      rw [hb3, hcm9]
      refine ⟨S2, P2, D2, hm3, ho3, hS3, hP3, hD3, hrunlen3, ?_, ?_,
        hlog3, ?_, ?_⟩
      · simp only [List.length_nil] at hrpdlen3
        omega
      · simp only [List.length_nil] at hrdlen3
        omega
      · intro hready
        refine hcond3 ?_
        intro det hdet k hk
        exact hready k ((mem_detNames hr3 k).mpr ⟨det, hdet, hk⟩)
      · intro k hk
        obtain ⟨det, hdet, hkk⟩ := (mem_detNames hr3 k).mp hk
        exact hafter3 det hdet k hkk
  obtain ⟨S2, P2, D2, hm3, ho3, hS3m, hP3m, hD3m, hrunlen3, hrpdlen3,
    hrdlen3, hlog3, hcond3, hafter3⟩ := hstage3
  obtain ⟨hInv3, hop3, he3, hq3, hw3, hdx3, -, -, hcm3, hrm3⟩ := ho3
  have hstage4 : ∃ S3 P3,
      MCtx rec.experiment_id (batch4 db rec) S3 P3 D2 ∧
      MachOut rec.experiment_id (batch3 db rec) (batch4 db rec) ∧
      S3.map Prod.fst = (canonOfRec rec).runs ∧
      P3.map Prod.fst = (canonOfRec rec).rpds ∧
      D2.map Prod.fst = (canonOfRec rec).rds ∧
      (batch4 db rec).run.length + S2.length =
        (batch3 db rec).run.length + S3.length ∧
      (batch4 db rec).rpd.length + P2.length =
        (batch3 db rec).rpd.length + P3.length ∧
      (batch4 db rec).runDetector = (batch3 db rec).runDetector ∧
      (batch4 db rec).detector = (batch3 db rec).detector ∧
      (batch4 db rec).logbook = (batch3 db rec).logbook := by
    cases hf4 : rec.file_manager with
    | none =>
      have hb4 : batch4 db rec = batch3 db rec := by
        unfold batch4
        rw [hf4]
      have hco : canonOfRec rec = canonMid rec := by
        rw [canonOfRec_eq, hf4]
      rw [hb4, hco]
      exact ⟨S2, P2, hm3, MachOut_refl hInv3, hS3m, hP3m, hD3m, rfl, rfl,
        rfl, rfl, rfl⟩
    | some fm =>
      have hb4 : batch4 db rec = insertFileManagerNC (batch3 db rec) fm := by
        unfold batch4
        rw [hf4]
      have hco : canonOfRec rec =
          fm.file_manager_records.foldl canonFM (canonMid rec) := by
        rw [canonOfRec_eq, hf4]
      rw [hf4] at hff
      obtain ⟨S3, P3, hm4, ho4, hS4, hP4, hrunlen4, hrpdlen4, hrd4, hdet4,
        hlog4⟩ := insertFileManagerNC_spec hm3 hInv3 hff (canonMid rec)
          hS3m hP3m
      rw [hb4, hco]
      refine ⟨S3, P3, hm4, ho4, hS4, hP4, ?_, hrunlen4, hrpdlen4, hrd4,
        hdet4, hlog4⟩
      rw [canonFM_fold_rds]
      exact hD3m
  obtain ⟨S3, P3, hm4p, ho4, hS4m, hP4m, hD4m, hrunlen4, hrpdlen4, hrd4,
    hdet4, hlog4⟩ := hstage4
  obtain ⟨hInv4, hop4, he4, hq4m, hw4m, -, -, -, hcm4, hrm4⟩ := ho4
  have hq4 : (batch4 db rec).questionnaire = db.questionnaire := by
    rw [hq4m, hq3, hq2, h1q]
  have hstage5 :
      (batch5 db rec).questionnaire =
        (batch4 db rec).questionnaire ++ qRowsOf rec ∧
      (batch5 db rec).experiment = (batch4 db rec).experiment ∧
      (batch5 db rec).workflow = (batch4 db rec).workflow ∧
      (batch5 db rec).run = (batch4 db rec).run ∧
      (batch5 db rec).rpd = (batch4 db rec).rpd ∧
      (batch5 db rec).detector = (batch4 db rec).detector ∧
      (batch5 db rec).runDetector = (batch4 db rec).runDetector ∧
      (batch5 db rec).logbook = (batch4 db rec).logbook ∧
      (batch5 db rec).nextRunId = (batch4 db rec).nextRunId ∧
      (batch5 db rec).nextDetectorId = (batch4 db rec).nextDetectorId ∧
      (batch5 db rec).runIdCache = (batch4 db rec).runIdCache ∧
      (batch5 db rec).detectorCache = (batch4 db rec).detectorCache := by
    cases hq5 : rec.questionnaire with
    | none =>
      have hb5 : batch5 db rec = batch4 db rec := by
        unfold batch5
        rw [hq5]
      have hqr : qRowsOf rec = [] := by
        unfold qRowsOf
        rw [hq5]
      rw [hb5, hqr]
      exact ⟨by simp, rfl, rfl, rfl, rfl, rfl, rfl, rfl, rfl, rfl, rfl, rfl⟩
    | some q =>
      have hb5 : batch5 db rec = insertQuestionnaireNC (batch4 db rec) q := by
        unfold batch5
        rw [hq5]
      have hqr : qRowsOf rec = qRowsCanon q := by
        unfold qRowsOf
        rw [hq5]
      rw [hq5] at hfq
      have hcleanq : ∀ r ∈ (batch4 db rec).questionnaire,
          r.experiment_id ≠ rec.experiment_id := by
        rw [hq4]
        exact hcq
      rw [hb5, hqr]
      exact insertQuestionnaireNC_spec hcleanq hfq
  obtain ⟨p5q, p5e, p5w, p5run, p5rpd, p5det, p5rd, p5log, p5nr, p5nd,
    p5ric, p5dc⟩ := hstage5
  have hw5 : (batch5 db rec).workflow = db.workflow := by
    rw [p5w, hw4m, hw3, hw2, h1w]
  have hstage6 :
      (batch6 db rec).workflow =
        (batch5 db rec).workflow ++ wRowsOf rec ∧
      (batch6 db rec).experiment = (batch5 db rec).experiment ∧
      (batch6 db rec).questionnaire = (batch5 db rec).questionnaire ∧
      (batch6 db rec).run = (batch5 db rec).run ∧
      (batch6 db rec).rpd = (batch5 db rec).rpd ∧
      (batch6 db rec).detector = (batch5 db rec).detector ∧
      (batch6 db rec).runDetector = (batch5 db rec).runDetector ∧
      (batch6 db rec).logbook = (batch5 db rec).logbook ∧
      (batch6 db rec).nextRunId = (batch5 db rec).nextRunId ∧
      (batch6 db rec).nextDetectorId = (batch5 db rec).nextDetectorId ∧
      (batch6 db rec).runIdCache = (batch5 db rec).runIdCache ∧
      (batch6 db rec).detectorCache = (batch5 db rec).detectorCache := by
    cases hw6 : rec.workflow with
    | none =>
      have hb6 : batch6 db rec = batch5 db rec := by
        unfold batch6
        rw [hw6]
      have hwr : wRowsOf rec = [] := by
        unfold wRowsOf
        rw [hw6]
      rw [hb6, hwr]
      exact ⟨by simp, rfl, rfl, rfl, rfl, rfl, rfl, rfl, rfl, rfl, rfl, rfl⟩
    | some w =>
      have hb6 : batch6 db rec = insertWorkflowNC (batch5 db rec) w := by
        unfold batch6
        rw [hw6]
      have hwr : wRowsOf rec = w.workflows.map
          (fun wf =>
            (⟨w.experiment_id, wf.mongo_id, wf.name, wf.executable,
              wf.trigger, wf.location, wf.parameters, wf.run_param_name,
              wf.run_param_value, wf.run_as_user⟩ : WRow)) := by
        unfold wRowsOf
        rw [hw6]
      rw [hw6] at hfw
      have hcleanw : ∀ r ∈ (batch5 db rec).workflow,
          r.experiment_id ≠ rec.experiment_id := by
        rw [hw5]
        exact hcw
      rw [hb6, hwr]
      exact insertWorkflowNC_spec hcleanw hfw
  obtain ⟨p6w, p6e, p6q, p6run, p6rpd, p6det, p6rd, p6log, p6nr, p6nd,
    p6ric, p6dc⟩ := hstage6
  have hS3len : S3.length = (canonOfRec rec).runs.length := by
    have h9 := congrArg List.length hS4m
    rwa [List.length_map] at h9
  have hP3len : P3.length = (canonOfRec rec).rpds.length := by
    have h9 := congrArg List.length hP4m
    rwa [List.length_map] at h9
  have hD2len : D2.length = (canonOfRec rec).rds.length := by
    have h9 := congrArg List.length hD4m
    rwa [List.length_map] at h9
  have hexpF : (batch6 db rec).experiment =
      db.experiment ++ expRows rec := by
    rw [p6e, p5e, he4, he3, he2, h1exp]
  have hqF : (batch6 db rec).questionnaire =
      db.questionnaire ++ qRowsOf rec := by
    rw [p6q, p5q, hq4]
  have hwF : (batch6 db rec).workflow = db.workflow ++ wRowsOf rec := by
    rw [p6w, p5w, hw4m, hw3, hw2, h1w]
  have hlogF : (batch6 db rec).logbook = (batch2 db rec).logbook := by
    rw [p6log, p5log, hlog4, hlog3]
  have hdetF : (batch6 db rec).detector = (batch3 db rec).detector := by
    rw [p6det, p5det, hdet4]
  have hmF : MCtx rec.experiment_id (batch6 db rec) S3 P3 D2 := by
    have hm5 : MCtx rec.experiment_id (batch5 db rec) S3 P3 D2 :=
      MCtx_of_fields hm4p p5run p5ric p5rpd p5rd p5nr
        (fun k v hv => by rw [p5dc]; exact hv)
    exact MCtx_of_fields hm5 p6run p6ric p6rpd p6rd p6nr
      (fun k v hv => by rw [p6dc]; exact hv)
  have hInvF : StoreInv (batch6 db rec) := by
    have hInv5 : StoreInv (batch5 db rec) :=
      StoreInv_of_fields hInv4 p5run p5rpd p5rd p5det p5nr p5nd p5dc
    exact StoreInv_of_fields hInv5 p6run p6rpd p6rd p6det p6nr p6nd p6dc
  have h1q' : (batch1 db rec).questionnaire =
      db.questionnaire ++ ([] : List QRow) := by
    rw [h1q]
    simp
  have h1w' : (batch1 db rec).workflow =
      db.workflow ++ ([] : List WRow) := by
    rw [h1w]
    simp
  have p5e' : (batch5 db rec).experiment =
      (batch4 db rec).experiment ++ ([] : List ExperimentRow) := by
    rw [p5e]
    simp
  have p5w' : (batch5 db rec).workflow =
      (batch4 db rec).workflow ++ ([] : List WRow) := by
    rw [p5w]
    simp
  have p6e' : (batch6 db rec).experiment =
      (batch5 db rec).experiment ++ ([] : List ExperimentRow) := by
    rw [p6e]
    simp
  have p6q' : (batch6 db rec).questionnaire =
      (batch5 db rec).questionnaire ++ ([] : List QRow) := by
    rw [p6q]
    simp
  have hop1 : OtherPreserved rec.experiment_id db (batch1 db rec) :=
    OtherPreserved_append3 h1exp (expRows_ids hfm) h1q' (by simp) h1w'
      (by simp) h1log h1run h1rpd h1rd
  have hop5 : OtherPreserved rec.experiment_id (batch4 db rec)
      (batch5 db rec) :=
    OtherPreserved_append3 p5e' (by simp) p5q (qRowsOf_ids hfm) p5w'
      (by simp) p5log p5run p5rpd p5rd
  have hop6 : OtherPreserved rec.experiment_id (batch5 db rec)
      (batch6 db rec) :=
    OtherPreserved_append3 p6e' (by simp) p6q' (by simp) p6w
      (wRowsOf_ids hfm) p6log p6run p6rpd p6rd
  have hopF : OtherPreserved rec.experiment_id db (batch6 db rec) :=
    OtherPreserved_trans hop1 (OtherPreserved_trans hop2
      (OtherPreserved_trans hop3 (OtherPreserved_trans hop4
        (OtherPreserved_trans hop5 hop6))))
  have hne0 : db.experiment.filter
      (fun r => decide (r.experiment_id = rec.experiment_id)) = [] := by
    rw [List.filter_eq_nil_iff]
    intro r hr
    simp [hce r hr]
  have hse : (expRows rec).filter
      (fun r => decide (r.experiment_id = rec.experiment_id)) =
      expRows rec := by
    rw [List.filter_eq_self]
    intro r hr
    simp [expRows_ids hfm r hr]
  have hve : (eidExp (batch6 db rec) rec.experiment_id).length =
      expCnt rec := by
    unfold eidExp
    rw [hexpF, List.filter_append, hne0, hse]
    simp [expRows_length]
  have hnq : db.questionnaire.filter
      (fun r => decide (r.experiment_id = rec.experiment_id)) = [] := by
    rw [List.filter_eq_nil_iff]
    intro r hr
    simp [hcq r hr]
  have hsq : (qRowsOf rec).filter
      (fun r => decide (r.experiment_id = rec.experiment_id)) =
      qRowsOf rec := by
    rw [List.filter_eq_self]
    intro r hr
    simp [qRowsOf_ids hfm r hr]
  have hvq : (eidQ (batch6 db rec) rec.experiment_id).length =
      qCnt rec := by
    unfold eidQ
    rw [hqF, List.filter_append, hnq, hsq]
    simp [qRowsOf_length]
  have hnw : db.workflow.filter
      (fun r => decide (r.experiment_id = rec.experiment_id)) = [] := by
    rw [List.filter_eq_nil_iff]
    intro r hr
    simp [hcw r hr]
  have hsw : (wRowsOf rec).filter
      (fun r => decide (r.experiment_id = rec.experiment_id)) =
      wRowsOf rec := by
    rw [List.filter_eq_self]
    intro r hr
    simp [wRowsOf_ids hfm r hr]
  have hvw : (eidW (batch6 db rec) rec.experiment_id).length =
      wCnt rec := by
    unfold eidW
    rw [hwF, List.filter_append, hnw, hsw]
    simp [wRowsOf_length]
  have hvlog : (eidLog (batch6 db rec) rec.experiment_id).length =
      rec.logbook.length := by
    have h9 : eidLog (batch6 db rec) rec.experiment_id =
        eidLog (batch2 db rec) rec.experiment_id := by
      unfold eidLog
      rw [hlogF]
    rw [h9]
    exact heid2
  have hvruns : (eidRuns (batch6 db rec) rec.experiment_id).length =
      (canonOfRec rec).runs.length := by
    have h9 := congrArg List.length hmF.1
    rw [List.length_map] at h9
    exact h9.trans hS3len
  have hidsF : runIdsOf (batch6 db rec) rec.experiment_id =
      S3.map Prod.snd := runIdsOf_eq_of_MCtx hmF
  have hvrpd : (eidRPD (batch6 db rec) rec.experiment_id).length =
      (canonOfRec rec).rpds.length := by
    have h9 := congrArg List.length hmF.2.2.2.2.2.1
    rw [List.length_map, List.length_map] at h9
    unfold eidRPD
    rw [hidsF]
    exact h9.trans hP3len
  have hvrd : (eidRD (batch6 db rec) rec.experiment_id).length =
      (canonOfRec rec).rds.length := by
    have h9 := congrArg List.length hmF.2.2.2.2.2.2.2.1
    rw [List.length_map, List.length_map] at h9
    unfold eidRD
    rw [hidsF]
    exact h9.trans hD2len
  have hvc : ViewCounts (batch6 db rec) rec :=
    ⟨hve, hvq, hvw, hvlog, hvruns, hvrpd, hvrd⟩
  have hlenExp : (batch6 db rec).experiment.length =
      db.experiment.length + expCnt rec := by
    rw [hexpF]
    simp [expRows_length]
  have hlenQ : (batch6 db rec).questionnaire.length =
      db.questionnaire.length + qCnt rec := by
    rw [hqF]
    simp [qRowsOf_length]
  have hlenW : (batch6 db rec).workflow.length =
      db.workflow.length + wCnt rec := by
    rw [hwF]
    simp [wRowsOf_length]
  have hlenLog : (batch6 db rec).logbook.length =
      db.logbook.length + rec.logbook.length := by
    rw [hlogF, hloglen2, h1log]
  have hlenRun : (batch6 db rec).run.length =
      db.run.length + (canonOfRec rec).runs.length := by
    have e6 : (batch6 db rec).run = (batch4 db rec).run := by
      rw [p6run, p5run]
    have l6 := congrArg List.length e6
    have l1 := congrArg List.length h1run
    simp only [List.length_nil] at hrunlen2
    omega
  have hlenRpd : (batch6 db rec).rpd.length =
      db.rpd.length + (canonOfRec rec).rpds.length := by
    have e6 : (batch6 db rec).rpd = (batch4 db rec).rpd := by
      rw [p6rpd, p5rpd]
    have l6 := congrArg List.length e6
    have l2 := congrArg List.length hrpd2
    have l1 := congrArg List.length h1rpd
    omega
  have hlenRd : (batch6 db rec).runDetector.length =
      db.runDetector.length + (canonOfRec rec).rds.length := by
    have e6 : (batch6 db rec).runDetector = (batch4 db rec).runDetector := by
      rw [p6rd, p5rd]
    have l6 := congrArg List.length e6
    have l4 := congrArg List.length hrd4
    have l2 := congrArg List.length hrd2
    have l1 := congrArg List.length h1rd
    omega
  have hexistsF : ∃ t, (batch6 db rec).detector = db.detector ++ t := by
    obtain ⟨t, ht⟩ := hdx3
    exact ⟨t, by rw [hdetF, ht, hdet2, h1det]⟩
  have hcondF : (∀ k ∈ detNamesOf rec, detReady db k) →
      (batch6 db rec).detector = db.detector := by
    intro hready
    have hready2 : ∀ k ∈ detNamesOf rec, detReady (batch2 db rec) k := by
      intro k hk
      have h0 := hready k hk
      unfold detReady at h0 ⊢
      rw [hdet2, h1det]
      exact h0
    rw [hdetF, hcond3 hready2, hdet2, h1det]
  have hafterF : ∀ k ∈ detNamesOf rec, detReady (batch6 db rec) k := by
    intro k hk
    have h0 := hafter3 k hk
    unfold detReady at h0 ⊢
    rw [hdetF]
    exact h0
  have hmonoF : ∀ nm, detReady db nm → detReady (batch6 db rec) nm := by
    intro nm h0
    have h1 : detReady (batch2 db rec) nm := by
      unfold detReady at h0 ⊢
      rw [hdet2, h1det]
      exact h0
    have h2 := hrm3 nm h1
    unfold detReady at h2 ⊢
    rw [hdetF]
    exact h2
  exact ⟨hInvF, hopF, hvc, hlenExp, hlenQ, hlenW, hlenLog, hlenRun,
    hlenRpd, hlenRd, hexistsF, hcondF, hafterF, hmonoF⟩

theorem filter_keep_of_imp {α : Type} {p q : α → Bool} (l : List α)
    (h : ∀ x, q x = true → p x = true) :
    (l.filter p).filter q = l.filter q := by
  rw [List.filter_filter]
  apply List.filter_congr
  intro x _
  cases hq : q x with
  | false => simp [hq]
  | true => simp [hq, h x hq]

/-- Distinct experiments own disjoint `Run` id sets: run ids are
pairwise distinct under the store invariant. -/
theorem runIds_disjoint {db : DB} (hInv : StoreInv db) {e eid : String}
    (hne : e ≠ eid) :
    ∀ n, n ∈ runIdsOf db e → n ∈ runIdsOf db eid → False := by
  intro n h1 h2
  unfold runIdsOf at h1 h2
  obtain ⟨r1, hr1, hn1⟩ := List.mem_map.mp h1
  obtain ⟨r2, hr2, hn2⟩ := List.mem_map.mp h2
  have hm1 := List.mem_filter.mp hr1
  have hm2 := List.mem_filter.mp hr2
  have he1 : r1.experiment_id = e := by simpa using hm1.2
  have he2 : r2.experiment_id = eid := by simpa using hm2.2
  by_cases hr : r1 = r2
  · apply hne
    rw [← he1, hr, he2]
  · have hsym : Symmetric (fun a b : RunRow => a.run_id ≠ b.run_id) :=
      fun a b hab => hab.symm
    have hR := List.Pairwise.forall hsym hInv.1 hm1.1 hm2.1 hr
    exact hR (hn1.trans hn2.symm)

/-- `delete_experiment`: clears every trace of the experiment, keeps
every other experiment's views, preserves the store invariant, and
each table shrinks by exactly the experiment's view. -/
theorem deleteExperiment_spec (db : DB) (eid : String) (hInv : StoreInv db) :
    StoreInv (deleteExperiment db eid) ∧
    EidCleared (deleteExperiment db eid) eid ∧
    OtherPreserved eid db (deleteExperiment db eid) ∧
    (deleteExperiment db eid).experiment.length + (eidExp db eid).length =
      db.experiment.length ∧
    (deleteExperiment db eid).questionnaire.length + (eidQ db eid).length =
      db.questionnaire.length ∧
    (deleteExperiment db eid).workflow.length + (eidW db eid).length =
      db.workflow.length ∧
    (deleteExperiment db eid).logbook.length + (eidLog db eid).length =
      db.logbook.length ∧
    (deleteExperiment db eid).run.length + (eidRuns db eid).length =
      db.run.length ∧
    (deleteExperiment db eid).rpd.length + (eidRPD db eid).length =
      db.rpd.length ∧
    (deleteExperiment db eid).runDetector.length + (eidRD db eid).length =
      db.runDetector.length ∧
    (deleteExperiment db eid).detector = db.detector ∧
    (deleteExperiment db eid).detectorCache = db.detectorCache ∧
    (deleteExperiment db eid).nextRunId = db.nextRunId ∧
    (deleteExperiment db eid).nextDetectorId = db.nextDetectorId := by
  have hE : (deleteExperiment db eid).experiment =
      db.experiment.filter (fun r => r.experiment_id ≠ eid) := rfl
  have hQ : (deleteExperiment db eid).questionnaire =
      db.questionnaire.filter (fun r => r.experiment_id ≠ eid) := rfl
  have hW : (deleteExperiment db eid).workflow =
      db.workflow.filter (fun r => r.experiment_id ≠ eid) := rfl
  have hL : (deleteExperiment db eid).logbook =
      db.logbook.filter (fun r => r.experiment_id ≠ eid) := rfl
  have hR : (deleteExperiment db eid).run =
      db.run.filter (fun r => r.experiment_id ≠ eid) := rfl
  have hP : (deleteExperiment db eid).rpd =
      db.rpd.filter (fun p => ¬ p.run_id ∈ runIdsOf db eid) := rfl
  have hD : (deleteExperiment db eid).runDetector =
      db.runDetector.filter (fun d => ¬ d.run_id ∈ runIdsOf db eid) := rfl
  have hC : (deleteExperiment db eid).runIdCache =
      db.runIdCache.filter
        (fun p => ! pyStartsWith p.1 (eid ++ "_")) := rfl
  have hDet : (deleteExperiment db eid).detector = db.detector := rfl
  have hDC : (deleteExperiment db eid).detectorCache = db.detectorCache := rfl
  have hNR : (deleteExperiment db eid).nextRunId = db.nextRunId := rfl
  have hND : (deleteExperiment db eid).nextDetectorId =
      db.nextDetectorId := rfl
  obtain ⟨hi1, hi2, hi3, hi4, hi5, hi6, hi7⟩ := hInv
  have hids : ∀ e, e ≠ eid →
      runIdsOf (deleteExperiment db eid) e = runIdsOf db e := by
    intro e he
    unfold runIdsOf
    rw [hR, filter_keep_of_imp]
    intro x hx
    simp only [decide_eq_true_eq] at hx
    simp [hx, he]
  refine ⟨?_, ?_, ?_, ?_, ?_, ?_, ?_, ?_, ?_, ?_, hDet, hDC, hNR, hND⟩
  · -- the store invariant survives the deletes
    refine ⟨?_, ?_, ?_, ?_, ?_, ?_, ?_⟩
    · rw [hR]
      exact hi1.sublist (List.filter_sublist _)
    · intro r hr
      rw [hR] at hr
      rw [hNR]
      exact hi2 r (List.mem_of_mem_filter hr)
    · intro p hp
      rw [hP] at hp
      rw [hNR]
      exact hi3 p (List.mem_of_mem_filter hp)
    · intro d hd
      rw [hD] at hd
      rw [hNR]
      exact hi4 d (List.mem_of_mem_filter hd)
    · rw [hDet]
      exact hi5
    · intro d hd
      rw [hDet] at hd
      rw [hND]
      exact hi6 d hd
    · intro kv hkv
      rw [hDC] at hkv
      rw [hDet]
      exact hi7 kv hkv
  · -- no trace of the experiment remains
    refine ⟨?_, ?_, ?_, ?_, ?_, ?_⟩
    · intro r hr
      rw [hE] at hr
      simpa using List.of_mem_filter hr
    · intro r hr
      rw [hQ] at hr
      simpa using List.of_mem_filter hr
    · intro r hr
      rw [hW] at hr
      simpa using List.of_mem_filter hr
    · intro r hr
      rw [hL] at hr
      simpa using List.of_mem_filter hr
    · intro r hr
      rw [hR] at hr
      simpa using List.of_mem_filter hr
    · intro p hp
      rw [hC] at hp
      have := List.of_mem_filter hp
      simpa using this
  · -- other experiments' views are untouched
    refine ⟨?_, ?_, ?_, ?_, ?_, ?_, ?_⟩ <;> intro e he
    · unfold eidExp
      rw [hE, filter_keep_of_imp]
      intro x hx
      simp only [decide_eq_true_eq] at hx
      simp [hx, he]
    · unfold eidQ
      rw [hQ, filter_keep_of_imp]
      intro x hx
      simp only [decide_eq_true_eq] at hx
      simp [hx, he]
    · unfold eidW
      rw [hW, filter_keep_of_imp]
      intro x hx
      simp only [decide_eq_true_eq] at hx
      simp [hx, he]
    · unfold eidLog
      rw [hL, filter_keep_of_imp]
      intro x hx
      simp only [decide_eq_true_eq] at hx
      simp [hx, he]
    · unfold eidRuns
      rw [hR, filter_keep_of_imp]
      intro x hx
      simp only [decide_eq_true_eq] at hx
      simp [hx, he]
    · unfold eidRPD
      rw [hids e he, hP, filter_keep_of_imp]
      intro x hx
      simp only [decide_eq_true_eq] at hx
      simp only [decide_eq_true_eq]
      intro hmem
      exact runIds_disjoint ⟨hi1, hi2, hi3, hi4, hi5, hi6, hi7⟩ he
        x.run_id hx hmem
    · unfold eidRD
      rw [hids e he, hD, filter_keep_of_imp]
      intro x hx
      simp only [decide_eq_true_eq] at hx
      simp only [decide_eq_true_eq]
      intro hmem
      exact runIds_disjoint ⟨hi1, hi2, hi3, hi4, hi5, hi6, hi7⟩ he
        x.run_id hx hmem
  · unfold eidExp
    rw [hE]
    exact length_filter_split _ _ _ (fun x => by simp [decide_not])
  · unfold eidQ
    rw [hQ]
    exact length_filter_split _ _ _ (fun x => by simp [decide_not])
  · unfold eidW
    rw [hW]
    exact length_filter_split _ _ _ (fun x => by simp [decide_not])
  · unfold eidLog
    rw [hL]
    exact length_filter_split _ _ _ (fun x => by simp [decide_not])
  · unfold eidRuns
    rw [hR]
    exact length_filter_split _ _ _ (fun x => by simp [decide_not])
  · unfold eidRPD
    rw [hP]
    exact length_filter_split _ _ _ (fun x => by simp [decide_not])
  · unfold eidRD
    rw [hD]
    exact length_filter_split _ _ _ (fun x => by simp [decide_not])

/-- One incremental write of a fresh record over a well-formed store. -/
theorem procIncr_pass1 {db : DB} {rec : CompositeRecord}
    (hInv : StoreInv db) (hfm : FacetIdsMatch rec) :
    StoreInv (procIncr db rec) ∧
    OtherPreserved rec.experiment_id db (procIncr db rec) ∧
    ViewCounts (procIncr db rec) rec ∧
    DetReadyFor (procIncr db rec) rec ∧
    (∀ nm, detReady db nm → detReady (procIncr db rec) nm) := by
  obtain ⟨dInv, dClear, dOP, -, -, -, -, -, -, -, dDet, dDC, dNR, dND⟩ :=
    deleteExperiment_spec db rec.experiment_id hInv
  obtain ⟨iInv, iOP, iVC, -, -, -, -, -, -, -, -, -, iAfter, iMono⟩ :=
    insertBatch_spec dInv dClear hfm
  have hp : procIncr db rec =
      insertExperimentBatch (deleteExperiment db rec.experiment_id) rec :=
    rfl
  rw [hp]
  refine ⟨iInv, OtherPreserved_trans dOP iOP, iVC, iAfter, ?_⟩
  intro nm h0
  apply iMono
  unfold detReady at h0 ⊢
  rw [dDet]
  exact h0

/-- Views of the experiments outside a given id set are untouched. -/
def OutsideViews (eids : List String) (db db' : DB) : Prop :=
  ∀ e, e ∉ eids →
    eidExp db' e = eidExp db e ∧ eidQ db' e = eidQ db e ∧
    eidW db' e = eidW db e ∧ eidLog db' e = eidLog db e ∧
    eidRuns db' e = eidRuns db e ∧ eidRPD db' e = eidRPD db e ∧
    eidRD db' e = eidRD db e

/-- First incremental run over pairwise-distinct facet-consistent
records: the final store is well formed and each record's views carry
its canonical counts. -/
theorem runIncr_pass1 :
    ∀ (recs : List CompositeRecord) (db : DB), StoreInv db →
      recs.Pairwise (fun a b => a.experiment_id ≠ b.experiment_id) →
      (∀ rec ∈ recs, FacetIdsMatch rec) →
      StoreInv (runIncr db recs) ∧
      (∀ rec ∈ recs, ViewCounts (runIncr db recs) rec ∧
        DetReadyFor (runIncr db recs) rec) ∧
      OutsideViews (recs.map (fun r => r.experiment_id)) db
        (runIncr db recs) ∧
      (∀ nm, detReady db nm → detReady (runIncr db recs) nm) := by
  intro recs
  induction recs with
  | nil =>
    intro db hInv hp hf
    exact ⟨hInv, by simp,
      fun e he => ⟨rfl, rfl, rfl, rfl, rfl, rfl, rfl⟩, fun nm h => h⟩
  | cons rec rest ih =>
    intro db hInv hp hf
    have hfr : FacetIdsMatch rec := hf rec (by simp)
    obtain ⟨sInv, sOP, sVC, sReady, sMono⟩ := procIncr_pass1 hInv hfr
    have hpr := List.pairwise_cons.mp hp
    have hrun : runIncr db (rec :: rest) = runIncr (procIncr db rec) rest :=
      rfl
    rw [hrun]
    obtain ⟨fInv, fVC, fOut, fMono⟩ := ih (procIncr db rec) sInv hpr.2
      (fun r hr => hf r (by simp [hr]))
    have hnotin : rec.experiment_id ∉
        rest.map (fun r => r.experiment_id) := by
      intro hmem
      obtain ⟨b, hb, hbe⟩ := List.mem_map.mp hmem
      exact hpr.1 b hb hbe.symm
    refine ⟨fInv, ?_, ?_, fun nm h0 => fMono nm (sMono nm h0)⟩
    · intro r hr
      rcases List.mem_cons.mp hr with hr1 | hr2
      · subst hr1
        obtain ⟨o1, o2, o3, o4, o5, o6, o7⟩ := fOut r.experiment_id hnotin
        obtain ⟨v1, v2, v3, v4, v5, v6, v7⟩ := sVC
        refine ⟨⟨?_, ?_, ?_, ?_, ?_, ?_, ?_⟩, ?_⟩
        · rw [o1]; exact v1
        · rw [o2]; exact v2
        · rw [o3]; exact v3
        · rw [o4]; exact v4
        · rw [o5]; exact v5
        · rw [o6]; exact v6
        · rw [o7]; exact v7
        · exact fun k hk => fMono k (sReady k hk)
      · exact fVC r hr2
    · intro e he
      have he1 : e ≠ rec.experiment_id := by
        intro hc
        exact he (by simp [hc])
      have he2 : e ∉ rest.map (fun r => r.experiment_id) := by
        intro hc
        exact he (by simp [hc])
      obtain ⟨o1, o2, o3, o4, o5, o6, o7⟩ := fOut e he2
      exact ⟨o1.trans (sOP.1 e he1), o2.trans (sOP.2.1 e he1),
        o3.trans (sOP.2.2.1 e he1), o4.trans (sOP.2.2.2.1 e he1),
        o5.trans (sOP.2.2.2.2.1 e he1), o6.trans (sOP.2.2.2.2.2.1 e he1),
        o7.trans (sOP.2.2.2.2.2.2 e he1)⟩

/-- One incremental re-write of a record whose views already carry its
canonical counts: every table count is preserved exactly. -/
theorem procIncr_pass2 {db : DB} {rec : CompositeRecord}
    (hInv : StoreInv db) (hfm : FacetIdsMatch rec)
    (hvc : ViewCounts db rec) (hready : DetReadyFor db rec) :
    countsOf (procIncr db rec) = countsOf db ∧
    StoreInv (procIncr db rec) ∧
    OtherPreserved rec.experiment_id db (procIncr db rec) ∧
    (procIncr db rec).detector = db.detector := by
  obtain ⟨dInv, dClear, dOP, dLE, dLQ, dLW, dLL, dLR, dLP, dLD, dDet, dDC,
    dNR, dND⟩ := deleteExperiment_spec db rec.experiment_id hInv
  obtain ⟨iInv, iOP, iVC, iLE, iLQ, iLW, iLL, iLR, iLP, iLD, iEx, iCond,
    iAfter, iMono⟩ := insertBatch_spec dInv dClear hfm
  obtain ⟨v1, v2, v3, v4, v5, v6, v7⟩ := hvc
  have hp : procIncr db rec =
      insertExperimentBatch (deleteExperiment db rec.experiment_id) rec :=
    rfl
  rw [hp]
  have hready' : DetReadyFor (deleteExperiment db rec.experiment_id) rec :=
    fun k hk => by
      have h0 := hready k hk
      unfold detReady at h0 ⊢
      rw [dDet]
      exact h0
  have hdet2 : (insertExperimentBatch
      (deleteExperiment db rec.experiment_id) rec).detector =
      db.detector := (iCond hready').trans dDet
  refine ⟨?_, iInv, OtherPreserved_trans dOP iOP, hdet2⟩
  have hle : (insertExperimentBatch
      (deleteExperiment db rec.experiment_id) rec).experiment.length =
      db.experiment.length := by omega
  have hlq : (insertExperimentBatch
      (deleteExperiment db rec.experiment_id) rec).questionnaire.length =
      db.questionnaire.length := by omega
  have hlw : (insertExperimentBatch
      (deleteExperiment db rec.experiment_id) rec).workflow.length =
      db.workflow.length := by omega
  have hll : (insertExperimentBatch
      (deleteExperiment db rec.experiment_id) rec).logbook.length =
      db.logbook.length := by omega
  have hlr : (insertExperimentBatch
      (deleteExperiment db rec.experiment_id) rec).run.length =
      db.run.length := by omega
  have hlp : (insertExperimentBatch
      (deleteExperiment db rec.experiment_id) rec).rpd.length =
      db.rpd.length := by omega
  have hld : (insertExperimentBatch
      (deleteExperiment db rec.experiment_id) rec).runDetector.length =
      db.runDetector.length := by omega
  unfold countsOf
  rw [hle, hlr, hlp, hdet2, hld, hll, hlq, hlw]

/-- Second incremental run: with every record's views already at the
canonical counts and every detector name present, all eight table
counts are preserved. -/
theorem runIncr_pass2 :
    ∀ (recs : List CompositeRecord) (db : DB), StoreInv db →
      recs.Pairwise (fun a b => a.experiment_id ≠ b.experiment_id) →
      (∀ rec ∈ recs, FacetIdsMatch rec ∧ ViewCounts db rec ∧
        DetReadyFor db rec) →
      countsOf (runIncr db recs) = countsOf db := by
  intro recs
  induction recs with
  | nil =>
    intro db _ _ _
    rfl
  | cons rec rest ih =>
    intro db hInv hp hf
    obtain ⟨hfm1, hvc1, hrd1⟩ := hf rec (by simp)
    obtain ⟨cEq, cInv, cOP, cDet⟩ := procIncr_pass2 hInv hfm1 hvc1 hrd1
    have hpr := List.pairwise_cons.mp hp
    have hrun : runIncr db (rec :: rest) = runIncr (procIncr db rec) rest :=
      rfl
    rw [hrun]
    have hrest : ∀ r ∈ rest, FacetIdsMatch r ∧
        ViewCounts (procIncr db rec) r ∧
        DetReadyFor (procIncr db rec) r := by
      intro r hr
      obtain ⟨f1, f2, f3⟩ := hf r (by simp [hr])
      refine ⟨f1, ViewCounts_of_other cOP (hpr.1 r hr).symm f2, ?_⟩
      intro k hk
      have h0 := f3 k hk
      unfold detReady at h0 ⊢
      rw [cDet]
      exact h0
    exact (ih (procIncr db rec) cInv hpr.2 hrest).trans cEq

/-- A fresh `Database` instance over the same store file keeps the
tables, counters and invariant; the empty detector cache is trivially
backed. -/
theorem resetCaches_spec (db : DB) (hInv : StoreInv db) :
    StoreInv (resetCaches db) ∧
    countsOf (resetCaches db) = countsOf db ∧
    (∀ rec, ViewCounts db rec → ViewCounts (resetCaches db) rec) ∧
    (∀ rec, DetReadyFor db rec → DetReadyFor (resetCaches db) rec) := by
  obtain ⟨hi1, hi2, hi3, hi4, hi5, hi6, hi7⟩ := hInv
  refine ⟨⟨hi1, hi2, hi3, hi4, hi5, hi6, ?_⟩, rfl, fun rec h => h,
    fun rec h => h⟩
  intro kv hkv
  simp [resetCaches] at hkv

/-- C7: Incremental idempotence.  Running the incremental update —
`delete_experiment` followed by `insert_experiment_batch` per
composite record, all writes succeeding — a second time with the
identical records over a fresh `Database` instance on the same store
yields the same row count in every table (Experiment, Run,
RunProductionData, Detector, RunDetector, Logbook, Questionnaire,
Workflow) as after the first run: each experiment's entire entity
graph is deleted before being re-inserted.  Holds for every
well-formed store and records with pairwise-distinct experiment ids
whose facets carry their record's experiment id. -/
theorem incremental_idempotence (db : DB) (recs : List CompositeRecord)
    (hInv : StoreInv db)
    (hdist : recs.Pairwise (fun a b => a.experiment_id ≠ b.experiment_id))
    (hfm : ∀ rec ∈ recs, FacetIdsMatch rec) :
    countsOf (runIncr (resetCaches (runIncr db recs)) recs) =
      countsOf (runIncr db recs) := by
  obtain ⟨fInv, fFacts, -, -⟩ := runIncr_pass1 recs db hInv hdist hfm
  obtain ⟨rInv, rCnt, rVC, rRD⟩ := resetCaches_spec (runIncr db recs) fInv
  have hf2 : ∀ rec ∈ recs, FacetIdsMatch rec ∧
      ViewCounts (resetCaches (runIncr db recs)) rec ∧
      DetReadyFor (resetCaches (runIncr db recs)) rec := by
    intro rec hrec
    obtain ⟨v, d⟩ := fFacts rec hrec
    exact ⟨hfm rec hrec, rVC rec v, rRD rec d⟩
  exact (runIncr_pass2 recs (resetCaches (runIncr db recs)) rInv hdist
    hf2).trans rCnt

/-- A composite record exercising every facet: an experiment row, one
logbook entry on run 1, a run table with production data for run 1 and
a detector on run 1, a file-manager record on run 2, one questionnaire
field and one workflow. -/
def wrec : CompositeRecord :=
  { experiment_id := "e1",
    info := some ⟨"e1", none, none, none, none, none, none, none, none,
      none, none, none⟩,
    logbook := [⟨"L1", "e1", some 1, "t1", none, none, none⟩],
    runtable := some ⟨"e1",
      [⟨some 1, none, none, some 10, none, none, none, none⟩],
      [⟨some 1, [("run_number", "1"), ("jungfrau", "ok")]⟩]⟩,
    file_manager := some ⟨"e1", [⟨some 2, some 3, some 4⟩]⟩,
    questionnaire := some ⟨"e1", some "p",
      [⟨some "c", some "f1", some "n", some "v", none, none⟩]⟩,
    workflow := some ⟨"e1",
      [⟨none, some "wf", none, none, none, "p", none, none, none⟩]⟩ }

theorem incremental_idempotence_witness :
    StoreInv emptyDB ∧
    ([wrec].Pairwise (fun a b => a.experiment_id ≠ b.experiment_id)) ∧
    (∀ rec ∈ [wrec], FacetIdsMatch rec) ∧
    countsOf (runIncr (resetCaches (runIncr emptyDB [wrec])) [wrec]) =
      countsOf (runIncr emptyDB [wrec]) := by
  have h1 : StoreInv emptyDB := by
    refine ⟨?_, ?_, ?_, ?_, ?_, ?_, ?_⟩ <;> simp [emptyDB]
  have h2 : ([wrec].Pairwise
      (fun a b => a.experiment_id ≠ b.experiment_id)) := by
    simp
  have h3 : ∀ rec ∈ [wrec], FacetIdsMatch rec := by
    intro r hr
    have hr1 : r = wrec := by simpa using hr
    subst hr1
    exact ⟨rfl, by decide, rfl, rfl, rfl, rfl⟩
  exact ⟨h1, h2, h3, incremental_idempotence emptyDB [wrec] h1 h2 h3⟩
